import Mathlib

set_option linter.unusedSectionVars false
set_option linter.unusedVariables false
set_option maxRecDepth 100000

/-! # Gas-transport network: pipes, compressor stations, connections

A shallow embedding of `Untitled-1.cpp`.

* `int` is modelled by `Int`.  Ids are only compared and in-degrees only
  count connections; the one computation that can leave the range of an
  `int`, `nextPipeId++`, is reduced to 32 bits (`wrapInt32`).
* a `double` is a number of an arbitrary linearly ordered ring `α` (the
  rationals, the reals; the integers for the doubles without a fraction), and
  a `double` that may be `+infinity` is a `Weight α`.  The sums of lengths in
  `calculateShortestPath` are rounded to the format (`DoubleRounding`), and
  `binary64` is that rounding on the integers, with the overflow to
  `+infinity`.  The capacities and flows of `calculateMaxFlow` are small whole
  numbers, on which the arithmetic of doubles is exact.
* `std::map<int, T>` read through `operator[]` is a total function `Int → T`
  whose default is the value-initialised `T`; where the program iterates over
  a map, or asks `find`, the keys are kept explicitly.
* the global vectors `pipes`, `stations`, `connections` are the fields of a
  `Registry`.
* `while` loops take a fuel argument; the theorems show the fuel suffices.
-/

namespace GasNet

/-! ## Data model -/

/-- A `double` that may hold `+infinity`. -/
inductive Weight (α : Type) where
  | fin : α → Weight α
  | inf : Weight α
deriving DecidableEq

/-- The rounding of the `double` format on the numbers `α`: `round x` is the
double that a computation with the exact result `x` yields, `+infinity` when
`x` lies beyond the largest double. -/
class DoubleRounding (α : Type) where
  round : α → Weight α

/-- `class Pipe`. -/
structure Pipe (α : Type) where
  id : Int
  name : String
  length : α
  diameter : Int
  underRepair : Bool
  inUse : Bool

/-- `class CompressorStation`. -/
structure CompressorStation where
  id : Int
  name : String
  totalWorkshops : Int
  workingWorkshops : Int
  stationClass : Int

/-- `class NetworkConnection`. -/
structure NetworkConnection where
  pipeId : Int
  fromStationId : Int
  toStationId : Int
deriving DecidableEq

/-- The global vectors `pipes`, `stations`, `connections`. -/
structure Registry (α : Type) where
  pipes : List (Pipe α)
  stations : List CompressorStation
  connections : List NetworkConnection

/-- What a function writes to `std::cout` before it returns early. -/
inductive Diagnostic where
  /-- "Set pusta." -/
  | emptyNetwork
  /-- "... s ID <id> ne sushhestvuet." -/
  | unknownStation (id : Int)
  /-- "... ne mogut byt odnoj i toj zhe KS." -/
  | sameStation
deriving DecidableEq

section Defs

variable {α : Type} [LinearOrderedRing α]

namespace Weight

/-- `a + b` on doubles that may be infinite: the exact sum, rounded to the
format; `+infinity` when a summand is `+infinity` or the sum overflows. -/
def add [DoubleRounding α] : Weight α → Weight α → Weight α
  | fin a, fin b => DoubleRounding.round (a + b)
  | _, _ => inf

/-- The sum of two weights as exact numbers, without rounding. -/
def exactAdd : Weight α → Weight α → Weight α
  | fin a, fin b => fin (a + b)
  | _, _ => inf

/-- `a < b` on doubles that may be infinite. -/
def lt : Weight α → Weight α → Bool
  | fin a, fin b => decide (a < b)
  | fin _, inf => true
  | inf, _ => false

end Weight

/-! ## The format `binary64` -/

/-- What the search for shortest paths uses of the rounding: zero is a
double, a larger exact value never rounds to a smaller double, and what comes
out of a rounding is a double, which rounding leaves as it is.  Only
non-negative values are rounded there. -/
structure RoundingLaws (round : α → Weight α) : Prop where
  zero : round 0 = Weight.fin 0
  mono : ∀ a b y : α, 0 ≤ a → a ≤ b → round b = Weight.fin y →
    ∃ x, round a = Weight.fin x ∧ x ≤ y
  idem : ∀ a y : α, 0 ≤ a → round a = Weight.fin y → round y = Weight.fin y

/-- The weight of the last binary digit that fits into a significand of 53
bits when `k` is written in binary: 1 below `2 ^ 53`, doubled with every
further binary digit of `k`.  `fuel` bounds the number of digits. -/
def ulpOf : Nat → Nat → Nat
  | 0, _ => 1
  | fuel + 1, k => if k < 9007199254740992 then 1 else 2 * ulpOf fuel (k / 2)

/-- The multiple of `u` nearest to `k`; of two equally near ones, the even
multiple. -/
def nearestMultiple (u k : Nat) : Nat :=
  if 2 * (k % u) < u then k / u * u
  else if u < 2 * (k % u) then (k / u + 1) * u
  else if k / u % 2 = 0 then k / u * u
  else (k / u + 1) * u

/-- Rounding to nearest, ties to even, to a significand of 53 bits. -/
def roundSignificand (k : Nat) : Nat :=
  nearestMultiple (ulpOf k k) k

/-- The least whole number that no finite double reaches: `2 ^ 1024`. -/
def overflowThreshold : Nat :=
  179769313486231590772930519078902473361797697894230657273430081157732675805500963132708477322407536021120113879871393357658789768814416622492847430639474124377767893424865485276302219601246094119453082952085005768838150682342462881473913110540827237163350510684586298239947245938479716304835356329624224137216

/-- The rounding of the format `binary64` on the doubles that are whole
multiples of `2 ^ (-e)`, the integer `x` standing for `x * 2 ^ (-e)`: round
to nearest, ties to even, with a significand of 53 bits, and `+infinity` from
`2 ^ 1024` on.  With `e = 1074` these are all doubles; with `e = 0` the
doubles without a fraction.  A sum below the range, which would be
`-infinity`, is not modelled: no sum of distances is negative. -/
def binary64 (e : Nat) (x : Int) : Weight Int :=
  if 0 ≤ x then
    if roundSignificand x.toNat < overflowThreshold * 2 ^ e then
      Weight.fin (roundSignificand x.toNat)
    else Weight.inf
  else Weight.fin (-(roundSignificand (-x).toNat))

/-- On the integers, doubles are added as `binary64` adds the doubles without
a fraction. -/
instance : DoubleRounding Int where
  round := binary64 0

/-! ## Capacity / weight policy (`Pipe::getCapacity`, `Pipe::getWeight`) -/

/-- The static `capacityTable` of `Pipe::getCapacity`. -/
def capacityTable : List (Int × α) :=
  [(500, 100), (700, 300), (1000, 700), (1400, 1200)]

/-- `Pipe::getCapacity`. -/
def Pipe.getCapacity (p : Pipe α) : α :=
  if p.underRepair then 0
  else
    match (capacityTable (α := α)).lookup p.diameter with
    | some c => c
    | none => 0

/-- The capacity rule as the specification words it: zero under repair,
otherwise the fixed table, zero outside the table. -/
def capacityReference (underRepair : Bool) (diameter : Int) : α :=
  if underRepair = true then 0
  else if diameter = 500 then 100
  else if diameter = 700 then 300
  else if diameter = 1000 then 700
  else if diameter = 1400 then 1200
  else 0

/-- `Pipe::getWeight`. -/
def Pipe.getWeight (p : Pipe α) : Weight α :=
  if p.underRepair then Weight.inf else Weight.fin p.length

/-! ## Registry lookups -/

/-- `stationExists`. -/
def stationExists (reg : Registry α) (id : Int) : Bool :=
  reg.stations.any (fun s => s.id == id)

/-- The station ids in registry order. -/
def stationIds (reg : Registry α) : List Int :=
  reg.stations.map (fun s => s.id)

/-- A `std::map<int, T>` cell assignment `m[k] = v`. -/
def setAt {β : Type} (m : Int → β) (k : Int) (v : β) : Int → β :=
  fun x => if x = k then v else m x

/-- Insertion of a key into the ascending key sequence of a `std::map`. -/
def insertKey (k : Int) : List Int → List Int
  | [] => [k]
  | x :: xs =>
    if k < x then k :: x :: xs
    else if k = x then x :: xs
    else x :: insertKey k xs

/-- The ascending, duplicate-free key sequence of a `std::map` after the
given keys were inserted. -/
def mapKeys (ids : List Int) : List Int :=
  ids.foldl (fun acc k => insertKey k acc) []

/-! ## Topological sort (`topologicalSort`) -/

/-- What `topologicalSort` prints. -/
inductive TopoOutcome where
  /-- "Set pusta. Net chto sortirovat." -/
  | emptyNetwork
  /-- "V grafe obnaruzhen cikl!" -/
  | cycleDetected
  /-- The numbered list of stations. -/
  | order (sortedOrder : List Int)
  /-- The model ran out of fuel (never happens on a valid registry). -/
  | outOfFuel
deriving DecidableEq

/-- `graph[u]` of `topologicalSort`: the successors of `u`, in connection
order. -/
def successors (conns : List NetworkConnection) (u : Int) : List Int :=
  (conns.filter (fun c => c.fromStationId == u)).map (fun c => c.toStationId)

/-- `inDegree` after the two initialisation loops of `topologicalSort`. -/
def initialInDegree (conns : List NetworkConnection) : Int → Int :=
  conns.foldl (fun d c => setAt d c.toStationId (d c.toStationId + 1)) (fun _ => 0)

/-- One pass of `for (int neighbor : graph[current])`: decrement, and enqueue
on reaching zero.  The state is `(inDegree, zeroInDegree)`. -/
def decrementNeighbors (ns : List Int) (st : (Int → Int) × List Int) :
    (Int → Int) × List Int :=
  ns.foldl
    (fun st n =>
      let d := setAt st.1 n (st.1 n - 1)
      if d n = 0 then (d, st.2 ++ [n]) else (d, st.2))
    st

/-- The `while (!zeroInDegree.empty())` loop of `topologicalSort`. -/
def kahnLoop (conns : List NetworkConnection) :
    Nat → (Int → Int) → List Int → List Int → Option (List Int)
  | 0, _, _, _ => none
  | _ + 1, _, [], sortedOrder => some sortedOrder
  | fuel + 1, inDegree, current :: queue, sortedOrder =>
    let st := decrementNeighbors (successors conns current) (inDegree, queue)
    kahnLoop conns fuel st.1 st.2 (sortedOrder ++ [current])

/-- The queue `zeroInDegree` before the main loop: the keys of `inDegree`, in
ascending order, whose degree is zero. -/
def initialQueue (reg : Registry α) : List Int :=
  (mapKeys (stationIds reg ++ reg.connections.map (fun c => c.toStationId))).filter
    (fun k => initialInDegree reg.connections k == 0)

/-- `topologicalSort`. -/
def topologicalSort (reg : Registry α) : TopoOutcome :=
  if reg.connections.isEmpty then TopoOutcome.emptyNetwork
  else
    match kahnLoop reg.connections (reg.stations.length + 1)
        (initialInDegree reg.connections) (initialQueue reg) [] with
    | none => TopoOutcome.outOfFuel
    | some sortedOrder =>
      if sortedOrder.length ≠ reg.stations.length then TopoOutcome.cycleDetected
      else TopoOutcome.order sortedOrder

/-! ## Maximum flow (`calculateMaxFlow`) -/

/-- The capacity found by the pipe scan of `calculateMaxFlow`: that of the
first pipe with the given id, `0.0` when there is none. -/
def pipeCapacity (pipes : List (Pipe α)) (pipeId : Int) : α :=
  match pipes.find? (fun p => p.id == pipeId) with
  | some p => p.getCapacity
  | none => 0

/-- `graph[u]` of `calculateMaxFlow`: for every connection in turn, the forward
entry `(to, capacity)` is pushed on `graph[from]` and the reverse entry
`(from, 0.0)` on `graph[to]`. -/
def flowArcsOf (pipes : List (Pipe α)) : List NetworkConnection → Int → List (Int × α)
  | [], _ => []
  | c :: cs, u =>
    (if c.fromStationId = u then [(c.toStationId, pipeCapacity pipes c.pipeId)] else []) ++
    (if c.toStationId = u then [(c.fromStationId, (0 : α))] else []) ++
    flowArcsOf pipes cs u

/-- `graph` of `calculateMaxFlow`. -/
def flowArcs (reg : Registry α) (u : Int) : List (Int × α) :=
  flowArcsOf reg.pipes reg.connections u

/-- A cell assignment `flow[a][b] = x`. -/
def setAt2 (flow : Int → Int → α) (a b : Int) (x : α) : Int → Int → α :=
  fun i j => if i = a ∧ j = b then x else flow i j

/-- The body of `for (const auto& [neighbor, capacity] : graph[current])` in
the breadth-first search: an undiscovered neighbour behind an arc with
`capacity > flow[current][neighbor]` gets its parent and is enqueued.  The
state is `(parent, q)`; `parent x = none` says `parent.find(x) == parent.end()`. -/
def bfsVisit (flow : Int → Int → α) (current : Int)
    (st : (Int → Option Int) × List Int) (e : Int × α) : (Int → Option Int) × List Int :=
  if (st.1 e.1).isNone && decide (flow current e.1 < e.2) then
    (setAt st.1 e.1 (some current), st.2 ++ [e.1])
  else st

/-- The loop `while (!q.empty() && parent.find(sinkId) == parent.end())`. -/
def bfsLoop (graph : Int → List (Int × α)) (flow : Int → Int → α) (sinkId : Int) :
    Nat → (Int → Option Int) × List Int → Option (Int → Option Int)
  | 0, _ => none
  | _ + 1, (parent, []) => some parent
  | fuel + 1, (parent, current :: q) =>
    if (parent sinkId).isSome then some parent
    else bfsLoop graph flow sinkId fuel ((graph current).foldl (bfsVisit flow current) (parent, q))

/-- The result of a loop that may throw or exhaust the fuel of the model. -/
inductive Walk (β : Type) where
  | ok (b : β)
  | threw
  | outOfFuel

/-- The first reading of `graph[u].at(v)` in the bottleneck loop, the one the
text of the program has: `graph[u]` is a `std::vector` of pairs, so `at(v)`
is the entry at position `v` and throws `std::out_of_range` when there is
none; the capacity is the second component of the entry. -/
def atPosition (entries : List (Int × α)) (v : Int) : Option α :=
  if v < 0 then none else (entries[v.toNat]?).map (fun e => e.2)

/-- The second reading of `graph[u].at(v)`: a lookup by neighbour id, as
`at` does on a `std::map`; the first entry of `graph[u]` for the neighbour
`v` is taken, and the call throws when there is none. -/
def atNeighbor (entries : List (Int × α)) (v : Int) : Option α :=
  (entries.find? (fun e => e.1 == v)).map (fun e => e.2)

/-- The loop `for (int v = ...; v != sourceId; v = parent[v])` that computes
`pathFlow`, entered at `v` with the minimum found so far.  `capAt` is the
reading of `graph[u].at(v)`; `none` is a thrown exception. -/
def bottleneckFrom (capAt : List (Int × α) → Int → Option α) (graph : Int → List (Int × α))
    (flow : Int → Int → α) (parent : Int → Option Int) (sourceId : Int) :
    Nat → Int → α → Walk α
  | 0, _, _ => Walk.outOfFuel
  | fuel + 1, v, pathFlow =>
    if v = sourceId then Walk.ok pathFlow
    else
      let u := (parent v).getD 0
      match capAt (graph u) v with
      | none => Walk.threw
      | some c => bottleneckFrom capAt graph flow parent sourceId fuel u (min pathFlow (c - flow u v))

/-- The loop that adds `pathFlow` along the path and subtracts it on the
reverse cells. -/
def pushFlow (parent : Int → Option Int) (sourceId : Int) (pathFlow : α) :
    Nat → Int → (Int → Int → α) → Option (Int → Int → α)
  | 0, _, _ => none
  | fuel + 1, v, flow =>
    if v = sourceId then some flow
    else
      let u := (parent v).getD 0
      let flow1 := setAt2 flow u v (flow u v + pathFlow)
      let flow2 := setAt2 flow1 v u (flow1 v u - pathFlow)
      pushFlow parent sourceId pathFlow fuel u flow2

/-- The variables that live across the iterations of `while (true)`. -/
structure FlowState (α : Type) where
  flow : Int → Int → α
  maxFlow : α

/-- What one iteration of `while (true)` does. -/
inductive AugmentResult (α : Type) where
  /-- The search did not reach the sink: `break`, then `return maxFlow`. -/
  | finished (maxFlow : α)
  /-- An augmenting path was used. -/
  | augmented (st : FlowState α)
  /-- `at` threw. -/
  | threw
  /-- The model ran out of fuel inside the iteration. -/
  | outOfFuel

/-- A bound on the number of stations the search can discover, used as the
fuel of the loops inside one iteration. -/
def walkFuel (reg : Registry α) : Nat := 2 * reg.connections.length + 2

/-- The search of one iteration: `parent` when the `while` loop is left. -/
def bfs (reg : Registry α) (flow : Int → Int → α) (sourceId sinkId : Int) :
    Option (Int → Option Int) :=
  bfsLoop (flowArcs reg) flow sinkId (walkFuel reg)
    (setAt (fun _ => none) sourceId (some (-1)), [sourceId])

/-- One iteration of `while (true)` in `calculateMaxFlow`.  The function is
only entered with `sourceId ≠ sinkId`, so the bottleneck loop runs at least
once and its first round, `min(infinity, x) = x`, is written out. -/
def augmentStep (capAt : List (Int × α) → Int → Option α) (reg : Registry α)
    (sourceId sinkId : Int) (st : FlowState α) : AugmentResult α :=
  match bfs reg st.flow sourceId sinkId with
  | none => AugmentResult.outOfFuel
  | some parent =>
    if (parent sinkId).isNone then AugmentResult.finished st.maxFlow
    else
      let u := (parent sinkId).getD 0
      match capAt (flowArcs reg u) sinkId with
      | none => AugmentResult.threw
      | some c =>
        match bottleneckFrom capAt (flowArcs reg) st.flow parent sourceId (walkFuel reg) u
            (c - st.flow u sinkId) with
        | Walk.threw => AugmentResult.threw
        | Walk.outOfFuel => AugmentResult.outOfFuel
        | Walk.ok pathFlow =>
          match pushFlow parent sourceId pathFlow (walkFuel reg + 1) sinkId st.flow with
          | none => AugmentResult.outOfFuel
          | some flow => AugmentResult.augmented ⟨flow, st.maxFlow + pathFlow⟩

/-- How a call of `calculateMaxFlow` ends. -/
inductive FlowOutcome (α : Type) where
  /-- The function returns `value`, after printing `printed` if any. -/
  | returned (printed : Option Diagnostic) (value : α)
  /-- `std::out_of_range` leaves the function. -/
  | threw
  /-- The fuel given to the model is used up and the loop is still running. -/
  | outOfFuel
deriving DecidableEq

/-- The loop `while (true)` of `calculateMaxFlow`. -/
def augmentLoop (capAt : List (Int × α) → Int → Option α) (reg : Registry α)
    (sourceId sinkId : Int) : Nat → FlowState α → FlowOutcome α
  | 0, _ => FlowOutcome.outOfFuel
  | fuel + 1, st =>
    match augmentStep capAt reg sourceId sinkId st with
    | AugmentResult.finished v => FlowOutcome.returned none v
    | AugmentResult.augmented st1 => augmentLoop capAt reg sourceId sinkId fuel st1
    | AugmentResult.threw => FlowOutcome.threw
    | AugmentResult.outOfFuel => FlowOutcome.outOfFuel

/-- `calculateMaxFlow`.  `capAt` is the reading of `graph[u].at(v)` and `fuel`
bounds the number of iterations of `while (true)`. -/
def calculateMaxFlow (capAt : List (Int × α) → Int → Option α) (fuel : Nat)
    (reg : Registry α) (sourceId sinkId : Int) : FlowOutcome α :=
  if reg.connections.isEmpty then FlowOutcome.returned (some Diagnostic.emptyNetwork) 0
  else if !stationExists reg sourceId then
    FlowOutcome.returned (some (Diagnostic.unknownStation sourceId)) 0
  else if !stationExists reg sinkId then
    FlowOutcome.returned (some (Diagnostic.unknownStation sinkId)) 0
  else if sourceId = sinkId then FlowOutcome.returned (some Diagnostic.sameStation) 0
  else augmentLoop capAt reg sourceId sinkId fuel ⟨fun _ _ => 0, 0⟩

/-- The value `calculateMaxFlow` hands back to its caller, if it returns. -/
def FlowOutcome.value : FlowOutcome α → Option α
  | FlowOutcome.returned _ v => some v
  | _ => none

/-! ## Shortest path (`calculateShortestPath`) -/

/-- The weight found by the pipe scan of `calculateShortestPath`: that of the
first pipe with the given id, `0.0` when there is none. -/
def pipeWeight (pipes : List (Pipe α)) (pipeId : Int) : Weight α :=
  match pipes.find? (fun p => p.id == pipeId) with
  | some p => p.getWeight
  | none => Weight.fin 0

/-- `graph[u]` of `calculateShortestPath`: one entry `(to, weight)` for every
connection leaving `u`, in connection order. -/
def weightedArcs (reg : Registry α) (u : Int) : List (Int × Weight α) :=
  (reg.connections.filter (fun c => c.fromStationId == u)).map
    (fun c => (c.toStationId, pipeWeight reg.pipes c.pipeId))

/-- `operator<` of `std::pair<double, int>`. -/
def pairLt (a b : Weight α × Int) : Bool :=
  a.1.lt b.1 || (!(b.1.lt a.1) && decide (a.2 < b.2))

/-- `*pq.begin()`: the least element of the set. -/
def pqMin : List (Weight α × Int) → Option (Weight α × Int)
  | [] => none
  | p :: ps =>
    match pqMin ps with
    | none => some p
    | some m => if pairLt p m then some p else some m

/-- `pq.erase(p)`. -/
def pqErase (p : Weight α × Int) (pq : List (Weight α × Int)) : List (Weight α × Int) :=
  pq.filter (fun x => !decide (x = p))

/-- `pq.insert(p)`. -/
def pqInsert (p : Weight α × Int) (pq : List (Weight α × Int)) : List (Weight α × Int) :=
  if p ∈ pq then pq else p :: pq

/-- The variables of the search: `dist`, `parent` and the set `pq`. -/
structure DijkstraState (α : Type) where
  dist : Int → Weight α
  parent : Int → Int
  pq : List (Weight α × Int)

/-- The body of `for (const auto& [neighbor, weight] : graph[current])`. -/
def relax [DoubleRounding α] (current : Int) (currentDist : Weight α) (st : DijkstraState α)
    (e : Int × Weight α) : DijkstraState α :=
  let newDist := currentDist.add e.2
  if newDist.lt (st.dist e.1) then
    { dist := setAt st.dist e.1 newDist
      parent := setAt st.parent e.1 current
      pq := pqInsert (newDist, e.1) (pqErase (st.dist e.1, e.1) st.pq) }
  else st

/-- The loop `while (!pq.empty())` of `calculateShortestPath`. -/
def dijkstraLoop [DoubleRounding α] (graph : Int → List (Int × Weight α)) (endId : Int) :
    Nat → DijkstraState α → Option (DijkstraState α)
  | 0, _ => none
  | fuel + 1, st =>
    match pqMin st.pq with
    | none => some st
    | some top =>
      let st1 : DijkstraState α := { st with pq := pqErase top st.pq }
      if top.2 = endId then some st1
      else dijkstraLoop graph endId fuel ((graph top.2).foldl (relax top.2 top.1) st1)

/-- The loop `for (int v = endId; v != -1; v = parent[v]) path.push_back(v)`. -/
def walkBack (parent : Int → Int) : Nat → Int → List Int → Option (List Int)
  | 0, _, _ => none
  | fuel + 1, v, path =>
    if v = -1 then some path else walkBack parent fuel (parent v) (path ++ [v])

/-- The state before the main loop of `calculateShortestPath`. -/
def dijkstraInit (reg : Registry α) (startId : Int) : DijkstraState α where
  dist := setAt (fun x => if x ∈ stationIds reg then Weight.inf else Weight.fin 0) startId
    (Weight.fin 0)
  parent := setAt (fun _ => 0) startId (-1)
  pq := [(Weight.fin 0, startId)]

/-- What `calculateShortestPath` prints. -/
inductive PathOutcome (α : Type) where
  /-- An early return with its diagnostic. -/
  | rejected (d : Diagnostic)
  /-- "Put mezhdu KS ... ne najden." -/
  | noPath
  /-- "Obshhaja dlina: total km", "Marshrut: path".  `total` is the double
  `dist[endId]` handed to `std::cout`, which writes it with at most six
  significant digits. -/
  | route (total : α) (path : List Int)
  /-- The model ran out of fuel (never happens on a valid registry). -/
  | outOfFuel
deriving DecidableEq

/-- `calculateShortestPath`. -/
def calculateShortestPath [DoubleRounding α] (reg : Registry α) (startId endId : Int) :
    PathOutcome α :=
  if reg.connections.isEmpty then PathOutcome.rejected Diagnostic.emptyNetwork
  else if !stationExists reg startId then
    PathOutcome.rejected (Diagnostic.unknownStation startId)
  else if !stationExists reg endId then
    PathOutcome.rejected (Diagnostic.unknownStation endId)
  else if startId = endId then PathOutcome.rejected Diagnostic.sameStation
  else
    match dijkstraLoop (weightedArcs reg) endId (reg.stations.length + 1)
        (dijkstraInit reg startId) with
    | none => PathOutcome.outOfFuel
    | some st =>
      match st.dist endId with
      | Weight.inf => PathOutcome.noPath
      | Weight.fin total =>
        match walkBack st.parent (reg.stations.length + 1) endId [] with
        | none => PathOutcome.outOfFuel
        | some path => PathOutcome.route total path.reverse

/-! ## Editing the network (`connectStations`, `disconnectStations`,
`deletePipe`, `deleteCompressorStation`)

What a function reads from `std::cin` is an argument of its model: the values
the validation loops let through, and the other values as read. -/

/-- The globals the editing functions read and write: the three vectors and
the counter `nextPipeId`. -/
structure Globals (α : Type) where
  reg : Registry α
  nextPipeId : Int

/-- `Pipe::isAvailable`. -/
def Pipe.isAvailable (p : Pipe α) : Bool :=
  !p.underRepair && !p.inUse

/-- `findAvailablePipe`: the position in `pipes` of the pipe whose address is
returned, `none` for `nullptr`. -/
def findAvailablePipe (diameter : Int) : List (Pipe α) → Option Nat
  | [] => none
  | p :: ps =>
    if p.diameter = diameter ∧ p.isAvailable = true then some 0
    else (findAvailablePipe diameter ps).map (fun i => i + 1)

/-- The name, length and diameter `addPipe` reads. -/
structure PipeInput (α : Type) where
  name : String
  length : α
  diameter : Int

/-- The pipe `addPipe` builds: the next id, the values read, not under
repair, not in use. -/
def freshPipe (id : Int) (inp : PipeInput α) : Pipe α where
  id := id
  name := inp.name
  length := inp.length
  diameter := inp.diameter
  underRepair := false
  inUse := false

/-- The value an `int` holds after a computation whose exact result is `x`:
`x` reduced into the range from -2147483648 to 2147483647 (32 bits, two's
complement). -/
def wrapInt32 (x : Int) : Int :=
  (x + 2147483648) % 4294967296 - 2147483648

/-- `addPipe`.  The new pipe gets the id `nextPipeId`, and `nextPipeId++`
steps the `int` counter, which wraps around past 2147483647. -/
def addPipe (inp : PipeInput α) (g : Globals α) : Globals α where
  reg := { g.reg with pipes := g.reg.pipes ++ [freshPipe g.nextPipeId inp] }
  nextPipeId := wrapInt32 (g.nextPipeId + 1)

/-- What `connectStations` reads: the diameter, the answer to "create a new
pipe?" and what `addPipe` then reads, and the two station ids. -/
structure ConnectInput (α : Type) where
  diameter : Int
  choice : Int
  newPipe : PipeInput α
  fromId : Int
  toId : Int

/-- The assignment `pipe.inUse = b` through a pointer to the pipe at
position `i`. -/
def setInUseAt (b : Bool) : Nat → List (Pipe α) → List (Pipe α)
  | _, [] => []
  | 0, p :: ps => { p with inUse := b } :: ps
  | i + 1, p :: ps => p :: setInUseAt b i ps

/-- The second half of `connectStations`, from the reading of the station
ids on, with `availablePipe` pointing at position `i` of `pipes`.  The first
component of the result says whether the connection was made. -/
def connectVia (i : Nat) (inp : ConnectInput α) (g : Globals α) : Bool × Globals α :=
  if !stationExists g.reg inp.fromId then (false, g)
  else if !stationExists g.reg inp.toId then (false, g)
  else if inp.fromId = inp.toId then (false, g)
  else if g.reg.connections.any
      (fun c => c.fromStationId == inp.fromId && c.toStationId == inp.toId) then (false, g)
  else
    match g.reg.pipes[i]? with
    | none => (false, g)
    | some p =>
      (true,
        { g with
          reg :=
            { g.reg with
              pipes := setInUseAt true i g.reg.pipes
              connections := g.reg.connections ++ [⟨p.id, inp.fromId, inp.toId⟩] } })

/-- `connectStations`. -/
def connectStations (inp : ConnectInput α) (g : Globals α) : Bool × Globals α :=
  if g.reg.stations.length < 2 then (false, g)
  else
    match findAvailablePipe inp.diameter g.reg.pipes with
    | some i => connectVia i inp g
    | none =>
      if inp.choice = 1 then
        let g1 := addPipe inp.newPipe g
        match g1.reg.pipes[g1.reg.pipes.length - 1]? with
        | none => (false, g1)
        | some p =>
          if p.diameter ≠ inp.diameter then (false, g1)
          else connectVia (g1.reg.pipes.length - 1) inp g1
      else (false, g)

/-- The loop of `disconnectStations` over `pipes`: the first pipe with the
given id gets `inUse = false`. -/
def releasePipe (pipeId : Int) : List (Pipe α) → List (Pipe α)
  | [] => []
  | p :: ps =>
    if p.id = pipeId then { p with inUse := false } :: ps else p :: releasePipe pipeId ps

/-- `disconnectStations`, with the two station ids it reads.  The first
component of the result says whether a connection was removed. -/
def disconnectStations (fromId toId : Int) (g : Globals α) : Bool × Globals α :=
  if g.reg.connections.isEmpty then (false, g)
  else
    match g.reg.connections.find?
        (fun c => c.fromStationId == fromId && c.toStationId == toId) with
    | none => (false, g)
    | some c =>
      (true,
        { g with
          reg :=
            { g.reg with
              pipes := releasePipe c.pipeId g.reg.pipes
              connections := g.reg.connections.eraseP
                (fun c => c.fromStationId == fromId && c.toStationId == toId) } })

/-- `deletePipe`, with the id it reads.  The first component of the result
says whether a pipe was erased. -/
def deletePipe (id : Int) (g : Globals α) : Bool × Globals α :=
  if g.reg.pipes.isEmpty then (false, g)
  else if g.reg.connections.any (fun c => c.pipeId == id) then (false, g)
  else if g.reg.pipes.any (fun p => p.id == id) then
    (true, { g with reg := { g.reg with pipes := g.reg.pipes.eraseP (fun p => p.id == id) } })
  else (false, g)

/-- `deleteCompressorStation`, with the id it reads.  The first component of
the result says whether a station was erased. -/
def deleteCompressorStation (id : Int) (g : Globals α) : Bool × Globals α :=
  if g.reg.stations.isEmpty then (false, g)
  else if g.reg.connections.any
      (fun c => c.fromStationId == id || c.toStationId == id) then (false, g)
  else if g.reg.stations.any (fun s => s.id == id) then
    (true,
      { g with reg := { g.reg with stations := g.reg.stations.eraseP (fun s => s.id == id) } })
  else (false, g)

/-- The five conditions on the connections: one connection at most per
ordered pair of stations, none from a station to itself, both endpoints
existing stations, the pipe of every connection existing and backing no other
connection, and a pipe marked in use exactly when a connection references
it. -/
structure ConnectionsValid (reg : Registry α) : Prop where
  uniquePairs : (reg.connections.map (fun c => (c.fromStationId, c.toStationId))).Nodup
  noSelfLoop : ∀ c ∈ reg.connections, c.fromStationId ≠ c.toStationId
  fromExists : ∀ c ∈ reg.connections, c.fromStationId ∈ stationIds reg
  toExists : ∀ c ∈ reg.connections, c.toStationId ∈ stationIds reg
  pipeExists : ∀ c ∈ reg.connections, c.pipeId ∈ reg.pipes.map (fun p => p.id)
  pipeUnshared : (reg.connections.map (fun c => c.pipeId)).Nodup
  inUseExact : ∀ p ∈ reg.pipes,
    (p.inUse = true ↔ p.id ∈ reg.connections.map (fun c => c.pipeId))

/-- Pipe ids are pairwise different and smaller than `nextPipeId`. -/
structure PipeIdsFresh (g : Globals α) : Prop where
  unique : (g.reg.pipes.map (fun p => p.id)).Nodup
  below : ∀ p ∈ g.reg.pipes, p.id < g.nextPipeId

/-- Every pipe of `before` is still there, unchanged, at the same position,
and no connection was added or removed. -/
def Untouched (before after : Globals α) : Prop :=
  after.reg.connections = before.reg.connections ∧
    ∃ extra, after.reg.pipes = before.reg.pipes ++ extra

/-- In `after`, the pipe `p` of `before` carries `inUse = b` and every other
pipe is as it was. -/
structure FlagSet (before : List (Pipe α)) (p : Pipe α) (b : Bool)
    (after : List (Pipe α)) : Prop where
  ids : after.map (fun q => q.id) = before.map (fun q => q.id)
  changed : { p with inUse := b } ∈ after
  others : ∀ q ∈ after, q = { p with inUse := b } ∨ (q ∈ before ∧ q.id ≠ p.id)

/-- There is a connection from `a` to `b`. -/
def Arc (reg : Registry α) (a b : Int) : Prop :=
  ∃ c ∈ reg.connections, c.fromStationId = a ∧ c.toStationId = b

/-- The connection graph has no directed cycle. -/
def Acyclic (reg : Registry α) : Prop :=
  ∀ v, ¬ Relation.TransGen (Arc reg) v v

/-- The invariants the sorter relies on: station ids are unique and both
endpoints of every connection are existing stations. -/
structure StationsValid (reg : Registry α) : Prop where
  uniqueIds : (stationIds reg).Nodup
  fromExists : ∀ c ∈ reg.connections, c.fromStationId ∈ stationIds reg
  toExists : ∀ c ∈ reg.connections, c.toStationId ∈ stationIds reg

/-- Stations 1, 2, 3 with no pipes and no connections. -/
def threeStations : List CompressorStation :=
  [⟨1, "A", 1, 1, 1⟩, ⟨2, "B", 1, 1, 1⟩, ⟨3, "C", 1, 1, 1⟩]

/-- The scenario of the specification: A→B on a 500 mm pipe of length 10,
B→C on a 700 mm pipe of length 5. -/
def chainRegistry : Registry Int where
  pipes := [⟨1, "p1", 10, 500, false, true⟩, ⟨2, "p2", 5, 700, false, true⟩]
  stations := threeStations
  connections := [⟨1, 1, 2⟩, ⟨2, 2, 3⟩]

/-- The chain scenario with the extra connection C→A on a third pipe. -/
def cycleRegistry : Registry Int where
  pipes := [⟨1, "p1", 10, 500, false, true⟩, ⟨2, "p2", 5, 700, false, true⟩,
    ⟨3, "p3", 7, 1000, false, true⟩]
  stations := threeStations
  connections := [⟨1, 1, 2⟩, ⟨2, 2, 3⟩, ⟨3, 3, 1⟩]

/-- Stations 1, 2, 3 and nothing else: no pipe, no connection. -/
def isolatedRegistry : Registry Int where
  pipes := []
  stations := threeStations
  connections := []

/-- The data-model invariants of a registry: ids are unique and positive,
pipes have a positive length and one of the four diameters, every connection
joins two different existing stations over an existing pipe that backs no
other connection, no ordered pair of stations is connected twice, and a pipe
is marked in use exactly when a connection references it. -/
structure WellFormed (reg : Registry α) : Prop where
  stationIdsUnique : (stationIds reg).Nodup
  stationIdsPositive : ∀ id ∈ stationIds reg, 0 < id
  pipeIdsUnique : (reg.pipes.map (fun p => p.id)).Nodup
  lengthsPositive : ∀ p ∈ reg.pipes, 0 < p.length
  diametersValid : ∀ p ∈ reg.pipes, p.diameter ∈ [(500 : Int), 700, 1000, 1400]
  fromExists : ∀ c ∈ reg.connections, c.fromStationId ∈ stationIds reg
  toExists : ∀ c ∈ reg.connections, c.toStationId ∈ stationIds reg
  noSelfLoop : ∀ c ∈ reg.connections, c.fromStationId ≠ c.toStationId
  uniquePairs : (reg.connections.map (fun c => (c.fromStationId, c.toStationId))).Nodup
  pipeExists : ∀ c ∈ reg.connections, c.pipeId ∈ reg.pipes.map (fun p => p.id)
  pipeUnshared : (reg.connections.map (fun c => c.pipeId)).Nodup
  inUseExact : ∀ p ∈ reg.pipes,
    (p.inUse = true ↔ p.id ∈ reg.connections.map (fun c => c.pipeId))

/-- Stations 1 and 2 joined in both directions, 2→1 on pipe 1 and 1→2 on
pipe 2, both 500 mm pipes in service. -/
def antiparallelRegistry : Registry Int where
  pipes := [⟨1, "p1", 10, 500, false, true⟩, ⟨2, "p2", 5, 500, false, true⟩]
  stations := [⟨1, "A", 1, 1, 1⟩, ⟨2, "B", 1, 1, 1⟩]
  connections := [⟨1, 2, 1⟩, ⟨2, 1, 2⟩]

/-- Stations 1 and 2 joined by one connection 1→2 whose pipe is under
repair. -/
def repairRegistry : Registry Int where
  pipes := [⟨1, "p1", 10, 500, true, true⟩]
  stations := [⟨1, "A", 1, 1, 1⟩, ⟨2, "B", 1, 1, 1⟩]
  connections := [⟨1, 1, 2⟩]

/-- There is a connection from `a` to `b` whose backing pipe has a positive
capacity. -/
def PosArc (reg : Registry α) (a b : Int) : Prop :=
  ∃ c ∈ reg.connections, c.fromStationId = a ∧ c.toStationId = b ∧
    0 < pipeCapacity reg.pipes c.pipeId

/-- The search of `calculateMaxFlow` may step from `a` to `b`: `graph[a]` has
an entry for `b` with `capacity > flow[a][b]`. -/
def OpenArc (reg : Registry α) (flow : Int → Int → α) (a b : Int) : Prop :=
  ∃ e ∈ flowArcs reg a, e.1 = b ∧ flow a b < e.2

/-- Every id that occurs as an endpoint of a connection. -/
def endpoints (reg : Registry α) : List Int :=
  reg.connections.map (fun c => c.fromStationId) ++
    reg.connections.map (fun c => c.toStationId)

/-- The number of endpoints the search has not discovered yet. -/
def unseen (reg : Registry α) (parent : Int → Option Int) : Nat :=
  ((endpoints reg).filter (fun x => (parent x).isNone)).length

/-- The running total after an iteration that used an augmenting path. -/
def AugmentResult.total : AugmentResult α → Option α
  | AugmentResult.augmented st => some st.maxFlow
  | _ => none

/-- Whether the iteration ended in a thrown exception. -/
def AugmentResult.isThrew : AugmentResult α → Bool
  | AugmentResult.threw => true
  | _ => false

/-- A possibly infinite `double` as an element of the order `WithTop α`. -/
def Weight.toTop : Weight α → WithTop α
  | Weight.fin a => (a : WithTop α)
  | Weight.inf => ⊤

/-- The connections `cs`, taken in turn, lead from station `a` to station
`b`: each is a connection of the registry and starts where the previous one
ends. -/
def IsRoute (reg : Registry α) : Int → Int → List NetworkConnection → Prop
  | a, b, [] => a = b
  | a, b, c :: cs => c ∈ reg.connections ∧ c.fromStationId = a ∧ IsRoute reg c.toStationId b cs

/-- The sum, step by step from the start, of `getWeight` of the backing pipes
of a route, added up as the program adds doubles. -/
def routeWeight [DoubleRounding α] (reg : Registry α) (cs : List NetworkConnection) :
    Weight α :=
  cs.foldl (fun acc c => acc.add (pipeWeight reg.pipes c.pipeId)) (Weight.fin 0)

/-- The exact sum of `getWeight` of the backing pipes of a route. -/
def exactRouteWeight (reg : Registry α) (cs : List NetworkConnection) : Weight α :=
  cs.foldl (fun acc c => acc.exactAdd (pipeWeight reg.pipes c.pipeId)) (Weight.fin 0)

/-- The consecutive pairs of a station sequence. -/
def stepsOf : List Int → List (Int × Int)
  | a :: b :: rest => (a, b) :: stepsOf (b :: rest)
  | _ => []

/-- The connection from `u` to `v`, if there is one. -/
def connectionBetween (reg : Registry α) (u v : Int) : Option NetworkConnection :=
  reg.connections.find? (fun c => c.fromStationId == u && c.toStationId == v)

/-- The sum, step by step along a station sequence, of `getWeight` of the
pipe backing the connection of each consecutive pair (`+infinity` for a pair
that is not connected), added up as the program adds doubles. -/
def pathWeight [DoubleRounding α] (reg : Registry α) (path : List Int) : Weight α :=
  (stepsOf path).foldl
    (fun acc s =>
      match connectionBetween reg s.1 s.2 with
      | some c => acc.add (pipeWeight reg.pipes c.pipeId)
      | none => Weight.inf)
    (Weight.fin 0)

/-- The exact sum, along a station sequence, of `getWeight` of the pipe
backing the connection of each consecutive pair (`+infinity` for a pair that
is not connected). -/
def exactPathWeight (reg : Registry α) (path : List Int) : Weight α :=
  (stepsOf path).foldl
    (fun acc s =>
      match connectionBetween reg s.1 s.2 with
      | some c => acc.exactAdd (pipeWeight reg.pipes c.pipeId)
      | none => Weight.inf)
    (Weight.fin 0)

/-- The weight is a double: rounding leaves it as it is. -/
def Weight.IsDouble [DoubleRounding α] (w : Weight α) : Prop :=
  ∀ a, w = Weight.fin a → DoubleRounding.round a = Weight.fin a

/-- Every settled station other than the start has its parent among the
stations settled before it (`settled` lists the most recent first). -/
def ChainOK (parent : Int → Int) (startId : Int) : List Int → Prop
  | [] => True
  | v :: rest => (v = startId ∨ parent v ∈ rest) ∧ ChainOK parent startId rest

/-- The part of the loop invariant of `calculateShortestPath` that also holds
while the arcs of the current station are being relaxed.  `settled` are the
stations taken out of `pq` so far and `lo` is the distance of the last one. -/
structure Core [DoubleRounding α] (reg : Registry α) (startId : Int) (settled : List Int)
    (lo : WithTop α) (st : DijkstraState α) : Prop where
  start : st.dist startId = Weight.fin 0
  startParent : st.parent startId = -1
  nonneg : ∀ v, (0 : WithTop α) ≤ (st.dist v).toTop
  isDouble : ∀ v, (st.dist v).IsDouble
  settledNodup : settled.Nodup
  settledStations : ∀ u ∈ settled, u ∈ stationIds reg
  settledFinite : ∀ u ∈ settled, st.dist u ≠ Weight.inf
  settledBelow : ∀ u ∈ settled, (st.dist u).toTop ≤ lo
  queue : ∀ p, p ∈ st.pq ↔
    (p.2 ∈ stationIds reg ∧ p.2 ∉ settled ∧ p.1 = st.dist p.2 ∧ st.dist p.2 ≠ Weight.inf)
  queueAbove : ∀ p ∈ st.pq, lo ≤ p.1.toTop
  tree : ∀ v, v ∈ stationIds reg → v ≠ startId → st.dist v ≠ Weight.inf →
    st.parent v ∈ settled ∧
      ∃ e ∈ weightedArcs reg (st.parent v), e.1 = v ∧
        st.dist v = (st.dist (st.parent v)).add e.2
  chain : ChainOK st.parent startId settled

/-- Every arc leaving a settled station has been relaxed. -/
def Relaxed [DoubleRounding α] (reg : Registry α) (settled : List Int)
    (st : DijkstraState α) : Prop :=
  ∀ u ∈ settled, ∀ e ∈ weightedArcs reg u,
    (st.dist e.1).toTop ≤ ((st.dist u).add e.2).toTop

/-- What the search needs of the registry: arcs end in stations and carry a
non-negative weight. -/
structure ArcsValid (reg : Registry α) : Prop where
  target : ∀ u, ∀ e ∈ weightedArcs reg u, e.1 ∈ stationIds reg
  nonneg : ∀ u, ∀ e ∈ weightedArcs reg u, (0 : WithTop α) ≤ e.2.toTop

/-- The two stations joined in both directions, with the pipe of the
connection 1→2 under repair: the same stations and connections as
`antiparallelRegistry`, and no capacity larger. -/
def halfRepairedRegistry : Registry Int where
  pipes := [⟨1, "p1", 10, 500, false, true⟩, ⟨2, "p2", 5, 500, true, true⟩]
  stations := [⟨1, "A", 1, 1, 1⟩, ⟨2, "B", 1, 1, 1⟩]
  connections := [⟨1, 2, 1⟩, ⟨2, 1, 2⟩]

/-- The value returned after an iteration whose search did not reach the
sink. -/
def AugmentResult.finishedValue : AugmentResult α → Option α
  | AugmentResult.finished v => some v
  | _ => none

/-- The registry with the connection `c` removed from the connection list. -/
def withoutConnection (reg : Registry α) (c : NetworkConnection) : Registry α :=
  { reg with connections := reg.connections.erase c }

/-- Stations 1, 2, 3: the direct connection 1→2 runs on a pipe under repair,
the detour 1→3→2 on pipes of length 4 and 6. -/
def detourRegistry : Registry Int where
  pipes := [⟨1, "p1", 10, 500, true, true⟩, ⟨2, "p2", 4, 700, false, true⟩,
    ⟨3, "p3", 6, 700, false, true⟩]
  stations := threeStations
  connections := [⟨1, 1, 2⟩, ⟨2, 1, 3⟩, ⟨3, 3, 2⟩]

/-- Stations 1, 2, 3 with the connections 1→2 of length 10000000000000002,
2→3 of length 1 and 1→3 of length 10000000000000004; the three lengths are
doubles. -/
def roundingRegistry : Registry Int where
  pipes := [⟨1, "p1", 10000000000000002, 500, false, true⟩, ⟨2, "p2", 1, 500, false, true⟩,
    ⟨3, "p3", 10000000000000004, 500, false, true⟩]
  stations := threeStations
  connections := [⟨1, 1, 2⟩, ⟨2, 2, 3⟩, ⟨3, 1, 3⟩]

/-- Stations 1, 2, 3 with the connections 1→2 of length 9007199254740992,
which is `2 ^ 53`, and 2→3 of length 1. -/
def absorbRegistry : Registry Int where
  pipes := [⟨1, "p1", 9007199254740992, 500, false, true⟩, ⟨2, "p2", 1, 700, false, true⟩]
  stations := threeStations
  connections := [⟨1, 1, 2⟩, ⟨2, 2, 3⟩]

/-- The largest finite double, `(2 ^ 53 - 1) * 2 ^ 971`. -/
def largestDouble : Int :=
  179769313486231570814527423731704356798070567525844996598917476803157260780028538760589558632766878171540458953514382464234321326889464182768467546703537516986049910576551282076245490090389328944075868508455133942304583236903222948165808559332123348274797826204144723168738177180919299881250404026184124858368

/-- The double that the input `1e308` denotes. -/
def length1e308 : Int :=
  100000000000000001097906362944045541740492309677311846336810682903157585404911491537163328978494688899061249669721172515611590283743140088328307009198146046031271664502933027185697489699588559043338384466165001178426897626212945177628091195786707458122783970171784415105291802893207873272974885715430223118336

/-- Stations 1, 2, 3 with the connections 1→2 and 2→3, both of length
`1e308`, both pipes in service. -/
def overflowRegistry : Registry Int where
  pipes := [⟨1, "p1", length1e308, 500, false, true⟩, ⟨2, "p2", length1e308, 700, false, true⟩]
  stations := threeStations
  connections := [⟨1, 1, 2⟩, ⟨2, 2, 3⟩]

/-- Two free 500 mm pipes that carry the same id, two stations, no
connection. -/
def twinPipes : Globals Int where
  reg :=
    { pipes := [⟨1, "p1", 10, 500, false, false⟩, ⟨1, "p1bis", 10, 500, false, false⟩]
      stations := [⟨1, "A", 1, 1, 1⟩, ⟨2, "B", 1, 1, 1⟩]
      connections := [] }
  nextPipeId := 2

/-- The chain scenario as the state of the program, with `nextPipeId = 3`. -/
def chainGlobals : Globals Int where
  reg := chainRegistry
  nextPipeId := 3

/-- The chain scenario as the state of the program, with the counter
`nextPipeId` at the largest `int`. -/
def lastIdGlobals : Globals Int where
  reg := chainRegistry
  nextPipeId := 2147483647

/-- The number of connections into `v` whose origin is not yet in `out`
(the in-degree that remains once the stations of `out` are removed). -/
def pending (conns : List NetworkConnection) (out : List Int) (v : Int) : Nat :=
  (conns.filter
    (fun c => decide (c.toStationId = v) && decide (c.fromStationId ∉ out))).length

/-- The loop invariant of the main loop of `topologicalSort`. -/
structure KahnInv (reg : Registry α) (inDegree : Int → Int) (queue out : List Int) : Prop where
  nodup : (out ++ queue).Nodup
  stations : ∀ x ∈ out ++ queue, x ∈ stationIds reg
  degree : ∀ v, inDegree v = pending reg.connections out v
  zero : ∀ v ∈ stationIds reg, (v ∈ out ++ queue ↔ inDegree v = 0)
  before : ∀ c ∈ reg.connections, c.toStationId ∈ out →
    c.fromStationId ∈ out ∧ out.indexOf c.fromStationId < out.indexOf c.toStationId

end Defs

/-! ## Theorems -/

section Proofs

variable {α : Type} [LinearOrderedRing α]

/-! ### Map cells and keys -/

theorem setAt_same {β : Type} (m : Int → β) (k : Int) (v : β) : setAt m k v k = v := by
  simp [setAt]

theorem setAt_other {β : Type} (m : Int → β) (k x : Int) (v : β) (h : x ≠ k) :
    setAt m k v x = m x := by
  simp [setAt, h]

theorem mem_insertKey (k x : Int) (l : List Int) : x ∈ insertKey k l ↔ x = k ∨ x ∈ l := by
  induction l with
  | nil => simp [insertKey]
  | cons y ys ih =>
    unfold insertKey
    split_ifs with h1 h2
    · simp
    · subst h2
      simp
    · simp [ih]
      tauto

theorem sorted_insertKey (k : Int) (l : List Int) (h : l.Pairwise (· < ·)) :
    (insertKey k l).Pairwise (· < ·) := by
  induction l with
  | nil => simp [insertKey]
  | cons y ys ih =>
    unfold insertKey
    rw [List.pairwise_cons] at h
    split_ifs with h1 h2
    · refine List.pairwise_cons.2 ⟨?_, List.pairwise_cons.2 h⟩
      intro a ha
      rcases List.mem_cons.1 ha with rfl | ha
      · exact h1
      · exact lt_trans h1 (h.1 a ha)
    · exact List.pairwise_cons.2 h
    · refine List.pairwise_cons.2 ⟨?_, ih h.2⟩
      intro a ha
      rcases (mem_insertKey k a ys).1 ha with rfl | ha
      · omega
      · exact h.1 a ha

theorem mapKeys_aux (ids : List Int) : ∀ acc : List Int, acc.Pairwise (· < ·) →
    (ids.foldl (fun acc k => insertKey k acc) acc).Pairwise (· < ·) ∧
    ∀ x, x ∈ ids.foldl (fun acc k => insertKey k acc) acc ↔ x ∈ acc ∨ x ∈ ids := by
  induction ids with
  | nil => intro acc h; simp [h]
  | cons k ks ih =>
    intro acc h
    obtain ⟨h1, h2⟩ := ih (insertKey k acc) (sorted_insertKey k acc h)
    refine ⟨h1, fun x => ?_⟩
    rw [List.foldl_cons, h2, mem_insertKey]
    simp only [List.mem_cons]
    tauto

theorem mapKeys_sorted (ids : List Int) : (mapKeys ids).Pairwise (· < ·) :=
  (mapKeys_aux ids [] List.Pairwise.nil).1

theorem mem_mapKeys (ids : List Int) (x : Int) : x ∈ mapKeys ids ↔ x ∈ ids := by
  have h := (mapKeys_aux ids [] List.Pairwise.nil).2 x
  simpa [mapKeys] using h

theorem mapKeys_nodup (ids : List Int) : (mapKeys ids).Nodup :=
  (mapKeys_sorted ids).imp (fun h => ne_of_lt h)

/-! ### In-degrees -/

theorem foldl_inDegree (conns : List NetworkConnection) : ∀ (d : Int → Int) (v : Int),
    (conns.foldl (fun d c => setAt d c.toStationId (d c.toStationId + 1)) d) v =
      d v + ((conns.filter (fun c => decide (c.toStationId = v))).length : Int) := by
  induction conns with
  | nil => intro d v; simp
  | cons c cs ih =>
    intro d v
    rw [List.foldl_cons, ih]
    by_cases h : c.toStationId = v
    · subst h
      simp [setAt]
      ring
    · have h2 : v ≠ c.toStationId := fun e => h e.symm
      simp [setAt, h, h2]

theorem initialInDegree_eq_pending (conns : List NetworkConnection) (v : Int) :
    initialInDegree conns v = pending conns [] v := by
  unfold initialInDegree pending
  rw [foldl_inDegree]
  simp

theorem pending_split (conns : List NetworkConnection) (out : List Int) (cur v : Int)
    (hc : cur ∉ out) :
    pending conns out v = pending conns (out ++ [cur]) v + (successors conns cur).count v := by
  induction conns with
  | nil => simp [pending, successors]
  | cons c cs ih =>
    unfold pending successors at ih ⊢
    by_cases h1 : c.toStationId = v <;> by_cases h2 : c.fromStationId = cur <;>
      by_cases h3 : c.fromStationId ∈ out
    all_goals simp_all [List.filter_cons, List.count_cons]
    all_goals omega

theorem pending_pos_iff (conns : List NetworkConnection) (out : List Int) (v : Int) :
    pending conns out v ≠ 0 ↔
      ∃ c ∈ conns, c.toStationId = v ∧ c.fromStationId ∉ out := by
  unfold pending
  rw [Ne, List.length_eq_zero, List.filter_eq_nil_iff]
  simp

theorem mem_successors (conns : List NetworkConnection) (u v : Int) :
    v ∈ successors conns u ↔ ∃ c ∈ conns, c.fromStationId = u ∧ c.toStationId = v := by
  simp [successors, and_assoc]

/-! ### The inner loop of the sorter -/

theorem decrementNeighbors_spec (ns : List Int) : ∀ (d : Int → Int) (q : List Int),
    (∀ v, (ns.count v : Int) ≤ d v) →
    ∃ added, decrementNeighbors ns (d, q) = (fun v => d v - (ns.count v : Int), q ++ added) ∧
      added.Nodup ∧ ∀ v, v ∈ added ↔ v ∈ ns ∧ d v = (ns.count v : Int) := by
  induction ns with
  | nil =>
    intro d q _
    exact ⟨[], by simp [decrementNeighbors], List.nodup_nil, by simp⟩
  | cons n rest ih =>
    intro d q hd
    have hn := hd n
    simp only [List.count_cons_self, Nat.cast_add, Nat.cast_one] at hn
    have hbound : ∀ v, (rest.count v : Int) ≤ setAt d n (d n - 1) v := by
      intro v
      by_cases hv : v = n
      · subst hv
        rw [setAt_same]
        omega
      · rw [setAt_other _ _ _ _ hv]
        have := hd v
        rw [List.count_cons_of_ne hv] at this
        exact this
    have hfun : (fun v => setAt d n (d n - 1) v - (rest.count v : Int)) =
        fun v => d v - ((n :: rest).count v : Int) := by
      funext v
      by_cases hv : v = n
      · subst hv
        rw [setAt_same, List.count_cons_self]
        push_cast
        ring
      · rw [setAt_other _ _ _ _ hv, List.count_cons_of_ne hv]
    by_cases hz : d n = 1
    · obtain ⟨added, he, hnd, hm⟩ := ih (setAt d n (d n - 1)) (q ++ [n]) hbound
      have hcount : rest.count n = 0 := by omega
      have hnotin : n ∉ rest := List.count_eq_zero.1 hcount
      refine ⟨n :: added, ?_, ?_, ?_⟩
      · have : decrementNeighbors (n :: rest) (d, q) =
            decrementNeighbors rest (setAt d n (d n - 1), q ++ [n]) := by
          simp [decrementNeighbors, List.foldl_cons, setAt_same, hz]
        rw [this, he, hfun]
        simp
      · refine List.nodup_cons.2 ⟨?_, hnd⟩
        intro hin
        exact hnotin ((hm n).1 hin).1
      · intro v
        rw [List.mem_cons, hm]
        by_cases hv : v = n
        · subst hv
          simp [hz, hcount]
        · rw [setAt_other _ _ _ _ hv, List.count_cons_of_ne hv]
          simp [hv]
    · obtain ⟨added, he, hnd, hm⟩ := ih (setAt d n (d n - 1)) q hbound
      refine ⟨added, ?_, hnd, ?_⟩
      · have hz2 : ¬ d n - 1 = 0 := by omega
        have : decrementNeighbors (n :: rest) (d, q) =
            decrementNeighbors rest (setAt d n (d n - 1), q) := by
          simp [decrementNeighbors, List.foldl_cons, setAt_same, hz2]
        rw [this, he, hfun]
      · intro v
        rw [hm]
        by_cases hv : v = n
        · subst hv
          rw [setAt_same, List.count_cons_self]
          constructor
          · rintro ⟨h1, h2⟩
            refine ⟨List.mem_cons_self _ _, ?_⟩
            push_cast
            omega
          · rintro ⟨_, h2⟩
            push_cast at h2
            have hpos : rest.count v ≠ 0 := by omega
            refine ⟨?_, by omega⟩
            by_contra hmem
            exact hpos (List.count_eq_zero.2 hmem)
        · rw [setAt_other _ _ _ _ hv, List.count_cons_of_ne hv]
          simp [hv]

/-! ### The main loop of the sorter -/

theorem kahnInv_initial (reg : Registry α) (hv : StationsValid reg) :
    KahnInv reg (initialInDegree reg.connections) (initialQueue reg) [] := by
  refine ⟨?_, ?_, ?_, ?_, ?_⟩
  · simpa [initialQueue] using (mapKeys_nodup _).filter _
  · intro x hx
    simp only [List.nil_append, initialQueue, List.mem_filter, mem_mapKeys,
      List.mem_append, List.mem_map] at hx
    rcases hx.1 with h | ⟨c, hc, rfl⟩
    · exact h
    · exact hv.toExists c hc
  · intro v
    exact initialInDegree_eq_pending _ v
  · intro v hvs
    simp only [List.nil_append, initialQueue, List.mem_filter, mem_mapKeys,
      List.mem_append, beq_iff_eq]
    constructor
    · exact fun h => h.2
    · exact fun h => ⟨Or.inl hvs, h⟩
  · intro c _ hc
    simp at hc

theorem kahnInv_length (reg : Registry α) (hv : StationsValid reg) {inDeg : Int → Int}
    {queue out : List Int} (h : KahnInv reg inDeg queue out) :
    (out ++ queue).length ≤ reg.stations.length := by
  have h1 : (out ++ queue).Subperm (stationIds reg) :=
    List.subperm_of_subset h.nodup h.stations
  have h2 := h1.length_le
  simpa [stationIds] using h2

theorem kahnInv_step (reg : Registry α) (hv : StationsValid reg) {inDeg : Int → Int}
    {cur : Int} {rest out : List Int} (h : KahnInv reg inDeg (cur :: rest) out) :
    KahnInv reg (decrementNeighbors (successors reg.connections cur) (inDeg, rest)).1
      (decrementNeighbors (successors reg.connections cur) (inDeg, rest)).2 (out ++ [cur]) := by
  have hnd := h.nodup
  have hcur : cur ∉ out := by
    intro hin
    have := (List.nodup_append.1 hnd).2.2 hin
    exact this (List.mem_cons_self _ _)
  have hsplit := fun v => pending_split reg.connections out cur v hcur
  have hbound : ∀ v, ((successors reg.connections cur).count v : Int) ≤ inDeg v := by
    intro v
    rw [h.degree v, hsplit v]
    push_cast
    omega
  obtain ⟨added, he, hadd, hm⟩ :=
    decrementNeighbors_spec (successors reg.connections cur) inDeg rest hbound
  rw [he]
  have hcurq : cur ∈ out ++ cur :: rest := by simp
  have hcurs : cur ∈ stationIds reg := h.stations cur hcurq
  have hcur0 : inDeg cur = 0 := (h.zero cur hcurs).1 hcurq
  have happ : out ++ [cur] ++ (rest ++ added) = (out ++ cur :: rest) ++ added := by simp
  have haddst : ∀ x ∈ added, x ∈ stationIds reg := by
    intro x hx
    obtain ⟨c, hc, _, rfl⟩ := (mem_successors _ _ _).1 ((hm x).1 hx).1
    exact hv.toExists c hc
  have haddnz : ∀ x ∈ added, inDeg x ≠ 0 := by
    intro x hx
    obtain ⟨h1, h2⟩ := (hm x).1 hx
    have : (successors reg.connections cur).count x ≠ 0 := by
      intro h0
      exact (List.count_eq_zero.1 h0) h1
    omega
  refine ⟨?_, ?_, ?_, ?_, ?_⟩
  · show (out ++ [cur] ++ (rest ++ added)).Nodup
    rw [happ]
    refine List.nodup_append.2 ⟨hnd, hadd, ?_⟩
    intro x hx hx2
    exact haddnz x hx2 ((h.zero x (haddst x hx2)).1 hx)
  · intro x hx
    change x ∈ out ++ [cur] ++ (rest ++ added) at hx
    rw [happ] at hx
    rcases List.mem_append.1 hx with hx | hx
    · exact h.stations x hx
    · exact haddst x hx
  · intro v
    show inDeg v - ((successors reg.connections cur).count v : Int) = _
    rw [h.degree v, hsplit v]
    push_cast
    ring
  · intro v hvs
    show v ∈ out ++ [cur] ++ (rest ++ added) ↔
      inDeg v - ((successors reg.connections cur).count v : Int) = 0
    rw [happ, List.mem_append]
    constructor
    · rintro (hx | hx)
      · have h0 := (h.zero v hvs).1 hx
        have := hbound v
        omega
      · have := ((hm v).1 hx).2
        omega
    · intro h0
      by_cases hc : (successors reg.connections cur).count v = 0
      · left
        refine (h.zero v hvs).2 ?_
        rw [hc] at h0
        simpa using h0
      · right
        refine (hm v).2 ⟨?_, by omega⟩
        by_contra hmem
        exact hc (List.count_eq_zero.2 hmem)
  · intro c hc hto
    rcases List.mem_append.1 hto with hto | hto
    · obtain ⟨h1, h2⟩ := h.before c hc hto
      refine ⟨List.mem_append_left _ h1, ?_⟩
      rw [List.indexOf_append_of_mem h1, List.indexOf_append_of_mem hto]
      exact h2
    · have hto2 : c.toStationId = cur := by simpa using hto
      have hfrom : c.fromStationId ∈ out := by
        by_contra hnot
        have hp : pending reg.connections out cur ≠ 0 :=
          (pending_pos_iff _ _ _).2 ⟨c, hc, hto2, hnot⟩
        have := h.degree cur
        omega
      refine ⟨List.mem_append_left _ hfrom, ?_⟩
      rw [List.indexOf_append_of_mem hfrom, hto2, List.indexOf_append_of_not_mem hcur]
      have := List.indexOf_lt_length.2 hfrom
      omega

theorem kahnLoop_spec (reg : Registry α) (hv : StationsValid reg) :
    ∀ (fuel : Nat) (inDeg : Int → Int) (queue out : List Int),
      KahnInv reg inDeg queue out → reg.stations.length < fuel + out.length →
      ∃ res inDeg2, kahnLoop reg.connections fuel inDeg queue out = some res ∧
        KahnInv reg inDeg2 [] res := by
  intro fuel
  induction fuel with
  | zero =>
    intro inDeg queue out h hlt
    have := kahnInv_length reg hv h
    simp at this hlt
    omega
  | succ n ih =>
    intro inDeg queue out h hlt
    cases queue with
    | nil => exact ⟨out, inDeg, by simp [kahnLoop], h⟩
    | cons cur rest =>
      have hlen := kahnInv_length reg hv h
      have hstep := kahnInv_step reg hv h
      have := ih _ _ _ hstep (by simp at hlen ⊢; omega)
      simpa [kahnLoop] using this

/-- On a valid registry the main loop of the sorter ends, and what it leaves
satisfies the loop invariant with an empty queue. -/
theorem kahnLoop_total (reg : Registry α) (hv : StationsValid reg) :
    ∃ res inDeg2, kahnLoop reg.connections (reg.stations.length + 1)
        (initialInDegree reg.connections) (initialQueue reg) [] = some res ∧
      KahnInv reg inDeg2 [] res :=
  kahnLoop_spec reg hv _ _ _ _ (kahnInv_initial reg hv) (by simp)

/-- On a valid registry with at least one connection the sorter ends with the
invariant on its output, and prints an order exactly when the output has as
many entries as there are stations. -/
theorem topologicalSort_cases (reg : Registry α) (hv : StationsValid reg)
    (hne : reg.connections ≠ []) :
    ∃ res inDeg2, KahnInv reg inDeg2 [] res ∧
      topologicalSort reg =
        if res.length ≠ reg.stations.length then TopoOutcome.cycleDetected
        else TopoOutcome.order res := by
  obtain ⟨res, inDeg2, hrun, hinv⟩ := kahnLoop_total reg hv
  refine ⟨res, inDeg2, hinv, ?_⟩
  have hemp : reg.connections.isEmpty = false := by
    cases hc : reg.connections with
    | nil => exact absurd hc hne
    | cons _ _ => rfl
  unfold topologicalSort
  rw [hemp, hrun]
  simp

theorem kahnInv_final_perm (reg : Registry α) (hv : StationsValid reg) {inDeg : Int → Int}
    {res : List Int} (h : KahnInv reg inDeg [] res) (hlen : res.length = reg.stations.length) :
    res.Perm (stationIds reg) := by
  have hnd : res.Nodup := by simpa using h.nodup
  have hsub : res ⊆ stationIds reg := fun x hx => h.stations x (by simpa using hx)
  exact (List.subperm_of_subset hnd hsub).perm_of_length_le (by simp [stationIds, hlen])

theorem kahnInv_final_before (reg : Registry α) (hv : StationsValid reg) {inDeg : Int → Int}
    {res : List Int} (h : KahnInv reg inDeg [] res) (hp : res.Perm (stationIds reg)) :
    ∀ a b, Arc reg a b → res.indexOf a < res.indexOf b := by
  rintro a b ⟨c, hc, rfl, rfl⟩
  exact (h.before c hc (hp.mem_iff.2 (hv.toExists c hc))).2

theorem transGen_index_lt (reg : Registry α) (res : List Int)
    (h : ∀ a b, Arc reg a b → res.indexOf a < res.indexOf b) :
    ∀ a b, Relation.TransGen (Arc reg) a b → res.indexOf a < res.indexOf b := by
  intro a b hab
  induction hab with
  | single h1 => exact h _ _ h1
  | tail _ h2 ih => exact lt_trans ih (h _ _ h2)

theorem exists_arc_chain (reg : Registry α) (R : Int → Prop)
    (hpred : ∀ v, R v → ∃ u, R u ∧ Arc reg u v) (v0 : Int) (h0 : R v0) :
    ∀ n : Nat, ∃ l : List Int, l.length = n + 1 ∧ l.Chain' (Arc reg) ∧ ∀ x ∈ l, R x := by
  intro n
  induction n with
  | zero => exact ⟨[v0], rfl, List.chain'_singleton _, by simpa using h0⟩
  | succ n ih =>
    obtain ⟨l, hl, hc, hR⟩ := ih
    cases l with
    | nil => simp at hl
    | cons a t =>
      obtain ⟨u, hu, hua⟩ := hpred a (hR a (List.mem_cons_self _ _))
      refine ⟨u :: a :: t, by simp at hl ⊢; omega, List.Chain'.cons hua hc, ?_⟩
      intro x hx
      rcases List.mem_cons.1 hx with rfl | hx
      · exact hu
      · exact hR x hx

theorem acyclic_chain_nodup (reg : Registry α) (hac : Acyclic reg) (l : List Int)
    (hc : l.Chain' (Arc reg)) : l.Nodup := by
  have h1 : l.Chain' (Relation.TransGen (Arc reg)) :=
    hc.imp (fun {a b} h => Relation.TransGen.single h)
  have h2 : l.Pairwise (Relation.TransGen (Arc reg)) := List.chain'_iff_pairwise.1 h1
  refine h2.imp ?_
  intro a b hab heq
  subst heq
  exact hac a hab

theorem kahnInv_final_complete (reg : Registry α) (hv : StationsValid reg) {inDeg : Int → Int}
    {res : List Int} (h : KahnInv reg inDeg [] res) (hac : Acyclic reg) :
    res.length = reg.stations.length := by
  by_contra hne
  have hnd : res.Nodup := by simpa using h.nodup
  have hsub : res ⊆ stationIds reg := fun x hx => h.stations x (by simpa using hx)
  have hle : res.length ≤ reg.stations.length := by
    simpa using kahnInv_length reg hv h
  have hmiss : ∃ v, v ∈ stationIds reg ∧ v ∉ res := by
    by_contra hall
    push_neg at hall
    have := (List.subperm_of_subset hv.uniqueIds hall).length_le
    simp [stationIds] at this
    omega
  obtain ⟨v0, hv0⟩ := hmiss
  have hpred : ∀ v, (v ∈ stationIds reg ∧ v ∉ res) →
      ∃ u, (u ∈ stationIds reg ∧ u ∉ res) ∧ Arc reg u v := by
    rintro v ⟨hvs, hvr⟩
    have hz : inDeg v ≠ 0 := fun h0 => hvr (by simpa using (h.zero v hvs).2 h0)
    have hp : pending reg.connections res v ≠ 0 := by
      have := h.degree v
      omega
    obtain ⟨c, hc, hto, hfrom⟩ := (pending_pos_iff _ _ _).1 hp
    exact ⟨c.fromStationId, ⟨hv.fromExists c hc, hfrom⟩, c, hc, rfl, hto⟩
  obtain ⟨l, hl, hch, hR⟩ :=
    exists_arc_chain reg _ hpred v0 hv0 reg.stations.length
  have hlnd := acyclic_chain_nodup reg hac l hch
  have := (List.subperm_of_subset hlnd (fun x hx => (hR x hx).1)).length_le
  simp [stationIds] at this
  omega

theorem arc_of_no_connections (reg : Registry α) (hc : reg.connections = []) :
    Acyclic reg := by
  intro v h
  have : ∀ a b, Relation.TransGen (Arc reg) a b → False := by
    intro a b hab
    induction hab with
    | single h1 =>
      obtain ⟨c, hmem, _⟩ := h1
      rw [hc] at hmem
      simp at hmem
    | tail _ _ ih => exact ih
  exact this v v h

/-! ### The breadth-first search of `calculateMaxFlow` -/

theorem mem_flowArcsOf (pipes : List (Pipe α)) (conns : List NetworkConnection) (u : Int)
    (e : Int × α) (h : e ∈ flowArcsOf pipes conns u) :
    (∃ c ∈ conns, c.fromStationId = u ∧ e = (c.toStationId, pipeCapacity pipes c.pipeId)) ∨
    (∃ c ∈ conns, c.toStationId = u ∧ e = (c.fromStationId, 0)) := by
  induction conns with
  | nil => simp [flowArcsOf] at h
  | cons c cs ih =>
    simp only [flowArcsOf, List.mem_append] at h
    rcases h with (h | h) | h
    · left
      by_cases hc : c.fromStationId = u
      · simp [hc] at h
        exact ⟨c, List.mem_cons_self _ _, hc, h⟩
      · simp [hc] at h
    · right
      by_cases hc : c.toStationId = u
      · simp [hc] at h
        exact ⟨c, List.mem_cons_self _ _, hc, h⟩
      · simp [hc] at h
    · rcases ih h with ⟨d, hd, h1, h2⟩ | ⟨d, hd, h1, h2⟩
      · exact Or.inl ⟨d, List.mem_cons_of_mem _ hd, h1, h2⟩
      · exact Or.inr ⟨d, List.mem_cons_of_mem _ hd, h1, h2⟩

theorem flowArcs_endpoint (reg : Registry α) (u : Int) (e : Int × α)
    (h : e ∈ flowArcs reg u) : e.1 ∈ endpoints reg := by
  rcases mem_flowArcsOf _ _ _ _ h with ⟨c, hc, _, rfl⟩ | ⟨c, hc, _, rfl⟩
  · exact List.mem_append_right _ (List.mem_map.2 ⟨c, hc, rfl⟩)
  · exact List.mem_append_left _ (List.mem_map.2 ⟨c, hc, rfl⟩)

theorem length_filter_cons (q : Int → Bool) (a : Int) (t : List Int) :
    ((a :: t).filter q).length = (if q a = true then 1 else 0) + (t.filter q).length := by
  by_cases h : q a = true
  · rw [List.filter_cons_of_pos h, List.length_cons, if_pos h]
    omega
  · rw [List.filter_cons_of_neg h, if_neg h]
    omega

theorem filter_setAt_le (l : List Int) (p : Int → Option Int) (x y : Int) :
    (l.filter (fun z => (setAt p x (some y) z).isNone)).length ≤
      (l.filter (fun z => (p z).isNone)).length := by
  induction l with
  | nil => simp
  | cons a t ih =>
    simp only [length_filter_cons]
    by_cases ha : a = x
    · subst ha
      rw [setAt_same]
      simp only [Option.isNone_some, Bool.false_eq_true, if_false]
      omega
    · rw [setAt_other _ _ _ _ ha]
      omega

theorem filter_setAt_lt (l : List Int) (p : Int → Option Int) (x y : Int) (hx : x ∈ l)
    (hp : (p x).isNone = true) :
    (l.filter (fun z => (setAt p x (some y) z).isNone)).length + 1 ≤
      (l.filter (fun z => (p z).isNone)).length := by
  induction l with
  | nil => simp at hx
  | cons a t ih =>
    simp only [length_filter_cons]
    by_cases ha : a = x
    · subst ha
      have := filter_setAt_le t p a y
      rw [setAt_same, hp]
      simp only [Option.isNone_some, Bool.false_eq_true, if_false, if_true]
      omega
    · have hx2 : x ∈ t := by
        rcases List.mem_cons.1 hx with h | h
        · exact absurd h.symm ha
        · exact h
      have := ih hx2
      rw [setAt_other _ _ _ _ ha]
      omega

/-- What a pass over the entries of `graph[current]` keeps true: the fuel
measure does not grow, and whatever is discovered is behind an open arc from
`current` or was discovered before. -/
theorem bfsVisit_fold (reg : Registry α) (flow : Int → Int → α) (current : Int)
    (Good : Int → Prop) (hcur : ∀ b, OpenArc reg flow current b → Good b) :
    ∀ (es : List (Int × α)) (st : (Int → Option Int) × List Int),
      (∀ e ∈ es, e ∈ flowArcs reg current) →
      (∀ x, (st.1 x).isSome → Good x) → (∀ x ∈ st.2, Good x) →
      ((es.foldl (bfsVisit flow current) st).2.length +
          unseen reg (es.foldl (bfsVisit flow current) st).1 ≤
        st.2.length + unseen reg st.1) ∧
      (∀ x, ((es.foldl (bfsVisit flow current) st).1 x).isSome → Good x) ∧
      (∀ x ∈ (es.foldl (bfsVisit flow current) st).2, Good x) := by
  intro es
  induction es with
  | nil => intro st _ h1 h2; exact ⟨le_refl _, h1, h2⟩
  | cons e rest ih =>
    intro st hes h1 h2
    have hemem : e ∈ flowArcs reg current := hes e (List.mem_cons_self _ _)
    have hrest : ∀ e2 ∈ rest, e2 ∈ flowArcs reg current :=
      fun e2 h => hes e2 (List.mem_cons_of_mem _ h)
    rw [List.foldl_cons]
    by_cases hc : ((st.1 e.1).isNone && decide (flow current e.1 < e.2)) = true
    · have hstep : bfsVisit flow current st e =
          (setAt st.1 e.1 (some current), st.2 ++ [e.1]) := by
        simp only [bfsVisit, hc, if_true]
      rw [Bool.and_eq_true] at hc
      have hopen : Good e.1 := hcur e.1 ⟨e, hemem, rfl, by simpa using hc.2⟩
      rw [hstep]
      obtain ⟨m1, m2, m3⟩ := ih (setAt st.1 e.1 (some current), st.2 ++ [e.1]) hrest
        (by
          intro x hx
          by_cases hxe : x = e.1
          · rw [hxe]; exact hopen
          · have hx2 : (setAt st.1 e.1 (some current) x).isSome = true := hx
            rw [setAt_other _ _ _ _ hxe] at hx2
            exact h1 x hx2)
        (by
          intro x hx
          rcases List.mem_append.1 hx with hx | hx
          · exact h2 x hx
          · have : x = e.1 := by simpa using hx
            rw [this]; exact hopen)
      refine ⟨?_, m2, m3⟩
      have hlt := filter_setAt_lt (endpoints reg) st.1 e.1 current
        (flowArcs_endpoint reg current e hemem) hc.1
      simp only [unseen] at m1 ⊢
      simp only [List.length_append, List.length_singleton] at m1
      omega
    · have hstep : bfsVisit flow current st e = st := by
        simp only [bfsVisit, hc, Bool.false_eq_true, if_false]
      rw [hstep]
      exact ih st hrest h1 h2

/-- The search loop ends within its fuel, and everything it discovers
satisfies a property that holds at the start and is passed along open arcs. -/
theorem bfsLoop_spec (reg : Registry α) (flow : Int → Int → α) (sinkId : Int)
    (Good : Int → Prop) (hstep : ∀ a b, Good a → OpenArc reg flow a b → Good b) :
    ∀ (fuel : Nat) (st : (Int → Option Int) × List Int),
      st.2.length + unseen reg st.1 < fuel →
      (∀ x, (st.1 x).isSome → Good x) → (∀ x ∈ st.2, Good x) →
      ∃ parent, bfsLoop (flowArcs reg) flow sinkId fuel st = some parent ∧
        ∀ x, (parent x).isSome → Good x := by
  intro fuel
  induction fuel with
  | zero => intro st h; omega
  | succ n ih =>
    intro st hlt h1 h2
    obtain ⟨parent, q⟩ := st
    cases q with
    | nil => exact ⟨parent, by simp [bfsLoop], h1⟩
    | cons current q =>
      by_cases hs : (parent sinkId).isSome = true
      · exact ⟨parent, by simp [bfsLoop, hs], h1⟩
      · have hcur : Good current := h2 current (List.mem_cons_self _ _)
        obtain ⟨m1, m2, m3⟩ := bfsVisit_fold reg flow current Good
          (fun b hb => hstep current b hcur hb) (flowArcs reg current) (parent, q)
          (fun e he => he) h1 (fun x hx => h2 x (List.mem_cons_of_mem _ hx))
        obtain ⟨res, hres, hgood⟩ := ih _ (by
          simp only [List.length_cons] at hlt m1
          omega) m2 m3
        refine ⟨res, ?_, hgood⟩
        simp only [bfsLoop, hs, Bool.false_eq_true, if_false]
        exact hres

theorem unseen_le (reg : Registry α) (parent : Int → Option Int) :
    unseen reg parent ≤ 2 * reg.connections.length := by
  unfold unseen
  refine le_trans (List.length_filter_le _ _) ?_
  simp [endpoints]
  omega

/-- The search of one iteration always ends, and every station it discovers
can be reached from the source along open arcs. -/
theorem bfs_spec (reg : Registry α) (flow : Int → Int → α) (sourceId sinkId : Int) :
    ∃ parent, bfs reg flow sourceId sinkId = some parent ∧
      ∀ x, (parent x).isSome → Relation.ReflTransGen (OpenArc reg flow) sourceId x := by
  unfold bfs
  refine bfsLoop_spec reg flow sinkId _ ?_ _ _ ?_ ?_ ?_
  · intro a b ha hab
    exact Relation.ReflTransGen.tail ha hab
  · have := unseen_le reg (setAt (fun _ => none) sourceId (some (-1)))
    simp only [walkFuel, List.length_singleton]
    omega
  · intro x hx
    by_cases hxs : x = sourceId
    · rw [hxs]
    · simp [setAt, hxs] at hx
  · intro x hx
    have : x = sourceId := by simpa using hx
    rw [this]

theorem openArc_zero_posArc (reg : Registry α) (a b : Int)
    (h : OpenArc reg (fun _ _ => 0) a b) : PosArc reg a b := by
  obtain ⟨e, he, hb, hlt⟩ := h
  rcases mem_flowArcsOf _ _ _ _ he with ⟨c, hc, hfrom, rfl⟩ | ⟨c, hc, _, rfl⟩
  · exact ⟨c, hc, hfrom, hb, hlt⟩
  · exact absurd hlt (lt_irrefl _)

theorem reach_zero_posArc (reg : Registry α) (a b : Int)
    (h : Relation.ReflTransGen (OpenArc reg (fun _ _ => 0)) a b) (hab : a ≠ b) :
    Relation.TransGen (PosArc reg) a b := by
  have h2 : Relation.ReflTransGen (PosArc reg) a b :=
    h.mono (fun x y hxy => openArc_zero_posArc reg x y hxy)
  rcases Relation.reflTransGen_iff_eq_or_transGen.1 h2 with h3 | h3
  · exact absurd h3.symm hab
  · exact h3

/-- With no route of positive capacity from the source to the sink, the first
search of `calculateMaxFlow` does not reach the sink and the loop is left at
once. -/
theorem augmentStep_unreachable (capAt : List (Int × α) → Int → Option α)
    (reg : Registry α) (sourceId sinkId : Int) (hne : sourceId ≠ sinkId)
    (hno : ¬ Relation.TransGen (PosArc reg) sourceId sinkId) :
    augmentStep capAt reg sourceId sinkId ⟨fun _ _ => 0, 0⟩ = AugmentResult.finished 0 := by
  obtain ⟨parent, hp, hreach⟩ := bfs_spec reg (fun _ _ => (0 : α)) sourceId sinkId
  have hsink : (parent sinkId).isNone = true := by
    cases hps : parent sinkId with
    | none => rfl
    | some y =>
      exfalso
      exact hno (reach_zero_posArc reg _ _ (hreach sinkId (by simp [hps])) hne)
  simp only [augmentStep, hp, hsink, if_true]

/-! ### Iterations of `calculateMaxFlow` that make no progress -/

theorem setAt2_self (flow : Int → Int → α) (a b : Int) : setAt2 flow a b (flow a b) = flow := by
  funext i j
  unfold setAt2
  split_ifs with h
  · rw [h.1, h.2]
  · rfl

theorem pushFlow_zero (parent : Int → Option Int) (sourceId : Int) :
    ∀ (fuel : Nat) (v : Int) (flow res : Int → Int → α),
      pushFlow parent sourceId 0 fuel v flow = some res → res = flow := by
  intro fuel
  induction fuel with
  | zero => intro v flow res h; simp [pushFlow] at h
  | succ n ih =>
    intro v flow res h
    unfold pushFlow at h
    by_cases hv : v = sourceId
    · simp only [hv, if_true, Option.some.injEq] at h
      exact h.symm
    · simp only [hv, if_false, add_zero, sub_zero, setAt2_self] at h
      exact ih _ _ _ h

/-- An iteration that leaves the total unchanged leaves the whole state
unchanged. -/
theorem augmentStep_no_progress (capAt : List (Int × α) → Int → Option α)
    (reg : Registry α) (sourceId sinkId : Int) (st st1 : FlowState α)
    (h : augmentStep capAt reg sourceId sinkId st = AugmentResult.augmented st1)
    (htot : st1.maxFlow = st.maxFlow) : st1 = st := by
  unfold augmentStep at h
  split at h
  · cases h
  · rename_i parent _
    split_ifs at h
    simp only at h
    split at h
    · cases h
    · split at h
      · cases h
      · cases h
      · rename_i pathFlow _
        split at h
        · cases h
        · rename_i flow hpush
          injection h with h
          subst h
          have hz : pathFlow = 0 := by
            have : st.maxFlow + pathFlow = st.maxFlow := htot
            simpa using this
          subst hz
          have := pushFlow_zero parent sourceId _ _ _ _ hpush
          subst this
          cases st
          simp

/-- Once an iteration leaves the state unchanged, the loop never ends. -/
theorem augmentLoop_stuck (capAt : List (Int × α) → Int → Option α)
    (reg : Registry α) (sourceId sinkId : Int) (st : FlowState α)
    (h : augmentStep capAt reg sourceId sinkId st = AugmentResult.augmented st) :
    ∀ fuel, augmentLoop capAt reg sourceId sinkId fuel st = FlowOutcome.outOfFuel := by
  intro fuel
  induction fuel with
  | zero => rfl
  | succ n ih =>
    unfold augmentLoop
    rw [h]
    exact ih

theorem augmentLoop_threw (capAt : List (Int × α) → Int → Option α)
    (reg : Registry α) (sourceId sinkId : Int) (st : FlowState α)
    (h : (augmentStep capAt reg sourceId sinkId st).isThrew = true) (fuel : Nat) :
    augmentLoop capAt reg sourceId sinkId (fuel + 1) st = FlowOutcome.threw := by
  unfold augmentLoop
  cases hs : augmentStep capAt reg sourceId sinkId st with
  | finished v => rw [hs] at h; cases h
  | augmented st1 => rw [hs] at h; cases h
  | threw => rfl
  | outOfFuel => rw [hs] at h; cases h

theorem augmentStep_of_total (capAt : List (Int × α) → Int → Option α)
    (reg : Registry α) (sourceId sinkId : Int) (st : FlowState α)
    (h : (augmentStep capAt reg sourceId sinkId st).total = some st.maxFlow) :
    augmentStep capAt reg sourceId sinkId st = AugmentResult.augmented st := by
  cases hs : augmentStep capAt reg sourceId sinkId st with
  | finished v => rw [hs] at h; cases h
  | threw => rw [hs] at h; cases h
  | outOfFuel => rw [hs] at h; cases h
  | augmented st1 =>
    rw [hs] at h
    have htot : st1.maxFlow = st.maxFlow := by
      simpa [AugmentResult.total] using h
    rw [augmentStep_no_progress capAt reg sourceId sinkId st st1 hs htot]

theorem calculateMaxFlow_valid (capAt : List (Int × α) → Int → Option α) (fuel : Nat)
    (reg : Registry α) (sourceId sinkId : Int) (hc : reg.connections ≠ [])
    (hs : stationExists reg sourceId = true) (ht : stationExists reg sinkId = true)
    (hne : sourceId ≠ sinkId) :
    calculateMaxFlow capAt fuel reg sourceId sinkId =
      augmentLoop capAt reg sourceId sinkId fuel ⟨fun _ _ => 0, 0⟩ := by
  have hemp : reg.connections.isEmpty = false := by
    cases hcs : reg.connections with
    | nil => exact absurd hcs hc
    | cons _ _ => rfl
  simp [calculateMaxFlow, hemp, hs, ht, hne]

theorem no_posArc_repairRegistry (a b : Int) : ¬ PosArc repairRegistry a b := by
  rintro ⟨c, hc, _, _, hpos⟩
  have hc2 : c = ⟨1, 1, 2⟩ := by simpa [repairRegistry] using hc
  subst hc2
  revert hpos
  decide

theorem no_route_repairRegistry : ¬ Relation.TransGen (PosArc repairRegistry) 1 2 := by
  intro h
  cases h with
  | single h1 => exact no_posArc_repairRegistry _ _ h1
  | tail _ h2 => exact no_posArc_repairRegistry _ _ h2

/-! ### The rounding of `binary64` -/

theorem nearestMultiple_cases (u k : Nat) :
    nearestMultiple u k = k / u * u ∨ nearestMultiple u k = (k / u + 1) * u := by
  unfold nearestMultiple
  split_ifs <;> simp

theorem nearestMultiple_ge (u k m : Nat) (hu : 0 < u) (h : m * u ≤ k) :
    m * u ≤ nearestMultiple u k := by
  have hq : m ≤ k / u := (Nat.le_div_iff_mul_le hu).2 h
  have h1 : m * u ≤ k / u * u := Nat.mul_le_mul_right u hq
  rcases nearestMultiple_cases u k with h2 | h2
  · rw [h2]; exact h1
  · rw [h2]
    exact le_trans h1 (Nat.mul_le_mul_right u (Nat.le_succ _))

theorem nearestMultiple_of_dvd (u k : Nat) (hu : 0 < u) (h : u ∣ k) :
    nearestMultiple u k = k := by
  have hr : k % u = 0 := Nat.mod_eq_zero_of_dvd h
  unfold nearestMultiple
  rw [hr, if_pos (by omega)]
  exact Nat.div_mul_cancel h

theorem nearestMultiple_le (u k m : Nat) (hu : 0 < u) (h : k ≤ m * u) :
    nearestMultiple u k ≤ m * u := by
  by_cases hr : k % u = 0
  · rw [nearestMultiple_of_dvd u k hu (Nat.dvd_of_mod_eq_zero hr)]
    exact h
  · have hlt : k / u < m := by
      rw [Nat.div_lt_iff_lt_mul hu]
      rcases Nat.lt_or_ge k (m * u) with h1 | h1
      · exact h1
      · have hk : k = m * u := le_antisymm h h1
        rw [hk] at hr
        simp at hr
    have h1 : (k / u + 1) * u ≤ m * u := Nat.mul_le_mul_right u hlt
    have h0 : k / u * u ≤ (k / u + 1) * u := Nat.mul_le_mul_right u (Nat.le_succ _)
    rcases nearestMultiple_cases u k with h2 | h2
    · rw [h2]; exact le_trans h0 h1
    · rw [h2]; exact h1

theorem nearestMultiple_dvd (u k : Nat) : u ∣ nearestMultiple u k := by
  rcases nearestMultiple_cases u k with h | h <;> rw [h] <;> exact Dvd.intro_left _ rfl

theorem nearestMultiple_mono (u a b : Nat) (hu : 0 < u) (h : a ≤ b) :
    nearestMultiple u a ≤ nearestMultiple u b := by
  have hq : a / u ≤ b / u := Nat.div_le_div_right h
  have ha := Nat.div_add_mod a u
  have hb := Nat.div_add_mod b u
  have hra := Nat.mod_lt a hu
  have hrb := Nat.mod_lt b hu
  rcases Nat.lt_or_ge (a / u) (b / u) with hlt | hge
  · have h1 : nearestMultiple u a ≤ (a / u + 1) * u := by
      apply nearestMultiple_le u a _ hu
      rw [Nat.add_mul, Nat.mul_comm]
      omega
    have h2 : (a / u + 1) * u ≤ b / u * u := Nat.mul_le_mul_right u hlt
    have h3 : b / u * u ≤ nearestMultiple u b :=
      nearestMultiple_ge u b _ hu (Nat.div_mul_le_self b u)
    exact le_trans h1 (le_trans h2 h3)
  · have hqe : a / u = b / u := le_antisymm hq hge
    have hr : a % u ≤ b % u := by
      rw [hqe] at ha
      omega
    have hstep : b / u * u ≤ (b / u + 1) * u := Nat.mul_le_mul_right u (Nat.le_succ _)
    unfold nearestMultiple
    rw [hqe]
    split_ifs <;> first | exact le_refl _ | exact hstep | omega

/-- With enough fuel `ulpOf` is the power of two that leaves `k` at most 53
binary digits, and exactly 53 unless the power is 1. -/
theorem ulpOf_spec : ∀ (fuel k : Nat), k ≤ fuel →
    ∃ s, ulpOf fuel k = 2 ^ s ∧ k < 2 ^ (53 + s) ∧ (s = 0 ∨ 2 ^ (52 + s) ≤ k) := by
  intro fuel
  induction fuel with
  | zero =>
    intro k hk
    refine ⟨0, rfl, ?_, Or.inl rfl⟩
    have : k = 0 := by omega
    subst this
    positivity
  | succ n ih =>
    intro k hk
    unfold ulpOf
    by_cases hlt : k < 9007199254740992
    · rw [if_pos hlt]
      exact ⟨0, rfl, by norm_num; exact hlt, Or.inl rfl⟩
    · rw [if_neg hlt]
      obtain ⟨s, h1, h2, h3⟩ := ih (k / 2) (by omega)
      refine ⟨s + 1, by rw [h1, pow_succ, Nat.mul_comm], ?_, Or.inr ?_⟩
      · have : 2 ^ (53 + (s + 1)) = 2 * 2 ^ (53 + s) := by
          rw [← Nat.add_assoc, pow_succ, Nat.mul_comm]
        rw [this]
        omega
      · have : 2 ^ (52 + (s + 1)) = 2 * 2 ^ (52 + s) := by
          rw [← Nat.add_assoc, pow_succ, Nat.mul_comm]
        rw [this]
        rcases h3 with h3 | h3
        · subst h3
          norm_num
          omega
        · omega

/-- The rounding of a number is to the nearest multiple of a power of two
that leaves at most 53 binary digits, and exactly 53 unless the power is 1. -/
theorem roundSignificand_spec (k : Nat) :
    ∃ s, roundSignificand k = nearestMultiple (2 ^ s) k ∧ k < 2 ^ (53 + s) ∧
      (s = 0 ∨ 2 ^ (52 + s) ≤ k) := by
  obtain ⟨s, h1, h2, h3⟩ := ulpOf_spec k k (le_refl _)
  exact ⟨s, by rw [roundSignificand, h1], h2, h3⟩

theorem pow_split (a s : Nat) : 2 ^ (a + s) = 2 ^ a * 2 ^ s := pow_add 2 a s

theorem roundSignificand_mono (a b : Nat) (h : a ≤ b) :
    roundSignificand a ≤ roundSignificand b := by
  obtain ⟨s, hs1, hs2, hs3⟩ := roundSignificand_spec a
  obtain ⟨t, ht1, ht2, ht3⟩ := roundSignificand_spec b
  rw [hs1, ht1]
  have hps : 0 < 2 ^ s := by positivity
  have hpt : 0 < 2 ^ t := by positivity
  rcases Nat.lt_trichotomy s t with hlt | heq | hgt
  · have h1 : nearestMultiple (2 ^ s) a ≤ 2 ^ 53 * 2 ^ s :=
      nearestMultiple_le _ a _ hps (by rw [← pow_split]; exact le_of_lt hs2)
    have ht0 : 2 ^ (52 + t) ≤ b := by
      rcases ht3 with h0 | h0
      · omega
      · exact h0
    have h2 : 2 ^ 52 * 2 ^ t ≤ nearestMultiple (2 ^ t) b :=
      nearestMultiple_ge _ b _ hpt (by rw [← pow_split]; exact ht0)
    have h3 : 2 ^ 53 * 2 ^ s ≤ 2 ^ 52 * 2 ^ t := by
      rw [← pow_split, ← pow_split]
      exact Nat.pow_le_pow_right (by norm_num) (by omega)
    exact le_trans h1 (le_trans h3 h2)
  · subst heq
    exact nearestMultiple_mono _ a b hps h
  · exfalso
    have hs0 : 2 ^ (52 + s) ≤ a := by
      rcases hs3 with h0 | h0
      · omega
      · exact h0
    have : 2 ^ (53 + t) ≤ 2 ^ (52 + s) := Nat.pow_le_pow_right (by norm_num) (by omega)
    omega

theorem roundSignificand_of_dvd (y s : Nat) (h1 : y < 2 ^ (53 + s)) (h2 : 2 ^ s ∣ y) :
    roundSignificand y = y := by
  obtain ⟨t, ht1, ht2, ht3⟩ := roundSignificand_spec y
  rw [ht1]
  apply nearestMultiple_of_dvd _ _ (by positivity)
  have hts : t ≤ s := by
    by_contra hcon
    have ht0 : 2 ^ (52 + t) ≤ y := by
      rcases ht3 with h0 | h0
      · omega
      · exact h0
    have : 2 ^ (53 + s) ≤ 2 ^ (52 + t) := Nat.pow_le_pow_right (by norm_num) (by omega)
    omega
  exact dvd_trans (pow_dvd_pow 2 hts) h2

theorem roundSignificand_idem (k : Nat) :
    roundSignificand (roundSignificand k) = roundSignificand k := by
  obtain ⟨s, hs1, hs2, hs3⟩ := roundSignificand_spec k
  have hps : 0 < 2 ^ s := by positivity
  have hle : roundSignificand k ≤ 2 ^ 53 * 2 ^ s := by
    rw [hs1]
    exact nearestMultiple_le _ k _ hps (by rw [← pow_split]; exact le_of_lt hs2)
  have hdvd : 2 ^ s ∣ roundSignificand k := by
    rw [hs1]
    exact nearestMultiple_dvd _ _
  rcases Nat.lt_or_ge (roundSignificand k) (2 ^ 53 * 2 ^ s) with hlt | hge
  · exact roundSignificand_of_dvd _ s (by rw [pow_split]; exact hlt) hdvd
  · have heq : roundSignificand k = 2 ^ (53 + s) := by
      rw [pow_split]
      exact le_antisymm hle hge
    apply roundSignificand_of_dvd _ (s + 1)
    · rw [heq]
      exact Nat.pow_lt_pow_right (by norm_num) (by omega)
    · rw [heq]
      exact pow_dvd_pow 2 (by omega)

theorem roundSignificand_zero : roundSignificand 0 = 0 := by decide

theorem overflowThreshold_eq : overflowThreshold = 2 ^ 1024 := by
  norm_num [overflowThreshold]

theorem largestDouble_eq : largestDouble = (2 ^ 53 - 1) * 2 ^ 971 := by
  norm_num [largestDouble]

/-- No multiple of `u` is nearer to `k` than the one chosen. -/
theorem nearestMultiple_nearest (u k m : Nat) (hu : 0 < u) :
    Nat.dist (nearestMultiple u k) k ≤ Nat.dist (m * u) k := by
  have hk := Nat.div_add_mod k u
  have hr := Nat.mod_lt k hu
  have hq : u * (k / u) = k / u * u := Nat.mul_comm _ _
  have hq1 : (k / u + 1) * u = k / u * u + u := by rw [Nat.add_mul, Nat.one_mul]
  have hm : m * u ≤ k / u * u ∨ k / u * u + u ≤ m * u := by
    rcases Nat.lt_or_ge (k / u) m with h | h
    · right
      rw [← hq1]
      exact Nat.mul_le_mul_right u h
    · left
      exact Nat.mul_le_mul_right u h
  unfold nearestMultiple
  rw [hq1]
  simp only [Nat.dist]
  split_ifs <;> rcases hm with hm | hm <;> omega

/-- A whole number below `2 ^ 53` is a double. -/
theorem roundSignificand_small (k : Nat) (h : k < 9007199254740992) :
    roundSignificand k = k := by
  apply roundSignificand_of_dvd k 0
  · norm_num
    exact h
  · simp

/-- The rounding `binary64` on sums of two doubles: a tie goes to the even
significand, downwards (`2 ^ 53 + 1`) or upwards (`2 ^ 53 + 3`, and
10000000000000002 + 1); counted in units of `2 ^ (-55)`, 0.1 + 0.2 is
10808639105689192, which is 0.30000000000000004; the largest double is
finite and absorbs 1, and 1e308 + 1e308 is `+infinity`. -/
theorem binary64_examples :
    binary64 0 (9007199254740992 + 1) = Weight.fin 9007199254740992 ∧
    binary64 0 (9007199254740992 + 3) = Weight.fin 9007199254740996 ∧
    binary64 0 (10000000000000002 + 1) = Weight.fin 10000000000000004 ∧
    binary64 55 (3602879701896397 + 7205759403792794) = Weight.fin 10808639105689192 ∧
    binary64 0 (largestDouble + 0) = Weight.fin largestDouble ∧
    binary64 0 (largestDouble + 1) = Weight.fin largestDouble ∧
    binary64 0 (length1e308 + 0) = Weight.fin length1e308 ∧
    binary64 0 (length1e308 + length1e308) = Weight.inf := by
  refine ⟨by decide, by decide, by decide, by decide, by decide, by decide, by decide,
    by decide⟩

/-- The rounding `binary64` obeys the laws the search relies on, whatever the
unit `2 ^ (-e)` in which the doubles are counted. -/
theorem binary64_laws (e : Nat) : RoundingLaws (binary64 e) := by
  refine ⟨?_, ?_, ?_⟩
  · have h0 : roundSignificand (0 : Int).toNat = 0 := roundSignificand_zero
    have hpos : 0 < overflowThreshold * 2 ^ e :=
      Nat.mul_pos (by decide) (by positivity)
    simp only [binary64, le_refl, if_true, h0, hpos]
    rfl
  · intro a b y ha hab hb
    have hb0 : 0 ≤ b := le_trans ha hab
    have hm := roundSignificand_mono a.toNat b.toNat (Int.toNat_le_toNat hab)
    unfold binary64 at hb ⊢
    rw [if_pos hb0] at hb
    rw [if_pos ha]
    by_cases hlt : roundSignificand b.toNat < overflowThreshold * 2 ^ e
    · rw [if_pos hlt] at hb
      rw [if_pos (lt_of_le_of_lt hm hlt)]
      refine ⟨_, rfl, ?_⟩
      have hy : ((roundSignificand b.toNat : Nat) : Int) = y := by
        injection hb
      rw [← hy]
      exact_mod_cast hm
    · rw [if_neg hlt] at hb
      cases hb
  · intro a y ha hy
    unfold binary64 at hy
    rw [if_pos ha] at hy
    by_cases hlt : roundSignificand a.toNat < overflowThreshold * 2 ^ e
    · rw [if_pos hlt] at hy
      have hy2 : ((roundSignificand a.toNat : Nat) : Int) = y := by
        injection hy
      subst hy2
      unfold binary64
      rw [if_pos (Int.natCast_nonneg _), Int.toNat_natCast, roundSignificand_idem, if_pos hlt]
    · rw [if_neg hlt] at hy
      cases hy

/-! ### Weights as elements of `WithTop α` -/

theorem Weight.lt_iff (a b : Weight α) : a.lt b = true ↔ a.toTop < b.toTop := by
  cases a <;> cases b <;> simp [Weight.lt, Weight.toTop]

theorem Weight.not_lt_iff (a b : Weight α) : a.lt b = false ↔ b.toTop ≤ a.toTop := by
  rw [← not_lt, ← Weight.lt_iff]
  simp

theorem Weight.toTop_fin_le (a b : α) :
    (Weight.fin a).toTop ≤ (Weight.fin b).toTop ↔ a ≤ b := by
  simp [Weight.toTop]

theorem Weight.le_inf (a : Weight α) : a.toTop ≤ (Weight.inf : Weight α).toTop := by
  simp [Weight.toTop]

/-- A larger exact value does not round to a smaller double. -/
theorem round_le_round [DoubleRounding α]
    (hr : RoundingLaws (DoubleRounding.round : α → Weight α)) (a b : α) (h0 : 0 ≤ a)
    (h : a ≤ b) :
    (DoubleRounding.round a).toTop ≤ (DoubleRounding.round b).toTop := by
  cases hb : DoubleRounding.round b with
  | inf => exact Weight.le_inf _
  | fin y =>
    obtain ⟨x, hx, hxy⟩ := hr.mono a b y h0 h hb
    rw [hx]
    exact (Weight.toTop_fin_le x y).2 hxy

theorem Weight.sum_nonneg [DoubleRounding α]
    (hr : RoundingLaws (DoubleRounding.round : α → Weight α)) (a b : Weight α)
    (ha : (0 : WithTop α) ≤ a.toTop) (hb : (0 : WithTop α) ≤ b.toTop) :
    (0 : WithTop α) ≤ (a.add b).toTop := by
  cases a with
  | inf => simp [Weight.add, Weight.toTop]
  | fin x =>
    cases b with
    | inf => simp [Weight.add, Weight.toTop]
    | fin w =>
      have hx : 0 ≤ x := by simpa [Weight.toTop] using ha
      have hw : 0 ≤ w := by simpa [Weight.toTop] using hb
      have := round_le_round hr 0 (x + w) (le_refl _) (add_nonneg hx hw)
      rw [hr.zero] at this
      exact this

/-- A sum of non-negative doubles is a double. -/
theorem Weight.sum_isDouble [DoubleRounding α]
    (hr : RoundingLaws (DoubleRounding.round : α → Weight α)) (a b : Weight α)
    (ha : (0 : WithTop α) ≤ a.toTop) (hb : (0 : WithTop α) ≤ b.toTop) :
    (a.add b).IsDouble := by
  cases a with
  | inf => intro y hy; cases hy
  | fin x =>
    cases b with
    | inf => intro y hy; cases hy
    | fin w =>
      have hx : 0 ≤ x := by simpa [Weight.toTop] using ha
      have hw : 0 ≤ w := by simpa [Weight.toTop] using hb
      intro y hy
      exact hr.idem (x + w) y (add_nonneg hx hw) hy

/-- Adding a non-negative weight to a double does not make it smaller. -/
theorem Weight.le_sum [DoubleRounding α]
    (hr : RoundingLaws (DoubleRounding.round : α → Weight α)) (a b : Weight α)
    (hd : a.IsDouble) (ha : (0 : WithTop α) ≤ a.toTop) (hb : (0 : WithTop α) ≤ b.toTop) :
    a.toTop ≤ (a.add b).toTop := by
  cases a with
  | inf => exact Weight.le_inf _
  | fin x =>
    cases b with
    | inf => exact Weight.le_inf _
    | fin w =>
      have hx : 0 ≤ x := by simpa [Weight.toTop] using ha
      have hw : 0 ≤ w := by simpa [Weight.toTop] using hb
      have := round_le_round hr x (x + w) hx (le_add_of_nonneg_right hw)
      rw [hd x rfl] at this
      exact this

/-- Addition of a fixed weight keeps the order of the first summands. -/
theorem Weight.sum_le_sum [DoubleRounding α]
    (hr : RoundingLaws (DoubleRounding.round : α → Weight α)) (a c b : Weight α)
    (ha : (0 : WithTop α) ≤ a.toTop) (hb : (0 : WithTop α) ≤ b.toTop)
    (h : a.toTop ≤ c.toTop) :
    (a.add b).toTop ≤ (c.add b).toTop := by
  cases c with
  | inf => exact Weight.le_inf _
  | fin y =>
    cases a with
    | inf => simp [Weight.toTop] at h
    | fin x =>
      cases b with
      | inf => exact Weight.le_inf _
      | fin w =>
        have hx : 0 ≤ x := by simpa [Weight.toTop] using ha
        have hw : 0 ≤ w := by simpa [Weight.toTop] using hb
        have hxy : x ≤ y := (Weight.toTop_fin_le x y).1 h
        exact round_le_round hr (x + w) (y + w) (add_nonneg hx hw) (add_le_add_right hxy w)

theorem Weight.isDouble_zero [DoubleRounding α]
    (hr : RoundingLaws (DoubleRounding.round : α → Weight α)) :
    (Weight.fin (0 : α)).IsDouble := by
  intro a ha
  injection ha with ha
  rw [← ha]
  exact hr.zero

theorem Weight.isDouble_inf [DoubleRounding α] : (Weight.inf : Weight α).IsDouble := by
  intro a ha
  cases ha

theorem Weight.toTop_inj (a b : Weight α) : a.toTop = b.toTop ↔ a = b := by
  cases a <;> cases b <;> simp [Weight.toTop]

theorem Weight.toTop_eq_top (a : Weight α) : a.toTop = ⊤ ↔ a = Weight.inf := by
  cases a <;> simp [Weight.toTop]

theorem Weight.toTop_fin_zero : (Weight.fin (0 : α)).toTop = 0 := rfl

/-! ### The set `pq` -/

theorem mem_pqErase (p x : Weight α × Int) (l : List (Weight α × Int)) :
    x ∈ pqErase p l ↔ x ∈ l ∧ x ≠ p := by
  simp [pqErase]

theorem mem_pqInsert (p x : Weight α × Int) (l : List (Weight α × Int)) :
    x ∈ pqInsert p l ↔ x = p ∨ x ∈ l := by
  unfold pqInsert
  split_ifs with h
  · constructor
    · exact fun hx => Or.inr hx
    · rintro (rfl | hx)
      · exact h
      · exact hx
  · simp

theorem pairLt_true_le (a b : Weight α × Int) (h : pairLt a b = true) :
    a.1.toTop ≤ b.1.toTop := by
  unfold pairLt at h
  rw [Bool.or_eq_true] at h
  rcases h with h1 | h1
  · exact le_of_lt ((Weight.lt_iff _ _).1 h1)
  · rw [Bool.and_eq_true] at h1
    have h2 : b.1.lt a.1 = false := by simpa using h1.1
    exact (Weight.not_lt_iff _ _).1 h2

theorem pairLt_false_le (a b : Weight α × Int) (h : pairLt a b = false) :
    b.1.toTop ≤ a.1.toTop := by
  unfold pairLt at h
  have h1 : a.1.lt b.1 = false := (Bool.or_eq_false_iff.1 h).1
  exact (Weight.not_lt_iff _ _).1 h1

theorem pqMin_spec (l : List (Weight α × Int)) :
    ∀ m, pqMin l = some m → m ∈ l ∧ ∀ x ∈ l, m.1.toTop ≤ x.1.toTop := by
  induction l with
  | nil => intro m h; simp [pqMin] at h
  | cons p ps ih =>
    intro m h
    unfold pqMin at h
    cases hps : pqMin ps with
    | none =>
      rw [hps] at h
      simp only [Option.some.injEq] at h
      subst h
      have hnil : ps = [] := by
        cases ps with
        | nil => rfl
        | cons q qs =>
          unfold pqMin at hps
          cases hq : pqMin qs <;> rw [hq] at hps
          · simp at hps
          · simp only at hps
            split_ifs at hps
      subst hnil
      simp
    | some m0 =>
      rw [hps] at h
      obtain ⟨hm0, hmin⟩ := ih m0 hps
      simp only at h
      by_cases hlt : pairLt p m0 = true
      · rw [if_pos hlt] at h
        simp only [Option.some.injEq] at h
        subst h
        refine ⟨List.mem_cons_self _ _, ?_⟩
        intro x hx
        rcases List.mem_cons.1 hx with rfl | hx
        · exact le_refl _
        · exact le_trans (pairLt_true_le _ _ hlt) (hmin x hx)
      · rw [if_neg hlt] at h
        simp only [Option.some.injEq] at h
        subst h
        refine ⟨List.mem_cons_of_mem _ hm0, ?_⟩
        intro x hx
        rcases List.mem_cons.1 hx with rfl | hx
        · exact pairLt_false_le _ _ (by simpa using hlt)
        · exact hmin x hx

theorem pqMin_none (l : List (Weight α × Int)) (h : pqMin l = none) : l = [] := by
  cases l with
  | nil => rfl
  | cons q qs =>
    unfold pqMin at h
    cases hq : pqMin qs <;> rw [hq] at h
    · simp at h
    · simp only at h
      split_ifs at h

/-! ### Routes -/

theorem mem_weightedArcs (reg : Registry α) (u : Int) (e : Int × Weight α) :
    e ∈ weightedArcs reg u ↔
      ∃ c ∈ reg.connections, c.fromStationId = u ∧
        e = (c.toStationId, pipeWeight reg.pipes c.pipeId) := by
  simp only [weightedArcs, List.mem_map, List.mem_filter, beq_iff_eq]
  constructor
  · rintro ⟨c, ⟨hc, hu⟩, rfl⟩
    exact ⟨c, hc, hu, rfl⟩
  · rintro ⟨c, hc, hu, rfl⟩
    exact ⟨c, ⟨hc, hu⟩, rfl⟩

theorem isRoute_snoc (reg : Registry α) (cs : List NetworkConnection) (c : NetworkConnection) :
    ∀ a b, IsRoute reg a b (cs ++ [c]) ↔
      (IsRoute reg a c.fromStationId cs ∧ c ∈ reg.connections ∧ c.toStationId = b) := by
  induction cs with
  | nil =>
    intro a b
    simp only [List.nil_append, IsRoute]
    constructor
    · rintro ⟨h1, h2, h3⟩
      exact ⟨h2.symm, h1, h3⟩
    · rintro ⟨h1, h2, h3⟩
      exact ⟨h2, h1.symm, h3⟩
  | cons d ds ih =>
    intro a b
    have h := ih d.toStationId b
    show (d ∈ reg.connections ∧ d.fromStationId = a ∧ IsRoute reg d.toStationId b (ds ++ [c])) ↔
      ((d ∈ reg.connections ∧ d.fromStationId = a ∧ IsRoute reg d.toStationId c.fromStationId ds) ∧
        c ∈ reg.connections ∧ c.toStationId = b)
    rw [h]
    tauto

theorem routeWeight_snoc [DoubleRounding α] (reg : Registry α) (cs : List NetworkConnection)
    (c : NetworkConnection) :
    routeWeight reg (cs ++ [c]) = (routeWeight reg cs).add (pipeWeight reg.pipes c.pipeId) := by
  simp [routeWeight, List.foldl_append]

/-! ### One relaxation -/

theorem relax_pos [DoubleRounding α]
    (cur : Int) (d : Weight α) (st : DijkstraState α) (e : Int × Weight α)
    (h : (d.add e.2).lt (st.dist e.1) = true) :
    relax cur d st e =
      { dist := setAt st.dist e.1 (d.add e.2)
        parent := setAt st.parent e.1 cur
        pq := pqInsert (d.add e.2, e.1) (pqErase (st.dist e.1, e.1) st.pq) } := by
  simp only [relax, h, if_true]

theorem relax_neg [DoubleRounding α]
    (cur : Int) (d : Weight α) (st : DijkstraState α) (e : Int × Weight α)
    (h : (d.add e.2).lt (st.dist e.1) = false) : relax cur d st e = st := by
  simp only [relax, h, Bool.false_eq_true, if_false]

theorem chainOK_congr (p q : Int → Int) (startId : Int) (l : List Int)
    (h : ∀ u ∈ l, q u = p u) (hp : ChainOK p startId l) : ChainOK q startId l := by
  induction l with
  | nil => trivial
  | cons v rest ih =>
    obtain ⟨h1, h2⟩ := hp
    refine ⟨?_, ih (fun u hu => h u (List.mem_cons_of_mem _ hu)) h2⟩
    rw [h v (List.mem_cons_self _ _)]
    exact h1

/-- Relaxing one arc of the current station keeps the invariant, never raises
a distance, leaves the settled stations alone, and makes the arc relaxed. -/
theorem relax_spec [DoubleRounding α]
    (hr : RoundingLaws (DoubleRounding.round : α → Weight α))
    (reg : Registry α) (hv : ArcsValid reg) (startId cur : Int)
    (S : List Int) (d : Weight α) (st : DijkstraState α) (e : Int × Weight α)
    (hcore : Core reg startId (cur :: S) d.toTop st) (hd : st.dist cur = d)
    (he : e ∈ weightedArcs reg cur) :
    Core reg startId (cur :: S) d.toTop (relax cur d st e) ∧
    (∀ v, ((relax cur d st e).dist v).toTop ≤ (st.dist v).toTop) ∧
    (∀ u ∈ cur :: S, (relax cur d st e).dist u = st.dist u ∧
      (relax cur d st e).parent u = st.parent u) ∧
    ((relax cur d st e).dist e.1).toTop ≤ (d.add e.2).toTop := by
  have hd0 : (0 : WithTop α) ≤ d.toTop := by
    rw [← hd]
    exact hcore.nonneg cur
  have hdd : d.IsDouble := by
    rw [← hd]
    exact hcore.isDouble cur
  by_cases hlt : (d.add e.2).lt (st.dist e.1) = true
  · have hnd : (d.add e.2).toTop < (st.dist e.1).toTop := (Weight.lt_iff _ _).1 hlt
    have hdle : d.toTop ≤ (d.add e.2).toTop :=
      Weight.le_sum hr d e.2 hdd hd0 (hv.nonneg cur e he)
    have hnotin : e.1 ∉ cur :: S := by
      intro hin
      have := hcore.settledBelow e.1 hin
      exact absurd (lt_of_le_of_lt (le_trans this hdle) hnd) (lt_irrefl _)
    have hnestart : e.1 ≠ startId := by
      intro hes
      rw [hes, hcore.start, Weight.toTop_fin_zero] at hnd
      exact absurd (lt_of_le_of_lt (le_trans hd0 hdle) hnd) (lt_irrefl _)
    have hfin : d.add e.2 ≠ Weight.inf := by
      intro hinf
      rw [hinf] at hnd
      exact absurd hnd (by simp [Weight.toTop])
    have hfrozen : ∀ u ∈ cur :: S, u ≠ e.1 := by
      intro u hu hue
      exact hnotin (hue ▸ hu)
    have hcurne : cur ≠ e.1 := hfrozen cur (List.mem_cons_self _ _)
    rw [relax_pos cur d st e hlt]
    refine ⟨?_, ?_, ?_, ?_⟩
    · refine
        { start := ?_, startParent := ?_, nonneg := ?_, isDouble := ?_,
          settledNodup := hcore.settledNodup,
          settledStations := hcore.settledStations, settledFinite := ?_, settledBelow := ?_,
          queue := ?_, queueAbove := ?_, tree := ?_, chain := ?_ }
      · show setAt st.dist e.1 (d.add e.2) startId = Weight.fin 0
        rw [setAt_other _ _ _ _ (Ne.symm hnestart)]
        exact hcore.start
      · show setAt st.parent e.1 cur startId = -1
        rw [setAt_other _ _ _ _ (Ne.symm hnestart)]
        exact hcore.startParent
      · intro v
        show (0 : WithTop α) ≤ (setAt st.dist e.1 (d.add e.2) v).toTop
        by_cases hve : v = e.1
        · rw [hve, setAt_same]
          exact le_trans hd0 hdle
        · rw [setAt_other _ _ _ _ hve]
          exact hcore.nonneg v
      · intro v
        show (setAt st.dist e.1 (d.add e.2) v).IsDouble
        by_cases hve : v = e.1
        · rw [hve, setAt_same]
          exact Weight.sum_isDouble hr d e.2 hd0 (hv.nonneg cur e he)
        · rw [setAt_other _ _ _ _ hve]
          exact hcore.isDouble v
      · intro u hu
        show setAt st.dist e.1 (d.add e.2) u ≠ Weight.inf
        rw [setAt_other _ _ _ _ (hfrozen u hu)]
        exact hcore.settledFinite u hu
      · intro u hu
        show (setAt st.dist e.1 (d.add e.2) u).toTop ≤ d.toTop
        rw [setAt_other _ _ _ _ (hfrozen u hu)]
        exact hcore.settledBelow u hu
      · intro p
        show p ∈ pqInsert (d.add e.2, e.1) (pqErase (st.dist e.1, e.1) st.pq) ↔
          (p.2 ∈ stationIds reg ∧ p.2 ∉ cur :: S ∧
            p.1 = setAt st.dist e.1 (d.add e.2) p.2 ∧
            setAt st.dist e.1 (d.add e.2) p.2 ≠ Weight.inf)
        rw [mem_pqInsert, mem_pqErase, hcore.queue p]
        by_cases hpe : p.2 = e.1
        · rw [hpe, setAt_same]
          constructor
          · rintro (hp | ⟨⟨_, _, h3, _⟩, h5⟩)
            · rw [hp]
              exact ⟨hv.target cur e he, hnotin, rfl, hfin⟩
            · exfalso
              apply h5
              exact Prod.ext h3 hpe
          · rintro ⟨_, _, h3, _⟩
            left
            exact Prod.ext h3 hpe
        · rw [setAt_other _ _ _ _ hpe]
          constructor
          · rintro (hp | ⟨h1, _⟩)
            · exact absurd (congrArg Prod.snd hp) hpe
            · exact h1
          · intro h1
            right
            refine ⟨h1, ?_⟩
            intro hp
            exact hpe (congrArg Prod.snd hp)
      · intro p hp
        change p ∈ pqInsert (d.add e.2, e.1) (pqErase (st.dist e.1, e.1) st.pq) at hp
        rw [mem_pqInsert, mem_pqErase] at hp
        rcases hp with hp | ⟨hp, _⟩
        · rw [hp]
          exact hdle
        · exact hcore.queueAbove p hp
      · intro v hvs hvne hvfin
        change setAt st.dist e.1 (d.add e.2) v ≠ Weight.inf at hvfin
        show setAt st.parent e.1 cur v ∈ cur :: S ∧
          ∃ e2 ∈ weightedArcs reg (setAt st.parent e.1 cur v), e2.1 = v ∧
            setAt st.dist e.1 (d.add e.2) v =
              (setAt st.dist e.1 (d.add e.2) (setAt st.parent e.1 cur v)).add e2.2
        by_cases hve : v = e.1
        · rw [hve, setAt_same, setAt_same, setAt_other _ _ _ _ hcurne, hd]
          exact ⟨List.mem_cons_self _ _, e, he, rfl, rfl⟩
        · rw [setAt_other _ _ _ _ hve] at hvfin ⊢
          rw [setAt_other _ _ _ _ hve]
          obtain ⟨h1, e2, h2, h3, h4⟩ := hcore.tree v hvs hvne hvfin
          refine ⟨h1, e2, h2, h3, ?_⟩
          rw [setAt_other _ _ _ _ (hfrozen _ h1)]
          exact h4
      · show ChainOK (setAt st.parent e.1 cur) startId (cur :: S)
        refine chainOK_congr st.parent _ startId _ ?_ hcore.chain
        intro u hu
        exact setAt_other _ _ _ _ (hfrozen u hu)
    · intro v
      show (setAt st.dist e.1 (d.add e.2) v).toTop ≤ (st.dist v).toTop
      by_cases hve : v = e.1
      · rw [hve, setAt_same]
        exact le_of_lt hnd
      · rw [setAt_other _ _ _ _ hve]
    · intro u hu
      exact ⟨setAt_other _ _ _ _ (hfrozen u hu), setAt_other _ _ _ _ (hfrozen u hu)⟩
    · show (setAt st.dist e.1 (d.add e.2) e.1).toTop ≤ (d.add e.2).toTop
      rw [setAt_same]
  · have hlt2 : (d.add e.2).lt (st.dist e.1) = false := by simpa using hlt
    rw [relax_neg cur d st e hlt2]
    exact ⟨hcore, fun v => le_refl _, fun u _ => ⟨rfl, rfl⟩, (Weight.not_lt_iff _ _).1 hlt2⟩

/-- Relaxing a list of arcs of the current station. -/
theorem relax_fold [DoubleRounding α]
    (hr : RoundingLaws (DoubleRounding.round : α → Weight α))
    (reg : Registry α) (hv : ArcsValid reg) (startId cur : Int)
    (S : List Int) (d : Weight α) :
    ∀ (es : List (Int × Weight α)) (st : DijkstraState α),
      (∀ e ∈ es, e ∈ weightedArcs reg cur) →
      Core reg startId (cur :: S) d.toTop st → st.dist cur = d →
      Core reg startId (cur :: S) d.toTop (es.foldl (relax cur d) st) ∧
      (∀ v, ((es.foldl (relax cur d) st).dist v).toTop ≤ (st.dist v).toTop) ∧
      (∀ u ∈ cur :: S, (es.foldl (relax cur d) st).dist u = st.dist u ∧
        (es.foldl (relax cur d) st).parent u = st.parent u) ∧
      (∀ e ∈ es, ((es.foldl (relax cur d) st).dist e.1).toTop ≤ (d.add e.2).toTop) := by
  intro es
  induction es with
  | nil =>
    intro st _ hcore _
    exact ⟨hcore, fun v => le_refl _, fun u _ => ⟨rfl, rfl⟩, by simp⟩
  | cons e rest ih =>
    intro st hes hcore hd
    obtain ⟨c1, m1, f1, r1⟩ := relax_spec hr reg hv startId cur S d st e hcore hd
      (hes e (List.mem_cons_self _ _))
    have hd1 : (relax cur d st e).dist cur = d := by
      rw [(f1 cur (List.mem_cons_self _ _)).1]
      exact hd
    obtain ⟨c2, m2, f2, r2⟩ := ih (relax cur d st e)
      (fun e2 h => hes e2 (List.mem_cons_of_mem _ h)) c1 hd1
    rw [List.foldl_cons]
    refine ⟨c2, fun v => le_trans (m2 v) (m1 v), ?_, ?_⟩
    · intro u hu
      exact ⟨(f2 u hu).1.trans (f1 u hu).1, (f2 u hu).2.trans (f1 u hu).2⟩
    · intro e2 he2
      rcases List.mem_cons.1 he2 with rfl | he2
      · exact le_trans (m2 _) r1
      · exact r2 e2 he2

/-! ### The main loop of the shortest-path search -/

/-- Taking the least element out of `pq` settles its station. -/
theorem extract_spec [DoubleRounding α]
    (reg : Registry α) (startId : Int) (S : List Int) (lo : WithTop α)
    (st : DijkstraState α) (top : Weight α × Int)
    (hcore : Core reg startId S lo st) (hmin : pqMin st.pq = some top) :
    Core reg startId (top.2 :: S) top.1.toTop { st with pq := pqErase top st.pq } ∧
    st.dist top.2 = top.1 ∧ top.2 ∉ S := by
  obtain ⟨hmem, hle⟩ := pqMin_spec st.pq top hmin
  obtain ⟨hs, hnotin, htop, hfin⟩ := (hcore.queue top).1 hmem
  refine ⟨?_, htop.symm, hnotin⟩
  refine
    { start := hcore.start, startParent := hcore.startParent, nonneg := hcore.nonneg,
      isDouble := hcore.isDouble,
      settledNodup := List.nodup_cons.2 ⟨hnotin, hcore.settledNodup⟩,
      settledStations := ?_, settledFinite := ?_, settledBelow := ?_,
      queue := ?_, queueAbove := ?_, tree := ?_, chain := ?_ }
  · intro u hu
    rcases List.mem_cons.1 hu with rfl | hu
    · exact hs
    · exact hcore.settledStations u hu
  · intro u hu
    rcases List.mem_cons.1 hu with rfl | hu
    · exact hfin
    · exact hcore.settledFinite u hu
  · intro u hu
    show (st.dist u).toTop ≤ top.1.toTop
    rcases List.mem_cons.1 hu with rfl | hu
    · rw [htop]
    · exact le_trans (hcore.settledBelow u hu) (hcore.queueAbove top hmem)
  · intro p
    show p ∈ pqErase top st.pq ↔
      (p.2 ∈ stationIds reg ∧ p.2 ∉ top.2 :: S ∧ p.1 = st.dist p.2 ∧ st.dist p.2 ≠ Weight.inf)
    rw [mem_pqErase, hcore.queue p]
    constructor
    · rintro ⟨⟨h1, h2, h3, h4⟩, hne⟩
      refine ⟨h1, ?_, h3, h4⟩
      intro hin
      rcases List.mem_cons.1 hin with h | h
      · apply hne
        refine Prod.ext ?_ h
        rw [h3, h, htop]
      · exact h2 h
    · rintro ⟨h1, h2, h3, h4⟩
      refine ⟨⟨h1, fun h => h2 (List.mem_cons_of_mem _ h), h3, h4⟩, ?_⟩
      intro hp
      apply h2
      rw [hp]
      exact List.mem_cons_self _ _
  · intro p hp
    change p ∈ pqErase top st.pq at hp
    exact hle p ((mem_pqErase _ _ _).1 hp).1
  · intro v h1 h2 h3
    obtain ⟨h4, h5⟩ := hcore.tree v h1 h2 h3
    exact ⟨List.mem_cons_of_mem _ h4, h5⟩
  · refine ⟨?_, hcore.chain⟩
    by_cases hst : top.2 = startId
    · exact Or.inl hst
    · exact Or.inr (hcore.tree top.2 hs hst hfin).1

theorem core_settled_length [DoubleRounding α]
    (reg : Registry α) (startId : Int) (S : List Int) (lo : WithTop α)
    (st : DijkstraState α) (hcore : Core reg startId S lo st) :
    S.length ≤ reg.stations.length := by
  have := (List.subperm_of_subset hcore.settledNodup hcore.settledStations).length_le
  simpa [stationIds] using this

/-- The main loop ends within its fuel: either `pq` ran empty with the end
station never taken out, or the end station was just taken out. -/
theorem dijkstraLoop_spec [DoubleRounding α]
    (hr : RoundingLaws (DoubleRounding.round : α → Weight α))
    (reg : Registry α) (hv : ArcsValid reg) (startId endId : Int) :
    ∀ (fuel : Nat) (S : List Int) (lo : WithTop α) (st : DijkstraState α),
      Core reg startId S lo st → Relaxed reg S st → endId ∉ S →
      reg.stations.length < fuel + S.length →
      ∃ st2 S2 lo2, dijkstraLoop (weightedArcs reg) endId fuel st = some st2 ∧
        Relaxed reg S2 st2 ∧ endId ∉ S2 ∧
        ((Core reg startId S2 lo2 st2 ∧ st2.pq = []) ∨
          Core reg startId (endId :: S2) lo2 st2) := by
  intro fuel
  induction fuel with
  | zero =>
    intro S lo st hcore _ _ hlt
    have := core_settled_length reg startId S lo st hcore
    omega
  | succ n ih =>
    intro S lo st hcore hrel hend hlt
    unfold dijkstraLoop
    cases hmin : pqMin st.pq with
    | none =>
      exact ⟨st, S, lo, rfl, hrel, hend, Or.inl ⟨hcore, pqMin_none _ hmin⟩⟩
    | some top =>
      obtain ⟨hcore1, hdtop, hnotin⟩ := extract_spec reg startId S lo st top hcore hmin
      by_cases htop : top.2 = endId
      · refine ⟨{ st with pq := pqErase top st.pq }, S, top.1.toTop, by simp [htop], hrel,
          hend, Or.inr ?_⟩
        rw [← htop]
        exact hcore1
      · obtain ⟨c2, m2, f2, r2⟩ := relax_fold hr reg hv startId top.2 S top.1
          (weightedArcs reg top.2) { st with pq := pqErase top st.pq } (fun e he => he) hcore1
          hdtop
        have hrel2 : Relaxed reg (top.2 :: S)
            ((weightedArcs reg top.2).foldl (relax top.2 top.1)
              { st with pq := pqErase top st.pq }) := by
          intro u hu e he
          rw [(f2 u hu).1]
          rcases List.mem_cons.1 hu with rfl | hu2
          · show _ ≤ ((st.dist top.2).add e.2).toTop
            rw [hdtop]
            exact r2 e he
          · exact le_trans (m2 e.1) (hrel u hu2 e he)
        have hend2 : endId ∉ top.2 :: S := by
          intro hin
          rcases List.mem_cons.1 hin with h | h
          · exact htop h.symm
          · exact hend h
        obtain ⟨st3, S3, lo3, h1, h2, h3, h4⟩ := ih (top.2 :: S) top.1.toTop _ c2 hrel2 hend2
          (by simp only [List.length_cons]; omega)
        refine ⟨st3, S3, lo3, ?_, h2, h3, h4⟩
        simp only [htop, if_false]
        exact h1

theorem core_init [DoubleRounding α]
    (hr : RoundingLaws (DoubleRounding.round : α → Weight α))
    (reg : Registry α) (startId : Int) (hs : startId ∈ stationIds reg) :
    Core reg startId [] 0 (dijkstraInit reg startId) := by
  have hdist : ∀ v, (dijkstraInit reg startId).dist v =
      if v = startId then Weight.fin 0
      else if v ∈ stationIds reg then Weight.inf else Weight.fin 0 := by
    intro v
    simp only [dijkstraInit, setAt]
  have hpq : (dijkstraInit reg startId).pq = [(Weight.fin 0, startId)] := by
    simp only [dijkstraInit]
  refine
    { start := by rw [hdist]; simp, startParent := by simp [dijkstraInit, setAt],
      nonneg := ?_, isDouble := ?_, settledNodup := List.nodup_nil,
      settledStations := by simp,
      settledFinite := by simp, settledBelow := by simp, queue := ?_, queueAbove := ?_,
      tree := ?_, chain := trivial }
  · intro v
    rw [hdist]
    by_cases hvs : v = startId
    · simp only [hvs, if_true]
      exact le_refl _
    · by_cases hin : v ∈ stationIds reg
      · simp [hvs, hin, Weight.toTop]
      · simp only [hvs, hin, if_false]
        exact le_refl _
  · intro v
    rw [hdist]
    by_cases hvs : v = startId
    · simp only [hvs, if_true]
      exact Weight.isDouble_zero hr
    · by_cases hin : v ∈ stationIds reg
      · simp only [hvs, hin, if_false, if_true]
        exact Weight.isDouble_inf
      · simp only [hvs, hin, if_false]
        exact Weight.isDouble_zero hr
  · intro p
    rw [hpq, hdist]
    constructor
    · intro hp
      have hp2 : p = (Weight.fin 0, startId) := by simpa using hp
      rw [hp2]
      simp [hs]
    · rintro ⟨h1, _, h3, h4⟩
      by_cases hps : p.2 = startId
      · simp only [hps, if_true] at h3
        have : p = (Weight.fin 0, startId) := Prod.ext h3 hps
        simp [this]
      · simp [hps, h1] at h4
  · intro p hp
    rw [hpq] at hp
    have hp2 : p = (Weight.fin 0, startId) := by simpa using hp
    rw [hp2]
    exact le_refl _
  · intro v h1 h2 h3
    exfalso
    apply h3
    rw [hdist]
    simp [h1, h2]

/-- The weight of a route is a non-negative double. -/
theorem routeWeight_double [DoubleRounding α]
    (hr : RoundingLaws (DoubleRounding.round : α → Weight α))
    (reg : Registry α) (hv : ArcsValid reg) (cs : List NetworkConnection) :
    ∀ a b, IsRoute reg a b cs →
      (0 : WithTop α) ≤ (routeWeight reg cs).toTop ∧ (routeWeight reg cs).IsDouble := by
  induction cs using List.reverseRecOn with
  | nil =>
    intro a b _
    exact ⟨le_refl _, Weight.isDouble_zero hr⟩
  | append_singleton cs c ih =>
    intro a b hb
    obtain ⟨h1, h2, _⟩ := (isRoute_snoc reg cs c a b).1 hb
    have harc : (c.toStationId, pipeWeight reg.pipes c.pipeId) ∈
        weightedArcs reg c.fromStationId :=
      (mem_weightedArcs _ _ _).2 ⟨c, h2, rfl, rfl⟩
    have hw : (0 : WithTop α) ≤ (pipeWeight reg.pipes c.pipeId).toTop := hv.nonneg _ _ harc
    obtain ⟨h0, _⟩ := ih a c.fromStationId h1
    rw [routeWeight_snoc]
    exact ⟨Weight.sum_nonneg hr _ _ h0 hw, Weight.sum_isDouble hr _ _ h0 hw⟩

/-- Every route from the start either ends in a settled station whose
distance is at most the weight of the route, or passes an unsettled station
whose distance is at most that weight. -/
theorem route_frontier [DoubleRounding α]
    (hr : RoundingLaws (DoubleRounding.round : α → Weight α))
    (reg : Registry α) (hv : ArcsValid reg) (startId : Int) (S : List Int)
    (st : DijkstraState α) (hstart : st.dist startId = Weight.fin 0)
    (hnn : ∀ v, (0 : WithTop α) ≤ (st.dist v).toTop)
    (hs : startId ∈ stationIds reg) (hrel : Relaxed reg S st) :
    ∀ (cs : List NetworkConnection) (b : Int), IsRoute reg startId b cs →
      (b ∈ S ∧ (st.dist b).toTop ≤ (routeWeight reg cs).toTop) ∨
      (∃ z, z ∈ stationIds reg ∧ z ∉ S ∧ (st.dist z).toTop ≤ (routeWeight reg cs).toTop) := by
  intro cs
  induction cs using List.reverseRecOn with
  | nil =>
    intro b hb
    have hb2 : startId = b := hb
    subst hb2
    have h0 : (st.dist startId).toTop ≤ (routeWeight reg []).toTop := by
      rw [hstart]
      exact le_refl _
    by_cases hin : startId ∈ S
    · exact Or.inl ⟨hin, h0⟩
    · exact Or.inr ⟨startId, hs, hin, h0⟩
  | append_singleton cs c ih =>
    intro b hb
    obtain ⟨h1, h2, h3⟩ := (isRoute_snoc reg cs c startId b).1 hb
    have harc : (c.toStationId, pipeWeight reg.pipes c.pipeId) ∈
        weightedArcs reg c.fromStationId :=
      (mem_weightedArcs _ _ _).2 ⟨c, h2, rfl, rfl⟩
    have hw : (0 : WithTop α) ≤ (pipeWeight reg.pipes c.pipeId).toTop := hv.nonneg _ _ harc
    obtain ⟨hr0, hrd⟩ := routeWeight_double hr reg hv cs startId c.fromStationId h1
    rw [routeWeight_snoc]
    rcases ih c.fromStationId h1 with ⟨hin, hle⟩ | ⟨z, hz1, hz2, hz3⟩
    · have hrl := hrel _ hin _ harc
      have hle2 : (st.dist b).toTop ≤
          ((routeWeight reg cs).add (pipeWeight reg.pipes c.pipeId)).toTop := by
        rw [← h3]
        exact le_trans hrl (Weight.sum_le_sum hr _ _ _ (hnn _) hw hle)
      by_cases hb2 : b ∈ S
      · exact Or.inl ⟨hb2, hle2⟩
      · refine Or.inr ⟨b, ?_, hb2, hle2⟩
        rw [← h3]
        exact hv.target _ _ harc
    · exact Or.inr ⟨z, hz1, hz2, le_trans hz3 (Weight.le_sum hr _ _ hrd hr0 hw)⟩

/-- Walking back along `parent` from a settled station reaches the start and
stops; the stations passed form a route whose weight is the distance. -/
theorem walkBack_spec [DoubleRounding α] (reg : Registry α) (startId : Int) (st : DijkstraState α)
    (hsp : st.parent startId = -1) (hs0 : st.dist startId = Weight.fin 0)
    (hids : ∀ id ∈ stationIds reg, id ≠ -1)
    (htree : ∀ v, v ∈ stationIds reg → v ≠ startId → st.dist v ≠ Weight.inf →
      ∃ e ∈ weightedArcs reg (st.parent v), e.1 = v ∧
        st.dist v = (st.dist (st.parent v)).add e.2) :
    ∀ (S : List Int), ChainOK st.parent startId S →
      (∀ u ∈ S, u ∈ stationIds reg ∧ st.dist u ≠ Weight.inf) →
      ∀ v ∈ S, ∀ fuel, S.length < fuel → ∀ acc : List Int,
        ∃ cs, IsRoute reg startId v cs ∧ routeWeight reg cs = st.dist v ∧
          walkBack st.parent fuel v acc =
            some (acc ++ (startId :: cs.map (fun c => c.toStationId)).reverse) := by
  intro S
  induction S with
  | nil => intro _ _ v hv; simp at hv
  | cons u rest ih =>
    intro hchain hS v hv fuel hfuel acc
    obtain ⟨hc1, hc2⟩ := hchain
    have hSrest : ∀ x ∈ rest, x ∈ stationIds reg ∧ st.dist x ≠ Weight.inf :=
      fun x hx => hS x (List.mem_cons_of_mem _ hx)
    by_cases hvr : v ∈ rest
    · exact ih hc2 hSrest v hvr fuel (by simp only [List.length_cons] at hfuel; omega) acc
    · have hvu : v = u := by
        rcases List.mem_cons.1 hv with h | h
        · exact h
        · exact absurd h hvr
      subst hvu
      obtain ⟨hvst, hvfin⟩ := hS v (List.mem_cons_self _ _)
      have hvne : v ≠ -1 := hids v hvst
      simp only [List.length_cons] at hfuel
      by_cases hvs : v = startId
      · subst hvs
        refine ⟨[], rfl, by rw [hs0]; rfl, ?_⟩
        obtain ⟨k, rfl⟩ : ∃ k, fuel = k + 2 := ⟨fuel - 2, by omega⟩
        simp [walkBack, hvne, hsp]
      · have hpar : st.parent v ∈ rest := by
          rcases hc1 with h | h
          · exact absurd h hvs
          · exact h
        obtain ⟨e, he, he1, hdist⟩ := htree v hvst hvs hvfin
        obtain ⟨c, hc, hcfrom, rfl⟩ := (mem_weightedArcs _ _ _).1 he
        obtain ⟨k, rfl⟩ : ∃ k, fuel = k + 1 := ⟨fuel - 1, by omega⟩
        obtain ⟨cs, hr, hw, hwalk⟩ := ih hc2 hSrest (st.parent v) hpar k (by omega) (acc ++ [v])
        refine ⟨cs ++ [c], ?_, ?_, ?_⟩
        · exact (isRoute_snoc reg cs c startId v).2 ⟨by rw [hcfrom]; exact hr, hc, he1⟩
        · rw [routeWeight_snoc, hw, hdist]
        · have he2 : c.toStationId = v := he1
          simp only [walkBack, hvne, if_false, hwalk]
          simp [he2]

/-! ### The result of the shortest-path search -/

/-- On a registry whose arcs are valid, for two different stations, the main
loop ends; then either the end station is at distance `+infinity` and every
route to it has infinite weight, or its distance is finite, the walk back
along `parent` yields a route of exactly that weight, and no route is
lighter. -/
theorem shortestPath_main [DoubleRounding α]
    (hr : RoundingLaws (DoubleRounding.round : α → Weight α))
    (reg : Registry α) (hv : ArcsValid reg)
    (hids : ∀ id ∈ stationIds reg, id ≠ -1) (startId endId : Int)
    (hs : startId ∈ stationIds reg) (he : endId ∈ stationIds reg) :
    ∃ st, dijkstraLoop (weightedArcs reg) endId (reg.stations.length + 1)
        (dijkstraInit reg startId) = some st ∧
      ((st.dist endId = Weight.inf ∧
          ∀ cs, IsRoute reg startId endId cs → routeWeight reg cs = Weight.inf) ∨
        (∃ total cs, st.dist endId = Weight.fin total ∧ 0 ≤ total ∧
          IsRoute reg startId endId cs ∧ routeWeight reg cs = Weight.fin total ∧
          walkBack st.parent (reg.stations.length + 1) endId [] =
            some (startId :: cs.map (fun c => c.toStationId)).reverse ∧
          ∀ cs2, IsRoute reg startId endId cs2 →
            (routeWeight reg cs2).lt (Weight.fin total) = false)) := by
  obtain ⟨st, S, lo, hrun, hrel, hend, hexit⟩ :=
    dijkstraLoop_spec hr reg hv startId endId (reg.stations.length + 1) [] 0
      (dijkstraInit reg startId) (core_init hr reg startId hs)
      (by intro u hu; simp at hu) (by simp) (by simp)
  refine ⟨st, hrun, ?_⟩
  rcases hexit with ⟨hcore, hpq⟩ | hcore
  · left
    have hunseen : ∀ z, z ∈ stationIds reg → z ∉ S → st.dist z = Weight.inf := by
      intro z hz1 hz2
      by_contra hfin
      have := (hcore.queue (st.dist z, z)).2 ⟨hz1, hz2, rfl, hfin⟩
      rw [hpq] at this
      simp at this
    refine ⟨hunseen endId he hend, ?_⟩
    intro cs hcs
    rcases route_frontier hr reg hv startId S st hcore.start hcore.nonneg hs hrel cs endId
        hcs with
      ⟨hin, _⟩ | ⟨z, hz1, hz2, hz3⟩
    · exact absurd hin hend
    · rw [hunseen z hz1 hz2] at hz3
      exact (Weight.toTop_eq_top _).1 (top_le_iff.1 hz3)
  · right
    have hfin : st.dist endId ≠ Weight.inf := hcore.settledFinite endId (List.mem_cons_self _ _)
    cases hde : st.dist endId with
    | inf => exact absurd hde hfin
    | fin total =>
      have htree : ∀ v, v ∈ stationIds reg → v ≠ startId → st.dist v ≠ Weight.inf →
          ∃ e ∈ weightedArcs reg (st.parent v), e.1 = v ∧
            st.dist v = (st.dist (st.parent v)).add e.2 :=
        fun v h1 h2 h3 => (hcore.tree v h1 h2 h3).2
      have hlen : (endId :: S).length < reg.stations.length + 1 :=
        Nat.lt_succ_of_le (core_settled_length reg startId _ lo st hcore)
      obtain ⟨cs, hrt, hw, hwalk⟩ := walkBack_spec reg startId st hcore.startParent hcore.start
        hids htree (endId :: S) hcore.chain
        (fun u hu => ⟨hcore.settledStations u hu, hcore.settledFinite u hu⟩)
        endId (List.mem_cons_self _ _) _ hlen []
      refine ⟨total, cs, rfl, ?_, hrt, by rw [hw, hde], by simpa using hwalk, ?_⟩
      · have := hcore.nonneg endId
        rw [hde] at this
        exact WithTop.coe_le_coe.1 this
      · intro cs2 hcs2
        rw [Weight.not_lt_iff, ← hde]
        rcases route_frontier hr reg hv startId S st hcore.start hcore.nonneg hs hrel cs2
            endId hcs2 with
          ⟨hin, _⟩ | ⟨z, hz1, hz2, hz3⟩
        · exact absurd hin hend
        · refine le_trans ?_ hz3
          by_cases hze : z = endId
          · rw [hze]
          · by_cases hzfin : st.dist z = Weight.inf
            · rw [hzfin]
              exact le_top
            · have hzq : (st.dist z, z) ∈ st.pq := by
                refine (hcore.queue (st.dist z, z)).2 ⟨hz1, ?_, rfl, hzfin⟩
                intro hin
                rcases List.mem_cons.1 hin with h | h
                · exact hze h
                · exact hz2 h
              exact le_trans (hcore.settledBelow endId (List.mem_cons_self _ _))
                (hcore.queueAbove _ hzq)

theorem stationExists_iff (reg : Registry α) (id : Int) :
    stationExists reg id = true ↔ id ∈ stationIds reg := by
  simp [stationExists, stationIds]

theorem pipeWeight_nonneg (pipes : List (Pipe α)) (hl : ∀ p ∈ pipes, 0 < p.length)
    (pipeId : Int) : (0 : WithTop α) ≤ (pipeWeight pipes pipeId).toTop := by
  unfold pipeWeight
  cases hf : pipes.find? (fun p => p.id == pipeId) with
  | none => exact le_refl _
  | some p =>
    have hp : p ∈ pipes := List.mem_of_find?_eq_some hf
    show (0 : WithTop α) ≤ (p.getWeight).toTop
    unfold Pipe.getWeight
    by_cases hr : p.underRepair = true
    · simp [hr, Weight.toTop]
    · simp only [hr, Bool.false_eq_true, if_false, Weight.toTop]
      exact WithTop.coe_le_coe.2 (le_of_lt (hl p hp))

/-- With unique pipe ids the weight scanned for a pipe id is `getWeight` of
the pipe with that id. -/
theorem pipeWeight_eq_getWeight (pipes : List (Pipe α))
    (hu : (pipes.map (fun p => p.id)).Nodup) (p : Pipe α) (hp : p ∈ pipes) :
    pipeWeight pipes p.id = p.getWeight := by
  unfold pipeWeight
  cases hf : pipes.find? (fun q => q.id == p.id) with
  | none =>
    have := List.find?_eq_none.1 hf p hp
    simp at this
  | some q =>
    have hq : q ∈ pipes := List.mem_of_find?_eq_some hf
    have hid : q.id = p.id := by
      have := List.find?_some hf
      simpa using this
    have : q = p := List.inj_on_of_nodup_map hu hq hp hid
    rw [this]

theorem arcsValid_of_wellFormed (reg : Registry α) (hw : WellFormed reg) : ArcsValid reg := by
  constructor
  · intro u e he
    obtain ⟨c, hc, _, rfl⟩ := (mem_weightedArcs _ _ _).1 he
    exact hw.toExists c hc
  · intro u e he
    obtain ⟨c, hc, _, rfl⟩ := (mem_weightedArcs _ _ _).1 he
    exact pipeWeight_nonneg reg.pipes hw.lengthsPositive c.pipeId

theorem ids_ne_minus_one (reg : Registry α) (hw : WellFormed reg) :
    ∀ id ∈ stationIds reg, id ≠ -1 := by
  intro id hid
  have := hw.stationIdsPositive id hid
  omega

theorem calculateShortestPath_valid [DoubleRounding α] (reg : Registry α) (startId endId : Int)
    (hc : reg.connections ≠ []) (hs : stationExists reg startId = true)
    (he : stationExists reg endId = true) (hne : startId ≠ endId) :
    calculateShortestPath reg startId endId =
      match dijkstraLoop (weightedArcs reg) endId (reg.stations.length + 1)
          (dijkstraInit reg startId) with
      | none => PathOutcome.outOfFuel
      | some st =>
        match st.dist endId with
        | Weight.inf => PathOutcome.noPath
        | Weight.fin total =>
          match walkBack st.parent (reg.stations.length + 1) endId [] with
          | none => PathOutcome.outOfFuel
          | some path => PathOutcome.route total path.reverse := by
  have hemp : reg.connections.isEmpty = false := by
    cases hcs : reg.connections with
    | nil => exact absurd hcs hc
    | cons _ _ => rfl
  simp [calculateShortestPath, hemp, hs, he, hne]

theorem calculateShortestPath_guards [DoubleRounding α] (reg : Registry α) (startId endId : Int)
    (h : ∀ d, calculateShortestPath reg startId endId ≠ PathOutcome.rejected d) :
    reg.connections ≠ [] ∧ stationExists reg startId = true ∧
      stationExists reg endId = true ∧ startId ≠ endId := by
  refine ⟨?_, ?_, ?_, ?_⟩
  · intro hc
    exact h Diagnostic.emptyNetwork (by simp [calculateShortestPath, hc])
  · by_contra hs
    have hc : reg.connections.isEmpty = false ∨ reg.connections.isEmpty = true := by
      cases reg.connections.isEmpty <;> simp
    rcases hc with hc | hc
    · exact h (Diagnostic.unknownStation startId) (by simp [calculateShortestPath, hc, hs])
    · exact h Diagnostic.emptyNetwork (by simp [calculateShortestPath, hc])
  · by_contra he
    by_cases hc : reg.connections.isEmpty = true
    · exact h Diagnostic.emptyNetwork (by simp [calculateShortestPath, hc])
    · by_cases hs : stationExists reg startId = true
      · exact h (Diagnostic.unknownStation endId) (by simp [calculateShortestPath, hc, hs, he])
      · exact h (Diagnostic.unknownStation startId) (by simp [calculateShortestPath, hc, hs])
  · intro hse
    by_cases hc : reg.connections.isEmpty = true
    · exact h Diagnostic.emptyNetwork (by simp [calculateShortestPath, hc])
    · by_cases hs : stationExists reg startId = true
      · subst hse
        exact h Diagnostic.sameStation (by simp [calculateShortestPath, hc, hs])
      · exact h (Diagnostic.unknownStation startId) (by simp [calculateShortestPath, hc, hs])

/-- On a well-formed registry with at least one connection, for two different
existing stations, `calculateShortestPath` reports no path when every route
has infinite weight, and otherwise reports the weight and the stations of a
lightest route. -/
theorem calculateShortestPath_cases [DoubleRounding α]
    (hr : RoundingLaws (DoubleRounding.round : α → Weight α))
    (reg : Registry α) (hw : WellFormed reg)
    (startId endId : Int) (hc : reg.connections ≠ [])
    (hs : stationExists reg startId = true) (he : stationExists reg endId = true)
    (hne : startId ≠ endId) :
    (calculateShortestPath reg startId endId = PathOutcome.noPath ∧
        ∀ cs, IsRoute reg startId endId cs → routeWeight reg cs = Weight.inf) ∨
      (∃ total cs,
        calculateShortestPath reg startId endId =
          PathOutcome.route total (startId :: cs.map (fun c => c.toStationId)) ∧
        0 ≤ total ∧ IsRoute reg startId endId cs ∧ routeWeight reg cs = Weight.fin total ∧
        ∀ cs2, IsRoute reg startId endId cs2 →
          (routeWeight reg cs2).lt (Weight.fin total) = false) := by
  obtain ⟨st, hrun, hres⟩ := shortestPath_main hr reg (arcsValid_of_wellFormed reg hw)
    (ids_ne_minus_one reg hw) startId endId ((stationExists_iff _ _).1 hs)
    ((stationExists_iff _ _).1 he)
  rw [calculateShortestPath_valid reg startId endId hc hs he hne, hrun]
  rcases hres with ⟨hinf, hall⟩ | ⟨total, cs, hd, h0, hrt, hwt, hwalk, hmin⟩
  · left
    exact ⟨by simp only [hinf], hall⟩
  · right
    refine ⟨total, cs, ?_, h0, hrt, hwt, hmin⟩
    simp only [hd, hwalk, List.reverse_reverse]

/-! ### Station sequences and routes -/

theorem route_getLast (reg : Registry α) (cs : List NetworkConnection) :
    ∀ a b, IsRoute reg a b cs →
      (a :: cs.map (fun c => c.toStationId)).getLast? = some b := by
  induction cs with
  | nil =>
    intro a b h
    have h2 : a = b := h
    simp [h2]
  | cons c cs ih =>
    intro a b h
    obtain ⟨_, _, h3⟩ := h
    rw [List.map_cons, List.getLast?_cons_cons]
    exact ih _ _ h3

theorem stepsOf_route (reg : Registry α) (cs : List NetworkConnection) :
    ∀ a b, IsRoute reg a b cs →
      stepsOf (a :: cs.map (fun c => c.toStationId)) =
        cs.map (fun c => (c.fromStationId, c.toStationId)) := by
  induction cs with
  | nil => intro a b _; rfl
  | cons c cs ih =>
    intro a b h
    obtain ⟨_, h2, h3⟩ := h
    rw [List.map_cons, stepsOf, ih _ _ h3, List.map_cons, h2]

theorem route_mem (reg : Registry α) (cs : List NetworkConnection) :
    ∀ a b, IsRoute reg a b cs → ∀ c ∈ cs, c ∈ reg.connections := by
  induction cs with
  | nil => intro a b _ c hc; simp at hc
  | cons d ds ih =>
    intro a b h c hc
    obtain ⟨h1, _, h3⟩ := h
    rcases List.mem_cons.1 hc with rfl | hc
    · exact h1
    · exact ih _ _ h3 c hc

theorem find_of_unique_pairs (l : List NetworkConnection)
    (hn : (l.map (fun c => (c.fromStationId, c.toStationId))).Nodup)
    (c : NetworkConnection) (hc : c ∈ l) :
    l.find? (fun x => x.fromStationId == c.fromStationId && x.toStationId == c.toStationId) =
      some c := by
  induction l with
  | nil => simp at hc
  | cons x xs ih =>
    rw [List.map_cons, List.nodup_cons] at hn
    by_cases hx : x = c
    · subst hx
      simp [List.find?_cons]
    · have hcx : c ∈ xs := by
        rcases List.mem_cons.1 hc with h | h
        · exact absurd h.symm hx
        · exact h
      have hne : (x.fromStationId == c.fromStationId && x.toStationId == c.toStationId) =
          false := by
        by_contra hcontra
        have ht : (x.fromStationId == c.fromStationId && x.toStationId == c.toStationId) =
            true := by simpa using hcontra
        rw [Bool.and_eq_true, beq_iff_eq, beq_iff_eq] at ht
        apply hn.1
        rw [ht.1, ht.2]
        exact List.mem_map.2 ⟨c, hcx, rfl⟩
      rw [List.find?_cons, hne]
      exact ih hn.2 hcx

theorem connectionBetween_eq (reg : Registry α) (hw : WellFormed reg) (c : NetworkConnection)
    (hc : c ∈ reg.connections) :
    connectionBetween reg c.fromStationId c.toStationId = some c :=
  find_of_unique_pairs reg.connections hw.uniquePairs c hc

theorem pathWeight_fold [DoubleRounding α] (reg : Registry α) (hw : WellFormed reg)
    (cs : List NetworkConnection) :
    (∀ c ∈ cs, c ∈ reg.connections) → ∀ acc : Weight α,
      (cs.map (fun c => (c.fromStationId, c.toStationId))).foldl
          (fun acc s =>
            match connectionBetween reg s.1 s.2 with
            | some c => acc.add (pipeWeight reg.pipes c.pipeId)
            | none => Weight.inf)
          acc =
        cs.foldl (fun acc c => acc.add (pipeWeight reg.pipes c.pipeId)) acc := by
  induction cs with
  | nil => intro _ acc; rfl
  | cons c cs ih =>
    intro hmem acc
    rw [List.map_cons, List.foldl_cons, List.foldl_cons]
    simp only [connectionBetween_eq reg hw c (hmem c (List.mem_cons_self _ _))]
    exact ih (fun d hd => hmem d (List.mem_cons_of_mem _ hd)) _

theorem pathWeight_route [DoubleRounding α] (reg : Registry α) (hw : WellFormed reg)
    (cs : List NetworkConnection) (a b : Int) (h : IsRoute reg a b cs) :
    pathWeight reg (a :: cs.map (fun c => c.toStationId)) = routeWeight reg cs := by
  unfold pathWeight routeWeight
  rw [stepsOf_route reg cs a b h]
  exact pathWeight_fold reg hw cs (route_mem reg cs a b h) _

/-- A route that crosses a pipe of infinite weight has infinite weight. -/
theorem routeWeight_inf_of_mem [DoubleRounding α] (reg : Registry α)
    (cs : List NetworkConnection)
    (h : ∃ c ∈ cs, pipeWeight reg.pipes c.pipeId = Weight.inf) :
    routeWeight reg cs = Weight.inf := by
  induction cs using List.reverseRecOn with
  | nil =>
    obtain ⟨c, hc, _⟩ := h
    simp at hc
  | append_singleton cs c ih =>
    rw [routeWeight_snoc]
    obtain ⟨d, hd, hinf⟩ := h
    rcases List.mem_append.1 hd with hd | hd
    · rw [ih ⟨d, hd, hinf⟩]
      rfl
    · have hdc : d = c := by simpa using hd
      rw [← hdc, hinf]
      cases routeWeight reg cs <;> rfl

theorem no_route_isolatedRegistry (cs : List NetworkConnection) :
    ¬ IsRoute isolatedRegistry 1 2 cs := by
  cases cs with
  | nil =>
    intro h
    have h2 : (1 : Int) = 2 := h
    omega
  | cons c cs =>
    intro h
    have h1 : c ∈ isolatedRegistry.connections := h.1
    simp [isolatedRegistry] at h1

theorem augmentLoop_finished (capAt : List (Int × α) → Int → Option α)
    (reg : Registry α) (sourceId sinkId : Int) (st : FlowState α) (v : α)
    (h : (augmentStep capAt reg sourceId sinkId st).finishedValue = some v) (fuel : Nat) :
    augmentLoop capAt reg sourceId sinkId (fuel + 1) st = FlowOutcome.returned none v := by
  unfold augmentLoop
  cases hs : augmentStep capAt reg sourceId sinkId st with
  | finished w =>
    rw [hs] at h
    have : w = v := by simpa [AugmentResult.finishedValue] using h
    rw [this]
  | augmented st1 => rw [hs] at h; cases h
  | threw => rw [hs] at h; cases h
  | outOfFuel => rw [hs] at h; cases h

/-! ### Connections of infinite weight -/

theorem relax_inf [DoubleRounding α] (cur : Int) (d : Weight α) (st : DijkstraState α) (v : Int) :
    relax cur d st (v, Weight.inf) = st := by
  have h : (d.add Weight.inf).lt (st.dist v) = false := by
    cases d <;> simp [Weight.add, Weight.lt]
  exact relax_neg cur d st (v, Weight.inf) h

/-- Relaxing the arcs of a station gives the same state whether or not a
connection of infinite weight is in the connection list. -/
theorem relax_fold_erase [DoubleRounding α] (pipes : List (Pipe α)) (c : NetworkConnection)
    (hc : pipeWeight pipes c.pipeId = Weight.inf) (u : Int) (d : Weight α) :
    ∀ (conns : List NetworkConnection) (st : DijkstraState α),
      ((conns.filter (fun x => x.fromStationId == u)).map
          (fun x => (x.toStationId, pipeWeight pipes x.pipeId))).foldl (relax u d) st =
        (((conns.erase c).filter (fun x => x.fromStationId == u)).map
          (fun x => (x.toStationId, pipeWeight pipes x.pipeId))).foldl (relax u d) st := by
  intro conns
  induction conns with
  | nil => intro st; rfl
  | cons x xs ih =>
    intro st
    by_cases hx : x = c
    · subst hx
      rw [List.erase_cons_head]
      cases hu : (x.fromStationId == u) with
      | true =>
        simp only [List.filter_cons, hu, if_true, List.map_cons, List.foldl_cons, hc,
          relax_inf]
      | false =>
        simp only [List.filter_cons, hu, Bool.false_eq_true, if_false]
    · have hxc : (x == c) = false := by simpa using hx
      rw [List.erase_cons_tail (by simp [hxc])]
      cases hu : (x.fromStationId == u) with
      | true =>
        simp only [List.filter_cons, hu, if_true, List.map_cons, List.foldl_cons]
        exact ih _
      | false =>
        simp only [List.filter_cons, hu, Bool.false_eq_true, if_false]
        exact ih st

theorem dijkstraLoop_congr [DoubleRounding α] (g1 g2 : Int → List (Int × Weight α)) (endId : Int)
    (h : ∀ (u : Int) (d : Weight α) (st : DijkstraState α),
      (g1 u).foldl (relax u d) st = (g2 u).foldl (relax u d) st) :
    ∀ (fuel : Nat) (st : DijkstraState α),
      dijkstraLoop g1 endId fuel st = dijkstraLoop g2 endId fuel st := by
  intro fuel
  induction fuel with
  | zero => intro st; rfl
  | succ n ih =>
    intro st
    unfold dijkstraLoop
    cases pqMin st.pq with
    | none => rfl
    | some top =>
      simp only
      by_cases ht : top.2 = endId
      · simp only [ht, if_true]
      · simp only [ht, if_false]
        rw [h]
        exact ih _

/-- Removing a connection of infinite weight changes nothing in what
`calculateShortestPath` reports, as long as a connection remains. -/
theorem calculateShortestPath_erase [DoubleRounding α] (reg : Registry α) (c : NetworkConnection)
    (hmem : c ∈ reg.connections) (hc : pipeWeight reg.pipes c.pipeId = Weight.inf)
    (hrest : reg.connections.erase c ≠ []) (startId endId : Int) :
    calculateShortestPath reg startId endId =
      calculateShortestPath (withoutConnection reg c) startId endId := by
  have hne : reg.connections ≠ [] := by
    intro h
    rw [h] at hmem
    simp at hmem
  have he1 : reg.connections.isEmpty = false := by
    cases hcs : reg.connections with
    | nil => exact absurd hcs hne
    | cons _ _ => rfl
  have he2 : (withoutConnection reg c).connections.isEmpty = false := by
    show (reg.connections.erase c).isEmpty = false
    cases hcs : reg.connections.erase c with
    | nil => exact absurd hcs hrest
    | cons _ _ => rfl
  have hloop := dijkstraLoop_congr (weightedArcs reg) (weightedArcs (withoutConnection reg c))
    endId (fun u d st => relax_fold_erase reg.pipes c hc u d reg.connections st)
  unfold calculateShortestPath
  rw [he1, he2, hloop]
  rfl

/-! ### Editing the network: the `inUse` flag of one pipe -/

theorem setInUseAt_flagSet (b : Bool) : ∀ (pipes : List (Pipe α)) (i : Nat) (p : Pipe α),
    (pipes.map (fun q => q.id)).Nodup → pipes[i]? = some p →
    FlagSet pipes p b (setInUseAt b i pipes) := by
  intro pipes
  induction pipes with
  | nil => intro i p _ h; simp at h
  | cons x xs ih =>
    intro i p hn h
    rw [List.map_cons, List.nodup_cons] at hn
    cases i with
    | zero =>
      have hx : x = p := by simpa using h
      subst hx
      refine ⟨rfl, List.mem_cons_self _ _, ?_⟩
      intro q hq
      rcases List.mem_cons.1 hq with hq | hq
      · exact Or.inl hq
      · right
        refine ⟨List.mem_cons_of_mem _ hq, ?_⟩
        intro hid
        exact hn.1 (List.mem_map.2 ⟨q, hq, hid⟩)
    | succ j =>
      have hj : xs[j]? = some p := by simpa using h
      obtain ⟨h1, h2, h3⟩ := ih j p hn.2 hj
      have hp : p ∈ xs := List.getElem?_mem hj
      refine ⟨?_, List.mem_cons_of_mem _ h2, ?_⟩
      · show (x :: setInUseAt b j xs).map (fun q => q.id) = _
        rw [List.map_cons, h1, List.map_cons]
      · intro q hq
        change q ∈ x :: setInUseAt b j xs at hq
        rcases List.mem_cons.1 hq with hq | hq
        · right
          rw [hq]
          refine ⟨List.mem_cons_self _ _, ?_⟩
          intro hid
          exact hn.1 (List.mem_map.2 ⟨p, hp, hid.symm⟩)
        · rcases h3 q hq with h4 | ⟨h4, h5⟩
          · exact Or.inl h4
          · exact Or.inr ⟨List.mem_cons_of_mem _ h4, h5⟩

theorem releasePipe_flagSet : ∀ (pipes : List (Pipe α)) (p : Pipe α),
    (pipes.map (fun q => q.id)).Nodup → p ∈ pipes →
    FlagSet pipes p false (releasePipe p.id pipes) := by
  intro pipes
  induction pipes with
  | nil => intro p _ h; simp at h
  | cons x xs ih =>
    intro p hn hp
    rw [List.map_cons, List.nodup_cons] at hn
    by_cases hx : x.id = p.id
    · have hxp : x = p := by
        rcases List.mem_cons.1 hp with h | h
        · exact h.symm
        · exact absurd (List.mem_map.2 ⟨p, h, hx.symm⟩) hn.1
      subst hxp
      have hrel : releasePipe x.id (x :: xs) = { x with inUse := false } :: xs := by
        simp [releasePipe]
      rw [hrel]
      refine ⟨rfl, List.mem_cons_self _ _, ?_⟩
      intro q hq
      rcases List.mem_cons.1 hq with hq | hq
      · exact Or.inl hq
      · right
        refine ⟨List.mem_cons_of_mem _ hq, ?_⟩
        intro hid
        exact hn.1 (List.mem_map.2 ⟨q, hq, hid⟩)
    · have hpx : p ∈ xs := by
        rcases List.mem_cons.1 hp with h | h
        · rw [h] at hx
          exact absurd rfl hx
        · exact h
      have hrel : releasePipe p.id (x :: xs) = x :: releasePipe p.id xs := by
        simp [releasePipe, hx]
      rw [hrel]
      obtain ⟨h1, h2, h3⟩ := ih p hn.2 hpx
      refine ⟨?_, List.mem_cons_of_mem _ h2, ?_⟩
      · rw [List.map_cons, h1, List.map_cons]
      · intro q hq
        rcases List.mem_cons.1 hq with hq | hq
        · right
          rw [hq]
          exact ⟨List.mem_cons_self _ _, hx⟩
        · rcases h3 q hq with h4 | ⟨h4, h5⟩
          · exact Or.inl h4
          · exact Or.inr ⟨List.mem_cons_of_mem _ h4, h5⟩

theorem findAvailablePipe_spec (diameter : Int) : ∀ (pipes : List (Pipe α)) (i : Nat),
    findAvailablePipe diameter pipes = some i →
    ∃ p, pipes[i]? = some p ∧ p.inUse = false := by
  intro pipes
  induction pipes with
  | nil => intro i h; simp [findAvailablePipe] at h
  | cons x xs ih =>
    intro i h
    unfold findAvailablePipe at h
    by_cases hx : x.diameter = diameter ∧ x.isAvailable = true
    · rw [if_pos hx] at h
      have hi : i = 0 := by
        simp only [Option.some.injEq] at h
        exact h.symm
      subst hi
      refine ⟨x, by simp, ?_⟩
      have := hx.2
      simp only [Pipe.isAvailable, Bool.and_eq_true, Bool.not_eq_true'] at this
      exact this.2
    · rw [if_neg hx] at h
      cases hf : findAvailablePipe diameter xs with
      | none => rw [hf] at h; simp at h
      | some j =>
        rw [hf] at h
        have hi : i = j + 1 := by
          simp only [Option.map_some', Option.some.injEq] at h
          exact h.symm
        subst hi
        obtain ⟨p, hp1, hp2⟩ := ih j hf
        exact ⟨p, by simpa using hp1, hp2⟩

theorem flagSet_fresh (g : Globals α) (hf : PipeIdsFresh g) (p : Pipe α) (b : Bool)
    (pipes2 : List (Pipe α)) (conns : List NetworkConnection)
    (hs : FlagSet g.reg.pipes p b pipes2) :
    PipeIdsFresh { g with reg := { g.reg with pipes := pipes2, connections := conns } } := by
  constructor
  · show (pipes2.map (fun q => q.id)).Nodup
    rw [hs.ids]
    exact hf.unique
  · intro q hq
    change q ∈ pipes2 at hq
    have hid : q.id ∈ pipes2.map (fun q => q.id) := List.mem_map.2 ⟨q, hq, rfl⟩
    rw [hs.ids] at hid
    obtain ⟨q0, hq0, he⟩ := List.mem_map.1 hid
    show q.id < g.nextPipeId
    rw [← he]
    exact hf.below q0 hq0

/-! ### Editing the network: `connectStations` -/

/-- Marking a free pipe as used and appending a connection over it, between
two different existing stations that are not yet connected in that direction,
keeps the five conditions. -/
theorem connect_valid (reg : Registry α) (hv : ConnectionsValid reg)
    (hu : (reg.pipes.map (fun q => q.id)).Nodup) (p : Pipe α) (hp : p ∈ reg.pipes)
    (hfree : p.inUse = false) (pipes2 : List (Pipe α)) (hs : FlagSet reg.pipes p true pipes2)
    (n : NetworkConnection) (hn : n.pipeId = p.id)
    (hf : n.fromStationId ∈ stationIds reg) (ht : n.toStationId ∈ stationIds reg)
    (hne : n.fromStationId ≠ n.toStationId)
    (hnew : ∀ c ∈ reg.connections,
      ¬ (c.fromStationId = n.fromStationId ∧ c.toStationId = n.toStationId)) :
    ConnectionsValid { reg with pipes := pipes2, connections := reg.connections ++ [n] } := by
  have hnotref : p.id ∉ reg.connections.map (fun c => c.pipeId) := by
    intro hin
    have := (hv.inUseExact p hp).2 hin
    rw [hfree] at this
    cases this
  have hmem : ∀ c, c ∈ reg.connections ++ [n] → c ∈ reg.connections ∨ c = n := by
    intro c hc
    rcases List.mem_append.1 hc with hc | hc
    · exact Or.inl hc
    · exact Or.inr (by simpa using hc)
  refine
    { uniquePairs := ?_, noSelfLoop := ?_, fromExists := ?_, toExists := ?_,
      pipeExists := ?_, pipeUnshared := ?_, inUseExact := ?_ }
  · show ((reg.connections ++ [n]).map (fun c => (c.fromStationId, c.toStationId))).Nodup
    rw [List.map_append]
    refine List.nodup_append.2 ⟨hv.uniquePairs, by simp, ?_⟩
    intro x hx hx2
    have hx3 : x = (n.fromStationId, n.toStationId) := by simpa using hx2
    subst hx3
    obtain ⟨c, hc, hpair⟩ := List.mem_map.1 hx
    have h1 : c.fromStationId = n.fromStationId := congrArg Prod.fst hpair
    have h2 : c.toStationId = n.toStationId := congrArg Prod.snd hpair
    exact hnew c hc ⟨h1, h2⟩
  · intro c hc
    rcases hmem c hc with hc | hc
    · exact hv.noSelfLoop c hc
    · rw [hc]
      exact hne
  · intro c hc
    show c.fromStationId ∈ stationIds reg
    rcases hmem c hc with hc | hc
    · exact hv.fromExists c hc
    · rw [hc]
      exact hf
  · intro c hc
    show c.toStationId ∈ stationIds reg
    rcases hmem c hc with hc | hc
    · exact hv.toExists c hc
    · rw [hc]
      exact ht
  · intro c hc
    show c.pipeId ∈ pipes2.map (fun q => q.id)
    rw [hs.ids]
    rcases hmem c hc with hc | hc
    · exact hv.pipeExists c hc
    · rw [hc, hn]
      exact List.mem_map.2 ⟨p, hp, rfl⟩
  · show ((reg.connections ++ [n]).map (fun c => c.pipeId)).Nodup
    rw [List.map_append]
    refine List.nodup_append.2 ⟨hv.pipeUnshared, by simp, ?_⟩
    intro x hx hx2
    have hx3 : x = p.id := by
      have : x = n.pipeId := by simpa using hx2
      rw [this, hn]
    subst hx3
    exact hnotref hx
  · intro q hq
    have hq0 : q ∈ pipes2 := hq
    show q.inUse = true ↔ q.id ∈ (reg.connections ++ [n]).map (fun c => c.pipeId)
    rw [List.map_append, List.mem_append]
    rcases hs.others q hq0 with hq2 | ⟨hq2, hq3⟩
    · rw [hq2]
      constructor
      · intro _
        right
        simp [hn]
      · intro _
        rfl
    · rw [hv.inUseExact q hq2]
      constructor
      · exact fun h => Or.inl h
      · rintro (h | h)
        · exact h
        · exfalso
          apply hq3
          have : q.id = n.pipeId := by simpa using h
          rw [this, hn]

theorem connectVia_reject (i : Nat) (inp : ConnectInput α) (g : Globals α)
    (h : stationExists g.reg inp.fromId = false ∨ stationExists g.reg inp.toId = false ∨
      inp.fromId = inp.toId ∨
      g.reg.connections.any
        (fun c => c.fromStationId == inp.fromId && c.toStationId == inp.toId) = true) :
    connectVia i inp g = (false, g) := by
  unfold connectVia
  by_cases h1 : stationExists g.reg inp.fromId = true
  · by_cases h2 : stationExists g.reg inp.toId = true
    · by_cases h3 : inp.fromId = inp.toId
      · simp [h1, h2, h3]
      · rcases h with h | h | h | h
        · rw [h] at h1
          cases h1
        · rw [h] at h2
          cases h2
        · exact absurd h h3
        · simp only [h1, h2, h3, h, Bool.not_true, Bool.false_eq_true, if_false, if_true]
    · have h2f : stationExists g.reg inp.toId = false := by simpa using h2
      simp [h1, h2f]
  · have h1f : stationExists g.reg inp.fromId = false := by simpa using h1
    simp [h1f]

theorem connectVia_accept (i : Nat) (inp : ConnectInput α) (g : Globals α) (p : Pipe α)
    (hp : g.reg.pipes[i]? = some p)
    (h1 : stationExists g.reg inp.fromId = true) (h2 : stationExists g.reg inp.toId = true)
    (h3 : inp.fromId ≠ inp.toId)
    (h4 : g.reg.connections.any
      (fun c => c.fromStationId == inp.fromId && c.toStationId == inp.toId) = false) :
    connectVia i inp g =
      (true,
        { g with
          reg :=
            { g.reg with
              pipes := setInUseAt true i g.reg.pipes
              connections := g.reg.connections ++
                [NetworkConnection.mk p.id inp.fromId inp.toId] } }) := by
  unfold connectVia
  simp only [h1, h2, h3, h4, hp, Bool.not_true, Bool.false_eq_true, if_false]

theorem connectVia_spec (i : Nat) (inp : ConnectInput α) (g : Globals α)
    (hv : ConnectionsValid g.reg) (hf : PipeIdsFresh g) (p : Pipe α)
    (hp : g.reg.pipes[i]? = some p) (hfree : p.inUse = false) :
    ConnectionsValid (connectVia i inp g).2.reg ∧ PipeIdsFresh (connectVia i inp g).2 ∧
      ((connectVia i inp g).1 = false → (connectVia i inp g).2 = g) := by
  by_cases h : stationExists g.reg inp.fromId = false ∨ stationExists g.reg inp.toId = false ∨
      inp.fromId = inp.toId ∨
      g.reg.connections.any
        (fun c => c.fromStationId == inp.fromId && c.toStationId == inp.toId) = true
  · rw [connectVia_reject i inp g h]
    exact ⟨hv, hf, fun _ => rfl⟩
  · push_neg at h
    obtain ⟨h1, h2, h3, h4⟩ := h
    have h1t : stationExists g.reg inp.fromId = true := by simpa using h1
    have h2t : stationExists g.reg inp.toId = true := by simpa using h2
    have h4f : g.reg.connections.any
        (fun c => c.fromStationId == inp.fromId && c.toStationId == inp.toId) = false := by
      simpa using h4
    rw [connectVia_accept i inp g p hp h1t h2t h3 h4f]
    have hs := setInUseAt_flagSet true g.reg.pipes i p hf.unique hp
    have hnew : ∀ c ∈ g.reg.connections,
        ¬ (c.fromStationId = inp.fromId ∧ c.toStationId = inp.toId) := by
      intro c hc hcc
      have := List.any_eq_false.1 h4f c hc
      apply this
      simp [hcc.1, hcc.2]
    refine ⟨?_, ?_, ?_⟩
    · exact connect_valid g.reg hv hf.unique p (List.getElem?_mem hp) hfree _ hs
        (NetworkConnection.mk p.id inp.fromId inp.toId) rfl
        ((stationExists_iff _ _).1 h1t) ((stationExists_iff _ _).1 h2t) h3 hnew
    · exact flagSet_fresh g hf p true _ _ hs
    · intro hfalse
      cases hfalse

theorem wrapInt32_of_range (x : Int) (hlo : -2147483648 ≤ x) (hhi : x ≤ 2147483647) :
    wrapInt32 x = x := by
  unfold wrapInt32
  omega

theorem addPipe_spec (inp : PipeInput α) (g : Globals α)
    (hv : ConnectionsValid g.reg) (hf : PipeIdsFresh g)
    (hlo : -2147483648 ≤ g.nextPipeId) (hhi : g.nextPipeId < 2147483647) :
    ConnectionsValid (addPipe inp g).reg ∧ PipeIdsFresh (addPipe inp g) ∧
      Untouched g (addPipe inp g) ∧
      (addPipe inp g).reg.pipes[(addPipe inp g).reg.pipes.length - 1]? =
        some (freshPipe g.nextPipeId inp) := by
  have hnotref : g.nextPipeId ∉ g.reg.connections.map (fun c => c.pipeId) := by
    intro hin
    obtain ⟨c, hc, he⟩ := List.mem_map.1 hin
    obtain ⟨q, hq, hqe⟩ := List.mem_map.1 (hv.pipeExists c hc)
    have := hf.below q hq
    rw [hqe, he] at this
    exact lt_irrefl _ this
  have hmem : ∀ q, q ∈ (addPipe inp g).reg.pipes →
      q ∈ g.reg.pipes ∨ q = freshPipe g.nextPipeId inp := by
    intro q hq
    have hq2 : q ∈ g.reg.pipes ++ [freshPipe g.nextPipeId inp] := hq
    rcases List.mem_append.1 hq2 with hq3 | hq3
    · exact Or.inl hq3
    · exact Or.inr (by simpa using hq3)
  have hids : (addPipe inp g).reg.pipes.map (fun q => q.id) =
      g.reg.pipes.map (fun q => q.id) ++ [g.nextPipeId] := by
    show (g.reg.pipes ++ [freshPipe g.nextPipeId inp]).map (fun q => q.id) = _
    rw [List.map_append]
    rfl
  refine ⟨?_, ?_, ⟨rfl, _, rfl⟩, ?_⟩
  · refine
      { uniquePairs := hv.uniquePairs, noSelfLoop := hv.noSelfLoop,
        fromExists := hv.fromExists, toExists := hv.toExists, pipeExists := ?_,
        pipeUnshared := hv.pipeUnshared, inUseExact := ?_ }
    · intro c hc
      rw [hids]
      exact List.mem_append_left _ (hv.pipeExists c hc)
    · intro q hq
      show q.inUse = true ↔ q.id ∈ g.reg.connections.map (fun c => c.pipeId)
      rcases hmem q hq with hq | hq
      · exact hv.inUseExact q hq
      · rw [hq]
        constructor
        · intro h
          cases h
        · intro h
          exact absurd h hnotref
  · constructor
    · rw [hids]
      refine List.nodup_append.2 ⟨hf.unique, by simp, ?_⟩
      intro x hx hx2
      have hx3 : x = g.nextPipeId := by simpa using hx2
      subst hx3
      obtain ⟨q, hq, hqe⟩ := List.mem_map.1 hx
      have := hf.below q hq
      rw [hqe] at this
      exact lt_irrefl _ this
    · intro q hq
      show q.id < wrapInt32 (g.nextPipeId + 1)
      rw [wrapInt32_of_range _ (by omega) (by omega)]
      rcases hmem q hq with hq | hq
      · have := hf.below q hq
        omega
      · rw [hq]
        show g.nextPipeId < g.nextPipeId + 1
        omega
  · show (g.reg.pipes ++ [freshPipe g.nextPipeId inp])[
        (g.reg.pipes ++ [freshPipe g.nextPipeId inp]).length - 1]? = _
    simp

theorem untouched_refl (g : Globals α) : Untouched g g :=
  ⟨rfl, [], by simp⟩

/-- `connectStations` keeps the five conditions and the freshness of pipe
ids, and a refused connection leaves the connections and the existing pipes
as they were. -/
theorem connectStations_spec (inp : ConnectInput α) (g : Globals α)
    (hv : ConnectionsValid g.reg) (hf : PipeIdsFresh g)
    (hlo : -2147483648 ≤ g.nextPipeId) (hhi : g.nextPipeId < 2147483647) :
    ConnectionsValid (connectStations inp g).2.reg ∧ PipeIdsFresh (connectStations inp g).2 ∧
      ((connectStations inp g).1 = false → Untouched g (connectStations inp g).2) := by
  unfold connectStations
  by_cases hlen : g.reg.stations.length < 2
  · rw [if_pos hlen]
    exact ⟨hv, hf, fun _ => untouched_refl g⟩
  · rw [if_neg hlen]
    cases hfind : findAvailablePipe inp.diameter g.reg.pipes with
    | some i =>
      obtain ⟨p, hp, hfree⟩ := findAvailablePipe_spec inp.diameter g.reg.pipes i hfind
      obtain ⟨h1, h2, h3⟩ := connectVia_spec i inp g hv hf p hp hfree
      refine ⟨h1, h2, fun hr => ?_⟩
      have h4 : (connectVia i inp g).2 = g := h3 hr
      show Untouched g (connectVia i inp g).2
      rw [h4]
      exact untouched_refl g
    | none =>
      dsimp only
      by_cases hch : inp.choice = 1
      · rw [if_pos hch]
        obtain ⟨a1, a2, a3, hp⟩ := addPipe_spec inp.newPipe g hv hf hlo hhi
        simp only [hp]
        by_cases hd : (freshPipe g.nextPipeId inp.newPipe).diameter = inp.diameter
        · rw [if_neg (not_not.2 hd)]
          obtain ⟨h1, h2, h3⟩ := connectVia_spec
            ((addPipe inp.newPipe g).reg.pipes.length - 1) inp (addPipe inp.newPipe g) a1 a2
            (freshPipe g.nextPipeId inp.newPipe) hp rfl
          refine ⟨h1, h2, fun hr => ?_⟩
          rw [h3 hr]
          exact a3
        · rw [if_pos hd]
          exact ⟨a1, a2, fun _ => a3⟩
      · rw [if_neg hch]
        exact ⟨hv, hf, fun _ => untouched_refl g⟩

/-! ### Editing the network: `disconnectStations` and the two deletions -/

theorem find_eraseP_split (pred : NetworkConnection → Bool) :
    ∀ (l : List NetworkConnection) (c : NetworkConnection), l.find? pred = some c →
      ∃ l1 l2, l = l1 ++ c :: l2 ∧ l.eraseP pred = l1 ++ l2 := by
  intro l
  induction l with
  | nil => intro c h; simp at h
  | cons x xs ih =>
    intro c h
    by_cases hx : pred x = true
    · have hc : x = c := by
        rw [List.find?_cons, hx] at h
        simpa using h
      subst hc
      exact ⟨[], xs, rfl, by rw [List.eraseP_cons_of_pos hx]; rfl⟩
    · have hx2 : pred x = false := by simpa using hx
      rw [List.find?_cons, hx2] at h
      obtain ⟨l1, l2, h1, h2⟩ := ih c h
      refine ⟨x :: l1, l2, by rw [h1]; rfl, ?_⟩
      rw [List.eraseP_cons_of_neg hx, h2]
      rfl

/-- Releasing the pipe of a connection and removing that connection keeps the
five conditions. -/
theorem disconnect_valid (reg : Registry α) (hv : ConnectionsValid reg)
    (l1 l2 : List NetworkConnection) (c : NetworkConnection)
    (hsplit : reg.connections = l1 ++ c :: l2) (p : Pipe α) (hp : p ∈ reg.pipes)
    (hid : p.id = c.pipeId) (pipes2 : List (Pipe α))
    (hs : FlagSet reg.pipes p false pipes2) :
    ConnectionsValid { reg with pipes := pipes2, connections := l1 ++ l2 } := by
  have hsub : (l1 ++ l2).Sublist reg.connections := by
    rw [hsplit]
    exact (List.sublist_cons_self c l2).append_left l1
  have hmem : ∀ x, x ∈ l1 ++ l2 → x ∈ reg.connections := fun x hx => hsub.subset hx
  have hgone : c.pipeId ∉ (l1 ++ l2).map (fun x => x.pipeId) := by
    have h := hv.pipeUnshared
    rw [hsplit, List.map_append, List.map_cons, List.nodup_middle, List.nodup_cons] at h
    rw [List.map_append]
    exact h.1
  refine
    { uniquePairs := (hsub.map _).nodup hv.uniquePairs,
      noSelfLoop := fun x hx => hv.noSelfLoop x (hmem x hx),
      fromExists := fun x hx => hv.fromExists x (hmem x hx),
      toExists := fun x hx => hv.toExists x (hmem x hx),
      pipeExists := ?_, pipeUnshared := (hsub.map _).nodup hv.pipeUnshared,
      inUseExact := ?_ }
  · intro x hx
    show x.pipeId ∈ pipes2.map (fun q => q.id)
    rw [hs.ids]
    exact hv.pipeExists x (hmem x hx)
  · intro q hq
    have hq0 : q ∈ pipes2 := hq
    show q.inUse = true ↔ q.id ∈ (l1 ++ l2).map (fun x => x.pipeId)
    rcases hs.others q hq0 with hq2 | ⟨hq2, hq3⟩
    · rw [hq2]
      constructor
      · intro h
        cases h
      · intro h
        exfalso
        apply hgone
        rw [← hid]
        exact h
    · rw [hv.inUseExact q hq2]
      constructor
      · intro h
        obtain ⟨x, hx, hxe⟩ := List.mem_map.1 h
        rw [hsplit] at hx
        rcases List.mem_append.1 hx with hx1 | hx1
        · exact List.mem_map.2 ⟨x, List.mem_append_left _ hx1, hxe⟩
        · rcases List.mem_cons.1 hx1 with hx2 | hx2
          · exfalso
            apply hq3
            rw [← hxe, hx2, hid]
          · exact List.mem_map.2 ⟨x, List.mem_append_right _ hx2, hxe⟩
      · intro h
        obtain ⟨x, hx, hxe⟩ := List.mem_map.1 h
        exact List.mem_map.2 ⟨x, hmem x hx, hxe⟩

/-- `disconnectStations` keeps the five conditions and the freshness of pipe
ids, and changes nothing when it removes no connection. -/
theorem disconnectStations_spec (fromId toId : Int) (g : Globals α)
    (hv : ConnectionsValid g.reg) (hf : PipeIdsFresh g) :
    ConnectionsValid (disconnectStations fromId toId g).2.reg ∧
      PipeIdsFresh (disconnectStations fromId toId g).2 ∧
      ((disconnectStations fromId toId g).1 = false →
        (disconnectStations fromId toId g).2 = g) := by
  unfold disconnectStations
  by_cases hemp : g.reg.connections.isEmpty = true
  · rw [if_pos hemp]
    exact ⟨hv, hf, fun _ => rfl⟩
  · rw [if_neg hemp]
    cases hfind : g.reg.connections.find?
        (fun c => c.fromStationId == fromId && c.toStationId == toId) with
    | none => exact ⟨hv, hf, fun _ => rfl⟩
    | some c =>
      dsimp only
      have hc : c ∈ g.reg.connections := List.mem_of_find?_eq_some hfind
      obtain ⟨l1, l2, h1, h2⟩ := find_eraseP_split _ g.reg.connections c hfind
      obtain ⟨p, hp, hid⟩ := List.mem_map.1 (hv.pipeExists c hc)
      have hs : FlagSet g.reg.pipes p false (releasePipe c.pipeId g.reg.pipes) := by
        rw [← hid]
        exact releasePipe_flagSet g.reg.pipes p hf.unique hp
      rw [h2]
      refine ⟨disconnect_valid g.reg hv l1 l2 c h1 p hp hid _ hs,
        flagSet_fresh g hf p false _ _ hs, ?_⟩
      intro hfalse
      cases hfalse

/-- `deletePipe` keeps the five conditions and the freshness of pipe ids, and
changes nothing when it erases no pipe. -/
theorem deletePipe_spec (id : Int) (g : Globals α)
    (hv : ConnectionsValid g.reg) (hf : PipeIdsFresh g) :
    ConnectionsValid (deletePipe id g).2.reg ∧ PipeIdsFresh (deletePipe id g).2 ∧
      ((deletePipe id g).1 = false → (deletePipe id g).2 = g) := by
  unfold deletePipe
  by_cases hemp : g.reg.pipes.isEmpty = true
  · rw [if_pos hemp]
    exact ⟨hv, hf, fun _ => rfl⟩
  · rw [if_neg hemp]
    by_cases href : g.reg.connections.any (fun c => c.pipeId == id) = true
    · rw [if_pos href]
      exact ⟨hv, hf, fun _ => rfl⟩
    · rw [if_neg href]
      by_cases hex : g.reg.pipes.any (fun p => p.id == id) = true
      · rw [if_pos hex]
        have hnoref : ∀ c ∈ g.reg.connections, c.pipeId ≠ id := by
          intro c hc hcid
          apply href
          rw [List.any_eq_true]
          exact ⟨c, hc, by simp [hcid]⟩
        have hsub : (g.reg.pipes.eraseP (fun p => p.id == id)).Sublist g.reg.pipes :=
          List.eraseP_sublist _
        refine ⟨?_, ?_, ?_⟩
        · refine
            { uniquePairs := hv.uniquePairs, noSelfLoop := hv.noSelfLoop,
              fromExists := hv.fromExists, toExists := hv.toExists, pipeExists := ?_,
              pipeUnshared := hv.pipeUnshared, inUseExact := ?_ }
          · intro c hc
            obtain ⟨q, hq, hqe⟩ := List.mem_map.1 (hv.pipeExists c hc)
            have hqid : ¬ (fun p : Pipe α => p.id == id) q = true := by
              have := hnoref c hc
              simp only [beq_iff_eq]
              rw [hqe]
              exact this
            exact List.mem_map.2
              ⟨q, (@List.mem_eraseP_of_neg _ (fun p : Pipe α => p.id == id) q g.reg.pipes hqid).2 hq,
                hqe⟩
          · intro q hq
            exact hv.inUseExact q (hsub.subset hq)
        · constructor
          · exact (hsub.map _).nodup hf.unique
          · intro q hq
            exact hf.below q (hsub.subset hq)
        · intro hfalse
          cases hfalse
      · rw [if_neg hex]
        exact ⟨hv, hf, fun _ => rfl⟩

/-- `deleteCompressorStation` keeps the five conditions and the freshness of
pipe ids, and changes nothing when it erases no station. -/
theorem deleteCompressorStation_spec (id : Int) (g : Globals α)
    (hv : ConnectionsValid g.reg) (hf : PipeIdsFresh g) :
    ConnectionsValid (deleteCompressorStation id g).2.reg ∧
      PipeIdsFresh (deleteCompressorStation id g).2 ∧
      ((deleteCompressorStation id g).1 = false → (deleteCompressorStation id g).2 = g) := by
  unfold deleteCompressorStation
  by_cases hemp : g.reg.stations.isEmpty = true
  · rw [if_pos hemp]
    exact ⟨hv, hf, fun _ => rfl⟩
  · rw [if_neg hemp]
    by_cases href : g.reg.connections.any
        (fun c => c.fromStationId == id || c.toStationId == id) = true
    · rw [if_pos href]
      exact ⟨hv, hf, fun _ => rfl⟩
    · rw [if_neg href]
      by_cases hex : g.reg.stations.any (fun s => s.id == id) = true
      · rw [if_pos hex]
        have hnoref : ∀ c ∈ g.reg.connections, c.fromStationId ≠ id ∧ c.toStationId ≠ id := by
          intro c hc
          constructor
          · intro hcid
            apply href
            rw [List.any_eq_true]
            exact ⟨c, hc, by simp [hcid]⟩
          · intro hcid
            apply href
            rw [List.any_eq_true]
            exact ⟨c, hc, by simp [hcid]⟩
        have hstay : ∀ x, x ∈ stationIds g.reg → x ≠ id →
            x ∈ (g.reg.stations.eraseP (fun s => s.id == id)).map (fun s => s.id) := by
          intro x hx hxid
          obtain ⟨q, hq, hqe⟩ := List.mem_map.1 hx
          have hqid : ¬ (fun s : CompressorStation => s.id == id) q = true := by
            simp only [beq_iff_eq]
            rw [hqe]
            exact hxid
          exact List.mem_map.2
            ⟨q, (@List.mem_eraseP_of_neg _ (fun s : CompressorStation => s.id == id) q
              g.reg.stations hqid).2 hq, hqe⟩
        refine ⟨?_, ⟨hf.unique, hf.below⟩, ?_⟩
        · exact
            { uniquePairs := hv.uniquePairs, noSelfLoop := hv.noSelfLoop,
              fromExists := fun c hc => hstay _ (hv.fromExists c hc) (hnoref c hc).1,
              toExists := fun c hc => hstay _ (hv.toExists c hc) (hnoref c hc).2,
              pipeExists := hv.pipeExists, pipeUnshared := hv.pipeUnshared,
              inUseExact := hv.inUseExact }
        · intro hfalse
          cases hfalse
      · rw [if_neg hex]
        exact ⟨hv, hf, fun _ => rfl⟩

/-! ### The order in which the sorter enqueues -/

/-- C1: `Pipe::getCapacity` agrees with the reference rule: 0 under repair
whatever the diameter, otherwise 100 / 300 / 700 / 1200 for diameters
500 / 700 / 1000 / 1400 and 0 for every other diameter. -/
theorem getCapacity_eq_reference (p : Pipe α) :
    p.getCapacity = capacityReference p.underRepair p.diameter := by
  unfold Pipe.getCapacity capacityReference capacityTable
  by_cases hr : p.underRepair = true
  · simp [hr]
  · by_cases h1 : p.diameter = 500
    · simp [hr, h1, List.lookup]
    by_cases h2 : p.diameter = 700
    · simp [hr, h2, List.lookup]
    by_cases h3 : p.diameter = 1000
    · simp [hr, h3, List.lookup]
    by_cases h4 : p.diameter = 1400
    · simp [hr, h4, List.lookup]
    have e1 : (p.diameter == 500) = false := by simpa using h1
    have e2 : (p.diameter == 700) = false := by simpa using h2
    have e3 : (p.diameter == 1000) = false := by simpa using h3
    have e4 : (p.diameter == 1400) = false := by simpa using h4
    simp [hr, h1, h2, h3, h4, List.lookup, e1, e2, e3, e4]

/-- C2: `Pipe::getWeight` is `+infinity` for a pipe under repair, whatever
its diameter and length, and exactly the length otherwise. -/
theorem getWeight_spec (p : Pipe α) :
    (p.underRepair = true → p.getWeight = Weight.inf) ∧
    (p.underRepair = false → p.getWeight = Weight.fin p.length) := by
  constructor
  · intro h
    simp [Pipe.getWeight, h]
  · intro h
    simp [Pipe.getWeight, h]

/-- C3: on a registry with unique station ids whose connection endpoints
are existing stations, whenever `topologicalSort` prints an order, that order
lists every station id exactly once (it is a permutation of the station ids)
and every connection goes from an earlier entry to a later one. -/
theorem topologicalSort_order_valid (reg : Registry α) (hv : StationsValid reg)
    (sortedOrder : List Int) (h : topologicalSort reg = TopoOutcome.order sortedOrder) :
    sortedOrder.Perm (stationIds reg) ∧
    (∀ id ∈ stationIds reg, sortedOrder.count id = 1) ∧
    ∀ c ∈ reg.connections,
      c.fromStationId ∈ sortedOrder ∧ c.toStationId ∈ sortedOrder ∧
      sortedOrder.indexOf c.fromStationId < sortedOrder.indexOf c.toStationId := by
  have hne : reg.connections ≠ [] := by
    intro hc
    simp [topologicalSort, hc] at h
  obtain ⟨res, inDeg2, hinv, hout⟩ := topologicalSort_cases reg hv hne
  rw [hout] at h
  by_cases hlen : res.length = reg.stations.length
  · simp [hlen] at h
    subst h
    have hp := kahnInv_final_perm reg hv hinv hlen
    have hnd : res.Nodup := by simpa using hinv.nodup
    refine ⟨hp, ?_, ?_⟩
    · intro id hid
      exact List.count_eq_one_of_mem hnd (hp.mem_iff.2 hid)
    · intro c hc
      exact ⟨hp.mem_iff.2 (hv.fromExists c hc), hp.mem_iff.2 (hv.toExists c hc),
        kahnInv_final_before reg hv hinv hp _ _ ⟨c, hc, rfl, rfl⟩⟩
  · simp [hlen] at h

/-- C3, on the scenario of the specification: stations 1, 2, 3 with
connections 1→2 and 2→3 are printed in the order 1, 2, 3. -/
theorem topologicalSort_order_valid_witness :
    topologicalSort chainRegistry = TopoOutcome.order [1, 2, 3] ∧
    ([1, 2, 3] : List Int).Perm (stationIds chainRegistry) ∧
    (∀ id ∈ stationIds chainRegistry, ([1, 2, 3] : List Int).count id = 1) ∧
    ∀ c ∈ chainRegistry.connections,
      c.fromStationId ∈ ([1, 2, 3] : List Int) ∧ c.toStationId ∈ ([1, 2, 3] : List Int) ∧
      ([1, 2, 3] : List Int).indexOf c.fromStationId <
        ([1, 2, 3] : List Int).indexOf c.toStationId :=
  ⟨by decide,
    topologicalSort_order_valid chainRegistry ⟨by decide, by decide, by decide⟩ [1, 2, 3]
      (by decide)⟩

/-- C4 as stated fails: three stations without any connection form an acyclic
graph on a valid registry, yet `topologicalSort` prints no order (it reports
the network as empty). -/
theorem topologicalSort_empty_no_order :
    StationsValid isolatedRegistry ∧ Acyclic isolatedRegistry ∧
    topologicalSort isolatedRegistry = TopoOutcome.emptyNetwork ∧
    ¬ ∃ sortedOrder, topologicalSort isolatedRegistry = TopoOutcome.order sortedOrder :=
  ⟨⟨by decide, by decide, by decide⟩, arc_of_no_connections isolatedRegistry rfl,
    by decide, by
      rintro ⟨o, ho⟩
      have h2 : topologicalSort isolatedRegistry = TopoOutcome.emptyNetwork := by decide
      rw [h2] at ho
      cases ho⟩

/-- C4, amended: on a valid registry with at least one connection,
`topologicalSort` prints an order of all stations exactly when the connection
graph has no directed cycle, and reports a cycle (printing no order) when it
has one. -/
theorem topologicalSort_iff_acyclic (reg : Registry α) (hv : StationsValid reg)
    (hne : reg.connections ≠ []) :
    ((∃ sortedOrder, topologicalSort reg = TopoOutcome.order sortedOrder ∧
        sortedOrder.Perm (stationIds reg)) ↔ Acyclic reg) ∧
    (¬ Acyclic reg → topologicalSort reg = TopoOutcome.cycleDetected) := by
  obtain ⟨res, inDeg2, hinv, hout⟩ := topologicalSort_cases reg hv hne
  have hfwd : (∃ sortedOrder, topologicalSort reg = TopoOutcome.order sortedOrder) →
      Acyclic reg := by
    rintro ⟨o, ho⟩
    rw [hout] at ho
    by_cases hlen : res.length = reg.stations.length
    · have hp := kahnInv_final_perm reg hv hinv hlen
      have hb := transGen_index_lt reg res (kahnInv_final_before reg hv hinv hp)
      intro v hcyc
      exact lt_irrefl _ (hb v v hcyc)
    · simp [hlen] at ho
  have hbwd : Acyclic reg → ∃ sortedOrder,
      topologicalSort reg = TopoOutcome.order sortedOrder ∧
        sortedOrder.Perm (stationIds reg) := by
    intro hac
    have hlen := kahnInv_final_complete reg hv hinv hac
    exact ⟨res, by rw [hout]; simp [hlen], kahnInv_final_perm reg hv hinv hlen⟩
  refine ⟨⟨fun ⟨o, ho, _⟩ => hfwd ⟨o, ho⟩, hbwd⟩, ?_⟩
  intro hcyc
  rw [hout]
  by_cases hlen : res.length = reg.stations.length
  · exfalso
    exact hcyc (hfwd ⟨res, by rw [hout]; simp [hlen]⟩)
  · simp [hlen]

/-- C4, amended, on the cyclic scenario of the specification: stations 1, 2, 3
with connections 1→2, 2→3, 3→1 make the sorter report a cycle. -/
theorem topologicalSort_iff_acyclic_witness :
    topologicalSort cycleRegistry = TopoOutcome.cycleDetected ∧
    (((∃ sortedOrder, topologicalSort cycleRegistry = TopoOutcome.order sortedOrder ∧
        sortedOrder.Perm (stationIds cycleRegistry)) ↔ Acyclic cycleRegistry) ∧
    (¬ Acyclic cycleRegistry → topologicalSort cycleRegistry = TopoOutcome.cycleDetected)) :=
  ⟨by decide,
    topologicalSort_iff_acyclic cycleRegistry ⟨by decide, by decide, by decide⟩ (by decide)⟩

/-- C5, what the program does instead: the bottleneck line reads
`graph[u].at(v)` on a vector of `(neighbour, capacity)` entries.  Read as the
text has it (entry at position `v`), the call throws on the scenario of the
specification and on two stations joined in both directions; read as a lookup
by neighbour id, the scenario of the specification gives 100, but the query
1→2 on the two stations joined in both directions finds the reverse entry of
capacity 0 first, the bottleneck is 0, and the loop never ends.  On the two
stations joined in both directions no flow value is returned under either
reading. -/
theorem calculateMaxFlow_bottleneck_defect :
    (∀ fuel, calculateMaxFlow atPosition (fuel + 1) chainRegistry 1 3 = FlowOutcome.threw) ∧
    calculateMaxFlow atNeighbor 2 chainRegistry 1 3 = FlowOutcome.returned none 100 ∧
    WellFormed antiparallelRegistry ∧
    (∀ fuel, calculateMaxFlow atPosition (fuel + 1) antiparallelRegistry 1 2 =
      FlowOutcome.threw) ∧
    (∀ fuel, calculateMaxFlow atNeighbor fuel antiparallelRegistry 1 2 =
      FlowOutcome.outOfFuel) := by
  refine ⟨?_, by decide, ?_, ?_, ?_⟩
  · intro fuel
    rw [calculateMaxFlow_valid _ _ _ _ _ (by decide) (by decide) (by decide) (by decide)]
    exact augmentLoop_threw _ _ _ _ _ (by decide) fuel
  · exact ⟨by decide, by decide, by decide, by decide, by decide, by decide, by decide,
      by decide, by decide, by decide, by decide, by decide⟩
  · intro fuel
    rw [calculateMaxFlow_valid _ _ _ _ _ (by decide) (by decide) (by decide) (by decide)]
    exact augmentLoop_threw _ _ _ _ _ (by decide) fuel
  · intro fuel
    rw [calculateMaxFlow_valid _ _ _ _ _ (by decide) (by decide) (by decide) (by decide)]
    exact augmentLoop_stuck _ _ _ _ _ (augmentStep_of_total _ _ _ _ _ (by decide)) fuel

/-- C6 as stated fails: with the connections 1→2 of length
10000000000000002, 2→3 of length 1 and 1→3 of length 10000000000000004, a
well-formed registry, `calculateShortestPath` reports the route 1, 3 with the
total 10000000000000004, while the route 1, 2, 3 has the smaller sum of
weights 10000000000000003: added to 10000000000000002 as doubles are, the
length 1 gives 10000000000000004. -/
theorem calculateShortestPath_not_minimal :
    WellFormed roundingRegistry ∧
    calculateShortestPath roundingRegistry 1 3 =
      PathOutcome.route 10000000000000004 [1, 3] ∧
    IsRoute roundingRegistry 1 3 [⟨1, 1, 2⟩, ⟨2, 2, 3⟩] ∧
    exactRouteWeight roundingRegistry [⟨1, 1, 2⟩, ⟨2, 2, 3⟩] =
      Weight.fin 10000000000000003 ∧
    routeWeight roundingRegistry [⟨1, 1, 2⟩, ⟨2, 2, 3⟩] = Weight.fin 10000000000000004 ∧
    (10000000000000003 : Int) < 10000000000000004 :=
  ⟨⟨by decide, by decide, by decide, by decide, by decide, by decide, by decide,
      by decide, by decide, by decide, by decide, by decide⟩,
    by decide, ⟨by decide, rfl, by decide, rfl, rfl⟩, by decide, by decide, by decide⟩

/-- C6, amended: on a well-formed registry, when `calculateShortestPath`
reports a route, the total it computes (the double `dist[endId]` that it
prints) is the weight of some route from the start to the end and no route
from the start to the end has a strictly smaller weight, the weight of a
route being the sum of the weights of its pipes added up from the start as
doubles are, every addition rounded.  Of the rounding only its laws are used:
zero stays zero, larger values do not round to smaller ones, a rounded value
rounds to itself. -/
theorem calculateShortestPath_minimal [DoubleRounding α]
    (hr : RoundingLaws (DoubleRounding.round : α → Weight α))
    (reg : Registry α) (hw : WellFormed reg)
    (startId endId : Int) (total : α) (path : List Int)
    (h : calculateShortestPath reg startId endId = PathOutcome.route total path) :
    (∃ cs, IsRoute reg startId endId cs ∧ routeWeight reg cs = Weight.fin total) ∧
    ∀ cs, IsRoute reg startId endId cs →
      (routeWeight reg cs).lt (Weight.fin total) = false := by
  obtain ⟨hc, hs, he, hne⟩ := calculateShortestPath_guards reg startId endId
    (by intro d hd; rw [h] at hd; cases hd)
  rcases calculateShortestPath_cases hr reg hw startId endId hc hs he hne with
    ⟨hno, _⟩ | ⟨total2, cs, hout, _, hrt, hwt, hmin⟩
  · rw [h] at hno
    cases hno
  · rw [h] at hout
    injection hout with h1 h2
    subst h1
    exact ⟨⟨cs, hrt, hwt⟩, hmin⟩

/-- C6, amended, on the scenario of the specification, with the rounding of
`binary64`: connection 1→2 of length 10 and 2→3 of length 5 give total 15 and
path 1, 2, 3. -/
theorem calculateShortestPath_minimal_witness :
    calculateShortestPath chainRegistry 1 3 = PathOutcome.route 15 [1, 2, 3] ∧
    ((∃ cs, IsRoute chainRegistry 1 3 cs ∧ routeWeight chainRegistry cs = Weight.fin 15) ∧
    ∀ cs, IsRoute chainRegistry 1 3 cs →
      (routeWeight chainRegistry cs).lt (Weight.fin 15) = false) :=
  ⟨by decide,
    calculateShortestPath_minimal (binary64_laws 0) chainRegistry
      ⟨by decide, by decide, by decide, by decide, by decide, by decide, by decide,
        by decide, by decide, by decide, by decide, by decide⟩
      1 3 15 [1, 2, 3] (by decide)⟩

/-- C7 as stated fails: with the connections 1→2 of length 9007199254740992
and 2→3 of length 1, a well-formed registry, `calculateShortestPath` reports
the route 1, 2, 3 with the total 9007199254740992, which is not the sum
9007199254740993 of the weights along it: added to `2 ^ 53` as doubles are,
the length 1 is lost. -/
theorem calculateShortestPath_total_not_sum :
    WellFormed absorbRegistry ∧
    calculateShortestPath absorbRegistry 1 3 =
      PathOutcome.route 9007199254740992 [1, 2, 3] ∧
    exactPathWeight absorbRegistry [1, 2, 3] = Weight.fin 9007199254740993 ∧
    (9007199254740992 : Int) ≠ 9007199254740993 :=
  ⟨⟨by decide, by decide, by decide, by decide, by decide, by decide, by decide,
      by decide, by decide, by decide, by decide, by decide⟩,
    by decide, by decide, by decide⟩

/-- C7, amended: on a well-formed registry, when `calculateShortestPath`
reports a route, the reported station sequence starts with the start station,
ends with the end station, every consecutive pair is joined by a connection,
and the total it computes (the double `dist[endId]` that it prints) is
non-negative and is the step-by-step sum of the weights of the backing pipes
along the sequence, added up from the start as doubles are, every addition
rounded. -/
theorem calculateShortestPath_route_sound [DoubleRounding α]
    (hr : RoundingLaws (DoubleRounding.round : α → Weight α))
    (reg : Registry α) (hw : WellFormed reg)
    (startId endId : Int) (total : α) (path : List Int)
    (h : calculateShortestPath reg startId endId = PathOutcome.route total path) :
    path.head? = some startId ∧ path.getLast? = some endId ∧
    (∀ s ∈ stepsOf path,
      ∃ c ∈ reg.connections, c.fromStationId = s.1 ∧ c.toStationId = s.2) ∧
    0 ≤ total ∧ pathWeight reg path = Weight.fin total := by
  obtain ⟨hc, hs, he, hne⟩ := calculateShortestPath_guards reg startId endId
    (by intro d hd; rw [h] at hd; cases hd)
  rcases calculateShortestPath_cases hr reg hw startId endId hc hs he hne with
    ⟨hno, _⟩ | ⟨total2, cs, hout, h0, hrt, hwt, _⟩
  · rw [h] at hno
    cases hno
  · rw [h] at hout
    injection hout with h1 h2
    subst h1
    subst h2
    refine ⟨rfl, route_getLast reg cs _ _ hrt, ?_, h0, ?_⟩
    · intro s hsmem
      rw [stepsOf_route reg cs _ _ hrt] at hsmem
      obtain ⟨c, hcm, rfl⟩ := List.mem_map.1 hsmem
      exact ⟨c, route_mem reg cs _ _ hrt c hcm, rfl, rfl⟩
    · rw [pathWeight_route reg hw cs _ _ hrt, hwt]

/-- C7, amended, on the cyclic scenario, with the rounding of `binary64`:
from station 3 to station 2 the route 3, 1, 2 of total 7 + 10 is reported. -/
theorem calculateShortestPath_route_sound_witness :
    calculateShortestPath cycleRegistry 3 2 = PathOutcome.route 17 [3, 1, 2] ∧
    (([3, 1, 2] : List Int).head? = some 3 ∧ ([3, 1, 2] : List Int).getLast? = some 2 ∧
    (∀ s ∈ stepsOf [3, 1, 2],
      ∃ c ∈ cycleRegistry.connections, c.fromStationId = s.1 ∧ c.toStationId = s.2) ∧
    (0 : Int) ≤ 17 ∧ pathWeight cycleRegistry [3, 1, 2] = Weight.fin 17) :=
  ⟨by decide,
    calculateShortestPath_route_sound (binary64_laws 0) cycleRegistry
      ⟨by decide, by decide, by decide, by decide, by decide, by decide, by decide,
        by decide, by decide, by decide, by decide, by decide⟩
      3 2 17 [3, 1, 2] (by decide)⟩

/-- C8 as stated fails, in two ways.  On three stations without any
connection there is no route from station 1 to station 2, yet
`calculateShortestPath` does not report that no path was found; it reports
the network as empty.  And with the connections 1→2 and 2→3, both over a pipe
in service of length `1e308`, a well-formed registry, the route 1, 2, 3 runs
over pipes of finite weight only, yet no path is reported from station 1 to
station 3: the sum of the two lengths overflows to `+infinity`. -/
theorem calculateShortestPath_noPath_not_iff :
    (WellFormed isolatedRegistry ∧
      stationExists isolatedRegistry 1 = true ∧ stationExists isolatedRegistry 2 = true ∧
      (¬ ∃ cs, IsRoute isolatedRegistry 1 2 cs ∧
        ∀ c ∈ cs, pipeWeight isolatedRegistry.pipes c.pipeId ≠ Weight.inf) ∧
      calculateShortestPath isolatedRegistry 1 2 =
        PathOutcome.rejected Diagnostic.emptyNetwork ∧
      calculateShortestPath isolatedRegistry 1 2 ≠ PathOutcome.noPath) ∧
    (WellFormed overflowRegistry ∧
      stationExists overflowRegistry 1 = true ∧ stationExists overflowRegistry 3 = true ∧
      IsRoute overflowRegistry 1 3 [⟨1, 1, 2⟩, ⟨2, 2, 3⟩] ∧
      (∀ c ∈ [(⟨1, 1, 2⟩ : NetworkConnection), ⟨2, 2, 3⟩],
        pipeWeight overflowRegistry.pipes c.pipeId = Weight.fin length1e308) ∧
      Weight.add (Weight.fin length1e308) (Weight.fin length1e308) = Weight.inf ∧
      calculateShortestPath overflowRegistry 1 3 = PathOutcome.noPath) :=
  ⟨⟨⟨by decide, by decide, by decide, by decide, by decide, by decide, by decide,
        by decide, by decide, by decide, by decide, by decide⟩,
      by decide, by decide,
      fun ⟨cs, hcs, _⟩ => no_route_isolatedRegistry cs hcs,
      by decide, by decide⟩,
    ⟨by decide, by decide, by decide, by decide, by decide, by decide, by decide,
      by decide, by decide, by decide, by decide, by decide⟩,
    by decide, by decide, ⟨by decide, rfl, by decide, rfl, rfl⟩, by decide, by decide,
    by decide⟩

/-- C8, amended: on a well-formed registry with at least one connection, for
two different existing stations, `calculateShortestPath` reports that no path
was found exactly when no route from the start to the end has a finite
weight, the weights of its pipes being added up from the start as doubles
are; this is so in particular when no route runs over pipes of finite weight
only.  Otherwise it reports a route, whose total is finite. -/
theorem calculateShortestPath_noPath_iff [DoubleRounding α]
    (hr : RoundingLaws (DoubleRounding.round : α → Weight α))
    (reg : Registry α) (hw : WellFormed reg)
    (startId endId : Int) (hc : reg.connections ≠ [])
    (hs : stationExists reg startId = true) (he : stationExists reg endId = true)
    (hne : startId ≠ endId) :
    (calculateShortestPath reg startId endId = PathOutcome.noPath ↔
      ¬ ∃ cs, IsRoute reg startId endId cs ∧ routeWeight reg cs ≠ Weight.inf) ∧
    ((¬ ∃ cs, IsRoute reg startId endId cs ∧
        ∀ c ∈ cs, pipeWeight reg.pipes c.pipeId ≠ Weight.inf) →
      calculateShortestPath reg startId endId = PathOutcome.noPath) ∧
    (calculateShortestPath reg startId endId = PathOutcome.noPath ∨
      ∃ total path, calculateShortestPath reg startId endId = PathOutcome.route total path ∧
        ∃ cs, IsRoute reg startId endId cs ∧ routeWeight reg cs = Weight.fin total) := by
  have hfin : ∀ cs, routeWeight reg cs ≠ Weight.inf →
      ∀ c ∈ cs, pipeWeight reg.pipes c.pipeId ≠ Weight.inf := by
    intro cs hcs c hcm hinf
    exact hcs (routeWeight_inf_of_mem reg cs ⟨c, hcm, hinf⟩)
  rcases calculateShortestPath_cases hr reg hw startId endId hc hs he hne with
    ⟨hno, hall⟩ | ⟨total, cs, hout, _, hrt, hwt, _⟩
  · refine ⟨⟨fun _ => ?_, fun _ => hno⟩, fun _ => hno, Or.inl hno⟩
    rintro ⟨cs, hcs, hfinite⟩
    exact hfinite (hall cs hcs)
  · have hwfin : routeWeight reg cs ≠ Weight.inf := by
      rw [hwt]
      intro h
      cases h
    refine ⟨⟨fun hno => ?_, fun hnone => ?_⟩, fun hnone => ?_,
      Or.inr ⟨total, _, hout, cs, hrt, hwt⟩⟩
    · rw [hout] at hno
      cases hno
    · exact absurd ⟨cs, hrt, hwfin⟩ hnone
    · exact absurd ⟨cs, hrt, hfin cs hwfin⟩ hnone

/-- C8, amended, on a single connection 1→2 whose pipe is under repair, with
the rounding of `binary64`: no path is reported from station 1 to
station 2. -/
theorem calculateShortestPath_noPath_iff_witness :
    calculateShortestPath repairRegistry 1 2 = PathOutcome.noPath ∧
    ((calculateShortestPath repairRegistry 1 2 = PathOutcome.noPath ↔
      ¬ ∃ cs, IsRoute repairRegistry 1 2 cs ∧ routeWeight repairRegistry cs ≠ Weight.inf) ∧
    ((¬ ∃ cs, IsRoute repairRegistry 1 2 cs ∧
        ∀ c ∈ cs, pipeWeight repairRegistry.pipes c.pipeId ≠ Weight.inf) →
      calculateShortestPath repairRegistry 1 2 = PathOutcome.noPath) ∧
    (calculateShortestPath repairRegistry 1 2 = PathOutcome.noPath ∨
      ∃ total path, calculateShortestPath repairRegistry 1 2 = PathOutcome.route total path ∧
        ∃ cs, IsRoute repairRegistry 1 2 cs ∧
          routeWeight repairRegistry cs = Weight.fin total)) :=
  ⟨by decide,
    calculateShortestPath_noPath_iff (binary64_laws 0) repairRegistry
      ⟨by decide, by decide, by decide, by decide, by decide, by decide, by decide,
        by decide, by decide, by decide, by decide, by decide⟩
      1 2 (by decide) (by decide) (by decide) (by decide)⟩

/-- C9 as stated fails: on a registry without connections both functions
report the empty network for ids that are not stations, and the value
`calculateMaxFlow` returns for an unknown station is the value it returns for
a legitimate zero flow. -/
theorem validation_not_distinguished :
    stationExists isolatedRegistry 7 = false ∧
    calculateMaxFlow atNeighbor 5 isolatedRegistry 7 8 =
      FlowOutcome.returned (some Diagnostic.emptyNetwork) 0 ∧
    calculateShortestPath isolatedRegistry 7 8 =
      PathOutcome.rejected Diagnostic.emptyNetwork ∧
    calculateMaxFlow atNeighbor 5 repairRegistry 1 2 = FlowOutcome.returned none 0 ∧
    (calculateMaxFlow atNeighbor 5 chainRegistry 7 1).value =
      (calculateMaxFlow atNeighbor 5 repairRegistry 1 2).value := by
  refine ⟨by decide, by decide, by decide, by decide, by decide⟩

/-- C9, amended: with at least one connection in the registry, both
functions print the unknown-station diagnostic for the first of the two ids
that is not a station and the same-station diagnostic when both exist and are
equal, `calculateMaxFlow` then returning 0.0; with no connection, both print
the empty-network diagnostic whatever the ids. -/
theorem validation_diagnostics [DoubleRounding α]
    (capAt : List (Int × α) → Int → Option α) (fuel : Nat)
    (reg : Registry α) (a b : Int) :
    (reg.connections = [] →
      calculateMaxFlow capAt fuel reg a b =
        FlowOutcome.returned (some Diagnostic.emptyNetwork) 0 ∧
      calculateShortestPath reg a b = PathOutcome.rejected Diagnostic.emptyNetwork) ∧
    (reg.connections ≠ [] → stationExists reg a = false →
      calculateMaxFlow capAt fuel reg a b =
        FlowOutcome.returned (some (Diagnostic.unknownStation a)) 0 ∧
      calculateShortestPath reg a b = PathOutcome.rejected (Diagnostic.unknownStation a)) ∧
    (reg.connections ≠ [] → stationExists reg a = true → stationExists reg b = false →
      calculateMaxFlow capAt fuel reg a b =
        FlowOutcome.returned (some (Diagnostic.unknownStation b)) 0 ∧
      calculateShortestPath reg a b = PathOutcome.rejected (Diagnostic.unknownStation b)) ∧
    (reg.connections ≠ [] → stationExists reg a = true → stationExists reg b = true → a = b →
      calculateMaxFlow capAt fuel reg a b =
        FlowOutcome.returned (some Diagnostic.sameStation) 0 ∧
      calculateShortestPath reg a b = PathOutcome.rejected Diagnostic.sameStation) := by
  have hemp : reg.connections ≠ [] → reg.connections.isEmpty = false := by
    intro hc
    cases hcs : reg.connections with
    | nil => exact absurd hcs hc
    | cons _ _ => rfl
  refine ⟨?_, ?_, ?_, ?_⟩
  · intro hc
    simp [calculateMaxFlow, calculateShortestPath, hc]
  · intro hc ha
    simp [calculateMaxFlow, calculateShortestPath, hemp hc, ha]
  · intro hc ha hb
    simp [calculateMaxFlow, calculateShortestPath, hemp hc, ha, hb]
  · intro hc ha hb hab
    subst hab
    simp [calculateMaxFlow, calculateShortestPath, hemp hc, ha]

/-- C9, amended, on concrete registries: no connection, an unknown first
id, an unknown second id, and twice the same station. -/
theorem validation_diagnostics_witness :
    (calculateMaxFlow atNeighbor 5 isolatedRegistry 7 8 =
        FlowOutcome.returned (some Diagnostic.emptyNetwork) 0 ∧
      calculateShortestPath isolatedRegistry 7 8 =
        PathOutcome.rejected Diagnostic.emptyNetwork) ∧
    (calculateMaxFlow atNeighbor 5 chainRegistry 7 1 =
        FlowOutcome.returned (some (Diagnostic.unknownStation 7)) 0 ∧
      calculateShortestPath chainRegistry 7 1 =
        PathOutcome.rejected (Diagnostic.unknownStation 7)) ∧
    (calculateMaxFlow atNeighbor 5 chainRegistry 1 7 =
        FlowOutcome.returned (some (Diagnostic.unknownStation 7)) 0 ∧
      calculateShortestPath chainRegistry 1 7 =
        PathOutcome.rejected (Diagnostic.unknownStation 7)) ∧
    (calculateMaxFlow atNeighbor 5 chainRegistry 2 2 =
        FlowOutcome.returned (some Diagnostic.sameStation) 0 ∧
      calculateShortestPath chainRegistry 2 2 =
        PathOutcome.rejected Diagnostic.sameStation) :=
  ⟨(validation_diagnostics atNeighbor 5 isolatedRegistry 7 8).1 (by decide),
    (validation_diagnostics atNeighbor 5 chainRegistry 7 1).2.1 (by decide) (by decide),
    (validation_diagnostics atNeighbor 5 chainRegistry 1 7).2.2.1 (by decide) (by decide)
      (by decide),
    (validation_diagnostics atNeighbor 5 chainRegistry 2 2).2.2.2 (by decide) (by decide)
      (by decide) (by decide)⟩

/-- C10 as stated fails: on three stations without any connection, a
well-formed registry, stations 1 and 2 exist and differ and no route joins
them, yet `calculateMaxFlow` does not return 0.0 in the ordinary way: it
prints the empty-network notice and returns, exactly as it does on this
registry for the ids 7 and 8, which are no stations. -/
theorem calculateMaxFlow_empty_notice :
    WellFormed isolatedRegistry ∧
    stationExists isolatedRegistry 1 = true ∧ stationExists isolatedRegistry 2 = true ∧
    ¬ Relation.TransGen (PosArc isolatedRegistry) 1 2 ∧
    (∀ (capAt : List (Int × Int) → Int → Option Int) (fuel : Nat),
      calculateMaxFlow capAt fuel isolatedRegistry 1 2 =
        FlowOutcome.returned (some Diagnostic.emptyNetwork) 0 ∧
      calculateMaxFlow capAt fuel isolatedRegistry 1 2 ≠ FlowOutcome.returned none 0 ∧
      calculateMaxFlow capAt fuel isolatedRegistry 1 2 =
        calculateMaxFlow capAt fuel isolatedRegistry 7 8) := by
  have hno : ∀ a b, ¬ PosArc isolatedRegistry a b := by
    rintro a b ⟨c, hc, _⟩
    simp [isolatedRegistry] at hc
  refine ⟨⟨by decide, by decide, by decide, by decide, by decide, by decide, by decide,
      by decide, by decide, by decide, by decide, by decide⟩, by decide, by decide, ?_, ?_⟩
  · intro h
    cases h with
    | single h1 => exact hno _ _ h1
    | tail _ h2 => exact hno _ _ h2
  · intro capAt fuel
    have h12 : calculateMaxFlow capAt fuel isolatedRegistry 1 2 =
        FlowOutcome.returned (some Diagnostic.emptyNetwork) 0 := by
      simp [calculateMaxFlow, isolatedRegistry]
    have h78 : calculateMaxFlow capAt fuel isolatedRegistry 7 8 =
        FlowOutcome.returned (some Diagnostic.emptyNetwork) 0 := by
      simp [calculateMaxFlow, isolatedRegistry]
    refine ⟨h12, ?_, h12.trans h78.symm⟩
    rw [h12]
    intro h
    cases h

/-- C10, amended: on a registry with at least one connection, for two
distinct existing stations with no route from the source to the sink along
connections whose pipe has a positive capacity, `calculateMaxFlow` returns
the value 0.0 in the ordinary way, with nothing printed, whatever the reading
of the bottleneck line (it is not reached) and for any positive fuel. -/
theorem calculateMaxFlow_unreachable_zero (capAt : List (Int × α) → Int → Option α)
    (fuel : Nat) (reg : Registry α) (sourceId sinkId : Int)
    (hc : reg.connections ≠ [])
    (hs : stationExists reg sourceId = true) (ht : stationExists reg sinkId = true)
    (hne : sourceId ≠ sinkId)
    (hno : ¬ Relation.TransGen (PosArc reg) sourceId sinkId) :
    calculateMaxFlow capAt (fuel + 1) reg sourceId sinkId = FlowOutcome.returned none 0 := by
  rw [calculateMaxFlow_valid capAt _ reg _ _ hc hs ht hne]
  unfold augmentLoop
  rw [augmentStep_unreachable capAt reg sourceId sinkId hne hno]

/-- C10, amended, on the scenario of the specification: a single connection
1→2 whose pipe is under repair gives the value 0 with nothing printed. -/
theorem calculateMaxFlow_unreachable_zero_witness :
    ¬ Relation.TransGen (PosArc repairRegistry) 1 2 ∧
    calculateMaxFlow atNeighbor (0 + 1) repairRegistry 1 2 = FlowOutcome.returned none 0 :=
  ⟨no_route_repairRegistry,
    calculateMaxFlow_unreachable_zero atNeighbor 0 repairRegistry 1 2 (by decide) (by decide)
      (by decide) (by decide) no_route_repairRegistry⟩

/-- C11, what the program does instead: `halfRepairedRegistry` and
`antiparallelRegistry` have the same stations and connections and differ only
in the repair state of pipe 2, no capacity being smaller in the second.  On
the first, `calculateMaxFlow(1, 2)` returns 0; on the second it returns no
value at all, under either reading of the bottleneck line (it throws, or its
loop never ends), so the flow of the second is not at least that of the
first. -/
theorem calculateMaxFlow_monotone_defect :
    halfRepairedRegistry.stations.map (fun s => s.id) =
      antiparallelRegistry.stations.map (fun s => s.id) ∧
    halfRepairedRegistry.connections = antiparallelRegistry.connections ∧
    halfRepairedRegistry.pipes.map (fun p => (p.id, p.length, p.diameter)) =
      antiparallelRegistry.pipes.map (fun p => (p.id, p.length, p.diameter)) ∧
    (∀ c ∈ antiparallelRegistry.connections,
      pipeCapacity halfRepairedRegistry.pipes c.pipeId ≤
        pipeCapacity antiparallelRegistry.pipes c.pipeId) ∧
    (∀ fuel, calculateMaxFlow atPosition (fuel + 1) halfRepairedRegistry 1 2 =
      FlowOutcome.returned none 0) ∧
    (∀ fuel, calculateMaxFlow atNeighbor (fuel + 1) halfRepairedRegistry 1 2 =
      FlowOutcome.returned none 0) ∧
    (∀ fuel, (calculateMaxFlow atPosition fuel antiparallelRegistry 1 2).value = none) ∧
    (∀ fuel, (calculateMaxFlow atNeighbor fuel antiparallelRegistry 1 2).value = none) := by
  refine ⟨by decide, by decide, by decide, by decide, ?_, ?_, ?_, ?_⟩
  · intro fuel
    rw [calculateMaxFlow_valid _ _ _ _ _ (by decide) (by decide) (by decide) (by decide)]
    exact augmentLoop_finished _ _ _ _ _ _ (by decide) fuel
  · intro fuel
    rw [calculateMaxFlow_valid _ _ _ _ _ (by decide) (by decide) (by decide) (by decide)]
    exact augmentLoop_finished _ _ _ _ _ _ (by decide) fuel
  · intro fuel
    rw [calculateMaxFlow_valid _ _ _ _ _ (by decide) (by decide) (by decide) (by decide)]
    cases fuel with
    | zero => rfl
    | succ n => rw [augmentLoop_threw _ _ _ _ _ (by decide) n]; rfl
  · intro fuel
    rw [calculateMaxFlow_valid _ _ _ _ _ (by decide) (by decide) (by decide) (by decide),
      augmentLoop_stuck _ _ _ _ _ (augmentStep_of_total _ _ _ _ _ (by decide)) fuel]
    rfl

/-- C12 as stated fails, on its own example: with the single connection 1→2
on a pipe under repair, `calculateShortestPath(1, 2)` reports that no path was
found, but with that connection removed the connection list is empty and the
function reports the network as empty instead. -/
theorem calculateShortestPath_erase_last_differs :
    WellFormed repairRegistry ∧
    (⟨1, 1, 2⟩ : NetworkConnection) ∈ repairRegistry.connections ∧
    (∃ p ∈ repairRegistry.pipes, p.id = 1 ∧ p.underRepair = true) ∧
    calculateShortestPath repairRegistry 1 2 = PathOutcome.noPath ∧
    calculateShortestPath (withoutConnection repairRegistry ⟨1, 1, 2⟩) 1 2 =
      PathOutcome.rejected Diagnostic.emptyNetwork ∧
    calculateShortestPath repairRegistry 1 2 ≠
      calculateShortestPath (withoutConnection repairRegistry ⟨1, 1, 2⟩) 1 2 :=
  ⟨⟨by decide, by decide, by decide, by decide, by decide, by decide, by decide,
      by decide, by decide, by decide, by decide, by decide⟩,
    by decide, by decide, by decide, by decide, by decide⟩

/-- C12, amended: on a well-formed registry, for a connection whose backing
pipe is under repair and which is not the only connection,
`calculateShortestPath` reports the same (the same diagnostic, the same
no-path message, or the same total and station sequence) on the registry and
on the registry with that connection removed, for every pair of ids. -/
theorem calculateShortestPath_ignores_repaired [DoubleRounding α]
    (reg : Registry α) (hw : WellFormed reg)
    (c : NetworkConnection) (hc : c ∈ reg.connections)
    (hrep : ∃ p ∈ reg.pipes, p.id = c.pipeId ∧ p.underRepair = true)
    (hrest : reg.connections.erase c ≠ []) (startId endId : Int) :
    calculateShortestPath reg startId endId =
      calculateShortestPath (withoutConnection reg c) startId endId := by
  obtain ⟨p, hp, hid, hr⟩ := hrep
  have hwt : pipeWeight reg.pipes c.pipeId = Weight.inf := by
    rw [← hid, pipeWeight_eq_getWeight reg.pipes hw.pipeIdsUnique p hp]
    simp [Pipe.getWeight, hr]
  exact calculateShortestPath_erase reg c hc hwt hrest startId endId

/-- C12, amended, on a registry where the direct connection 1→2 is under
repair and a detour 1→3→2 exists: with and without the direct connection the
route 1, 3, 2 of total 10 is reported. -/
theorem calculateShortestPath_ignores_repaired_witness :
    calculateShortestPath detourRegistry 1 2 = PathOutcome.route 10 [1, 3, 2] ∧
    calculateShortestPath detourRegistry 1 2 =
      calculateShortestPath (withoutConnection detourRegistry ⟨1, 1, 2⟩) 1 2 :=
  ⟨by decide,
    calculateShortestPath_ignores_repaired detourRegistry
      ⟨by decide, by decide, by decide, by decide, by decide, by decide, by decide,
        by decide, by decide, by decide, by decide, by decide⟩
      ⟨1, 1, 2⟩ (by decide) (by decide) (by decide) 1 2⟩

/-- C13 as stated fails: with two free pipes that carry the same id and no
connection, the five conditions hold; `connectStations` then connects
stations 1 and 2 over the first of the two pipes and marks only that one as
used, so the second pipe is referenced by a connection and not marked in
use.  And distinct pipe ids below `nextPipeId` are kept only while the
counter can still be stepped: on the chain scenario with `nextPipeId` at
2147483647, a connection 1→3 over a newly created pipe is accepted, the new
pipe gets the id 2147483647 and the counter wraps to -2147483648, below
every pipe id. -/
theorem connectStations_breaks_conditions :
    (ConnectionsValid twinPipes.reg ∧
      (connectStations ⟨500, 0, ⟨"", 1, 500⟩, 1, 2⟩ twinPipes).1 = true ∧
      ¬ ConnectionsValid (connectStations ⟨500, 0, ⟨"", 1, 500⟩, 1, 2⟩ twinPipes).2.reg) ∧
    (ConnectionsValid lastIdGlobals.reg ∧ PipeIdsFresh lastIdGlobals ∧
      (connectStations ⟨500, 1, ⟨"n", 3, 500⟩, 1, 3⟩ lastIdGlobals).1 = true ∧
      (connectStations ⟨500, 1, ⟨"n", 3, 500⟩, 1, 3⟩ lastIdGlobals).2.nextPipeId =
        -2147483648 ∧
      ¬ PipeIdsFresh (connectStations ⟨500, 1, ⟨"n", 3, 500⟩, 1, 3⟩ lastIdGlobals).2) :=
  ⟨⟨⟨by decide, by decide, by decide, by decide, by decide, by decide, by decide⟩,
      by decide, fun h => absurd h.inUseExact (by decide)⟩,
    ⟨by decide, by decide, by decide, by decide, by decide, by decide, by decide⟩,
    ⟨by decide, by decide⟩, by decide, by decide, fun h => absurd h.below (by decide)⟩

/-- C13, amended: starting from globals in which the five conditions on the
connections hold, pipe ids are pairwise different and smaller than
`nextPipeId`, and the counter `nextPipeId`, an `int` and so at least
-2147483648, is below 2147483647, every run of `connectStations`,
`disconnectStations`, `deletePipe` and `deleteCompressorStation`, whatever it
reads, gives globals in which the five conditions hold again and pipe ids are
again pairwise different and smaller than `nextPipeId`; a refused connection
leaves the connection list and every existing pipe as they were, and a
refused disconnection or deletion changes nothing at all. -/
theorem mutations_preserve_validity (g : Globals α) (hv : ConnectionsValid g.reg)
    (hf : PipeIdsFresh g) (hlo : -2147483648 ≤ g.nextPipeId)
    (hhi : g.nextPipeId < 2147483647) :
    (∀ inp : ConnectInput α,
      ConnectionsValid (connectStations inp g).2.reg ∧
      PipeIdsFresh (connectStations inp g).2 ∧
      ((connectStations inp g).1 = false → Untouched g (connectStations inp g).2)) ∧
    (∀ fromId toId : Int,
      ConnectionsValid (disconnectStations fromId toId g).2.reg ∧
      PipeIdsFresh (disconnectStations fromId toId g).2 ∧
      ((disconnectStations fromId toId g).1 = false →
        (disconnectStations fromId toId g).2 = g)) ∧
    (∀ id : Int,
      ConnectionsValid (deletePipe id g).2.reg ∧ PipeIdsFresh (deletePipe id g).2 ∧
      ((deletePipe id g).1 = false → (deletePipe id g).2 = g)) ∧
    (∀ id : Int,
      ConnectionsValid (deleteCompressorStation id g).2.reg ∧
      PipeIdsFresh (deleteCompressorStation id g).2 ∧
      ((deleteCompressorStation id g).1 = false →
        (deleteCompressorStation id g).2 = g)) :=
  ⟨fun inp => connectStations_spec inp g hv hf hlo hhi,
    fun fromId toId => disconnectStations_spec fromId toId g hv hf,
    fun id => deletePipe_spec id g hv hf,
    fun id => deleteCompressorStation_spec id g hv hf⟩

/-- C13, amended, on the chain scenario with `nextPipeId = 3`: a connection
1→3 over a newly created 500 mm pipe is accepted, the deletion of pipe 1,
which backs the connection 1→2, is refused. -/
theorem mutations_preserve_validity_witness :
    (connectStations ⟨500, 1, ⟨"n", 3, 500⟩, 1, 3⟩ chainGlobals).1 = true ∧
    (deletePipe 1 chainGlobals).1 = false ∧
    ((∀ inp : ConnectInput Int,
      ConnectionsValid (connectStations inp chainGlobals).2.reg ∧
      PipeIdsFresh (connectStations inp chainGlobals).2 ∧
      ((connectStations inp chainGlobals).1 = false →
        Untouched chainGlobals (connectStations inp chainGlobals).2)) ∧
    (∀ fromId toId : Int,
      ConnectionsValid (disconnectStations fromId toId chainGlobals).2.reg ∧
      PipeIdsFresh (disconnectStations fromId toId chainGlobals).2 ∧
      ((disconnectStations fromId toId chainGlobals).1 = false →
        (disconnectStations fromId toId chainGlobals).2 = chainGlobals)) ∧
    (∀ id : Int,
      ConnectionsValid (deletePipe id chainGlobals).2.reg ∧
      PipeIdsFresh (deletePipe id chainGlobals).2 ∧
      ((deletePipe id chainGlobals).1 = false → (deletePipe id chainGlobals).2 = chainGlobals)) ∧
    (∀ id : Int,
      ConnectionsValid (deleteCompressorStation id chainGlobals).2.reg ∧
      PipeIdsFresh (deleteCompressorStation id chainGlobals).2 ∧
      ((deleteCompressorStation id chainGlobals).1 = false →
        (deleteCompressorStation id chainGlobals).2 = chainGlobals))) :=
  ⟨by decide, by decide,
    mutations_preserve_validity chainGlobals
      ⟨by decide, by decide, by decide, by decide, by decide, by decide, by decide⟩
      ⟨by decide, by decide⟩ (by decide) (by decide)⟩

/-- C15, what the program does instead: on the two stations joined in both
directions, in the first iteration of the query 1→2 the search reaches the
sink over the arc 1→2, whose capacity is 100 with `flow[1][2] = 0`, so the
minimum over the path is 100; but `graph[1]` is `[(2, 0), (2, 100)]`, and the
bottleneck line either throws (entry at position 2) or takes the first entry
for neighbour 2 and adds 0 to the total. -/
theorem augmentStep_bottleneck_defect :
    (bfs antiparallelRegistry (fun _ _ => 0) 1 2).map (fun parent => parent 2) =
      some (some 1) ∧
    flowArcs antiparallelRegistry 1 = [(2, 0), (2, 100)] ∧
    (⟨2, 1, 2⟩ : NetworkConnection) ∈ antiparallelRegistry.connections ∧
    pipeCapacity antiparallelRegistry.pipes 2 = 100 ∧
    (augmentStep atPosition antiparallelRegistry 1 2 ⟨fun _ _ => 0, 0⟩).isThrew = true ∧
    (augmentStep atNeighbor antiparallelRegistry 1 2 ⟨fun _ _ => 0, 0⟩).total = some 0 := by
  refine ⟨by decide, by decide, by decide, by decide, by decide, by decide⟩

/-- C16, what the program does instead: on the two stations joined in both
directions, a well-formed registry, the query 1→2 between two existing
stations either leaves the loop by an exception in its first iteration, or
adds a bottleneck of 0 in every iteration and never leaves the loop; it does
not end with a search that cannot reach the sink. -/
theorem calculateMaxFlow_never_ends :
    WellFormed antiparallelRegistry ∧
    stationExists antiparallelRegistry 1 = true ∧
    stationExists antiparallelRegistry 2 = true ∧
    (∀ fuel, calculateMaxFlow atPosition (fuel + 1) antiparallelRegistry 1 2 =
      FlowOutcome.threw) ∧
    augmentStep atNeighbor antiparallelRegistry 1 2 ⟨fun _ _ => 0, 0⟩ =
      AugmentResult.augmented ⟨fun _ _ => 0, 0⟩ ∧
    (∀ fuel, calculateMaxFlow atNeighbor fuel antiparallelRegistry 1 2 =
      FlowOutcome.outOfFuel) := by
  have hstep : augmentStep atNeighbor antiparallelRegistry 1 2 ⟨fun _ _ => 0, 0⟩ =
      AugmentResult.augmented ⟨fun _ _ => 0, 0⟩ :=
    augmentStep_of_total _ _ _ _ _ (by decide)
  refine ⟨?_, by decide, by decide, ?_, hstep, ?_⟩
  · exact ⟨by decide, by decide, by decide, by decide, by decide, by decide, by decide,
      by decide, by decide, by decide, by decide, by decide⟩
  · intro fuel
    rw [calculateMaxFlow_valid _ _ _ _ _ (by decide) (by decide) (by decide) (by decide)]
    exact augmentLoop_threw _ _ _ _ _ (by decide) fuel
  · intro fuel
    rw [calculateMaxFlow_valid _ _ _ _ _ (by decide) (by decide) (by decide) (by decide)]
    exact augmentLoop_stuck _ _ _ _ _ hstep fuel

end Proofs

end GasNet
